import Mathlib

/-!
# UIEwebserver: buffer, heap timer, HTTP request and response, connection,
reactor tasks, database pool, blocking queue and log

A shallow embedding of `code/buffer.cpp`, `code/heaptimer.cpp`,
`code/httprequest.cpp`, `code/httpresponse.cpp`, `code/httpconn.cpp`,
`code/sqlconnpool.cpp`, `code/blockqueue.h`, `code/log.cpp` and of the
connection tasks of `code/webserver.cpp`, followed by the properties proved
about them.

Conventions of the embedding
* `size_t` cursors and lengths are natural numbers (a vector never holds
  anywhere near `2^64` bytes, and growing it is taken to succeed); a
  `std::vector<char>` is a list of bytes whose length is the vector's `size()`.
* A `const char*` into the buffer is the index of the byte it points at.
* A failed `assert` of a public member function ends the call without a result
  (`none`).  The asserts of the private helpers of `HeapTimer` bound the indices
  they are given; the lemmas about the helpers carry these bounds as hypotheses,
  and every caller is shown to meet them.
* `Clock::now()` is an explicit argument; a time point is an integer number of
  clock ticks.
* A callback is a label; invoking it is recorded, and it does not touch the timer.
-/

set_option autoImplicit false

/-! ## Part I: `Buffer` (code/buffer.cpp) -/

/-- One `char` of the backing vector. -/
abbrev Byte := UInt8

/-- The three data members of `class Buffer` (buffer.h, lines 47-53). -/
structure Buffer where
  buffer_ : List Byte
  readIndex_ : Nat
  writeIndex_ : Nat
  deriving DecidableEq, Repr

/-- The effect of `std::vector<char>::resize(k)`: keep the first `k` bytes,
value-initialise (zero) the new tail. -/
def vectorResize (v : List Byte) (k : Nat) : List Byte :=
  v.take k ++ List.replicate (k - v.length) 0

/-- The loop of `std::copy(first, last, dest)` into the backing vector: the bytes
`src` are stored one after the other from index `pos` on. -/
def stdCopy : List Byte → Nat → List Byte → List Byte
  | buf, _, [] => buf
  | buf, pos, x :: xs => stdCopy (buf.set pos x) (pos + 1) xs

namespace Buffer

/-- Constructor `Buffer::Buffer(initBufferSize)` (line 6). -/
def new (initBufferSize : Nat) : Buffer :=
  { buffer_ := List.replicate initBufferSize 0, readIndex_ := 0, writeIndex_ := 0 }

/-- Source lines 9-11. -/
def WritableBytes (b : Buffer) : Nat := b.buffer_.length - b.writeIndex_

/-- Source lines 13-15. -/
def ReadableBytes (b : Buffer) : Nat := b.writeIndex_ - b.readIndex_

/-- Source lines 17-19. -/
def PrependableBytes (b : Buffer) : Nat := b.readIndex_

/-- The pointer `Peek()` (lines 22-24), as an index into `buffer_`. -/
def Peek (b : Buffer) : Nat := b.readIndex_

/-- The pointer `BeginWrite()` (lines 73-75), as an index into `buffer_`. -/
def BeginWrite (b : Buffer) : Nat := b.writeIndex_

/-- The bytes of the readable region `[readIndex_, writeIndex_)`, that is
`std::string(Peek(), ReadableBytes())`. -/
def readable (b : Buffer) : List Byte :=
  (b.buffer_.drop b.Peek).take b.ReadableBytes

/-- Source lines 156-171.  The slide copies the range `[readIndex_, writeIndex_)`
to the front; the destination starts before the source, so the bytes read are
the ones the range held on entry. -/
def MakeSpace_ (b : Buffer) (len : Nat) : Buffer :=
  if b.WritableBytes + b.PrependableBytes < len then
    { b with buffer_ := vectorResize b.buffer_ (b.writeIndex_ + len + 1) }
  else
    let readable := b.ReadableBytes
    { buffer_ := stdCopy b.buffer_ 0
        ((b.buffer_.drop b.readIndex_).take (b.writeIndex_ - b.readIndex_)),
      readIndex_ := 0,
      writeIndex_ := readable }

/-- Source lines 26-31.  The closing `assert(len <= WritableBytes())` is not part
of the result: it is proved to hold (`Buffer.EnsureWritable_spec`). -/
def EnsureWritable (b : Buffer) (len : Nat) : Buffer :=
  if b.WritableBytes < len then b.MakeSpace_ len else b

/-- Source lines 34-36. -/
def HasWritten (b : Buffer) (len : Nat) : Buffer :=
  { b with writeIndex_ := b.writeIndex_ + len }

/-- Source lines 53-61. -/
def RetrieveAll (b : Buffer) : Buffer :=
  { b with readIndex_ := 0, writeIndex_ := 0 }

/-- Source lines 39-45. -/
def Retrieve (b : Buffer) (len : Nat) : Buffer :=
  if len < b.ReadableBytes then { b with readIndex_ := b.readIndex_ + len }
  else b.RetrieveAll

/-- Source lines 48-51; `e` is the index the pointer `end` points at.  The call
has no result when `assert(Peek() <= end)` fails. -/
def RetrieveUntil (b : Buffer) (e : Nat) : Option Buffer :=
  if b.Peek ≤ e then some (b.Retrieve (e - b.Peek)) else none

/-- Source lines 63-67: the returned string and the buffer afterwards. -/
def RetrieveAllToStr (b : Buffer) : List Byte × Buffer :=
  (b.readable, b.RetrieveAll)

/-- Source lines 77-83 (`Append(const char* str, size_t len)`, which the other
overloads forward to); `str` holds the `len` bytes to append. -/
def Append (b : Buffer) (str : List Byte) : Buffer :=
  let b1 := b.EnsureWritable str.length
  let b2 := { b1 with buffer_ := stdCopy b1.buffer_ b1.BeginWrite str }
  b2.HasWritten str.length

end Buffer

/-- What `readv(fd, iov, 2)` does in one call: it fails with an `errno`, or it
delivers a byte string. -/
inductive ReadvOutcome where
  | fail (errno : Int)
  | deliver (d : List Byte)

/-- Size of the stack buffer `char buff[65545]` of `ReadFd` (line 99). -/
def stackBuffSize : Nat := 65545

namespace Buffer

/-- Source lines 97-129.  `stack` is the content of `buff` on entry and
`Errno` the value of `*Errno` on entry; the result is the buffer, the returned
`len` and `*Errno` afterwards.  A delivered string first fills
`[writeIndex_, size)` (`iov[0]`), the rest goes to `buff` (`iov[1]`). -/
def ReadFd (b : Buffer) (stack : List Byte) (Errno : Int) (r : ReadvOutcome) :
    Buffer × Int × Int :=
  let writeable := b.WritableBytes
  match r with
  | .fail errno => (b, -1, errno)
  | .deliver d =>
    let b1 := { b with buffer_ := stdCopy b.buffer_ b.BeginWrite (d.take writeable) }
    let buff := stdCopy stack 0 (d.drop writeable)
    let len := d.length
    if len ≤ writeable then
      ({ b1 with writeIndex_ := b1.writeIndex_ + len }, len, Errno)
    else
      let b2 := { b1 with writeIndex_ := b1.buffer_.length }
      (b2.Append (buff.take (len - writeable)), len, Errno)

end Buffer

/-- The calls of `Buffer` that always return. -/
inductive BufferOp where
  | append (s : List Byte)
  | retrieve (n : Nat)
  | retrieveAll
  | ensureWritable (n : Nat)

/-- Every state-changing call of the claim about the cursors. -/
inductive BufferCall where
  | op (o : BufferOp)
  | retrieveUntil (e : Nat)
  | retrieveAllToStr

namespace Buffer

/-- Perform one call. -/
def applyOp (b : Buffer) : BufferOp → Buffer
  | .append s => b.Append s
  | .retrieve n => b.Retrieve n
  | .retrieveAll => b.RetrieveAll
  | .ensureWritable n => b.EnsureWritable n

/-- Perform a sequence of calls, first to last. -/
def runOps (b : Buffer) (ops : List BufferOp) : Buffer :=
  ops.foldl applyOp b

/-- Perform one call; `none` when an assertion of the call fails. -/
def applyCall (b : Buffer) : BufferCall → Option Buffer
  | .op o => some (b.applyOp o)
  | .retrieveUntil e => b.RetrieveUntil e
  | .retrieveAllToStr => some b.RetrieveAllToStr.2

/-- Perform a sequence of calls, first to last. -/
def runCalls (b : Buffer) : List BufferCall → Option Buffer
  | [] => some b
  | c :: cs => (b.applyCall c).bind (fun b1 => b1.runCalls cs)

/-- The cursor invariant `readIndex_ ≤ writeIndex_ ≤ buffer_.size()`. -/
def CursorInv (b : Buffer) : Prop :=
  b.readIndex_ ≤ b.writeIndex_ ∧ b.writeIndex_ ≤ b.buffer_.length

instance (b : Buffer) : Decidable b.CursorInv := by
  unfold CursorInv; infer_instance

end Buffer

/-- The queue the claim compares the buffer with: the bytes appended so
far, minus the bytes retrieved from the front. -/
def fifoStep (q : List Byte) : BufferOp → List Byte
  | .append s => q ++ s
  | .retrieve n => q.drop (min n q.length)
  | .retrieveAll => []
  | .ensureWritable _ => q

/-- The queue after a sequence of calls. -/
def fifoRun (q : List Byte) (ops : List BufferOp) : List Byte :=
  ops.foldl fifoStep q

/-! ## Part II: `HeapTimer` (code/heaptimer.h, code/heaptimer.cpp) -/

/-- The `struct TimerNode` (heaptimer.h, lines 26-37).  `expires` is a time point
in clock ticks; the callback `cb` is represented by a label, and invoking it is
recorded by listing the node among the fired ones. -/
structure TimerNode where
  id : Int
  expires : Int
  cb : Nat
  deriving DecidableEq, Repr, Inhabited

/-- Ticks of `Clock` (`std::chrono::high_resolution_clock`) in one millisecond:
the clock counts nanoseconds. -/
def ticksPerMs : Int := 1000000

/-- The duration `MS(n)` converted to clock ticks, as in `Clock::now() + MS(n)`. -/
def MS (n : Int) : Int := n * ticksPerMs

/-- The value of `std::chrono::duration_cast<MS>(d).count()`: whole milliseconds
in a duration of `d` ticks, rounded toward zero. -/
def durationCastMS (d : Int) : Int := Int.tdiv d ticksPerMs

/-- The conversion `static_cast<int>` of a 64-bit count (two's complement, 32 bits). -/
def toInt32 (x : Int) : Int := (x + 2147483648) % 4294967296 - 2147483648

/-- The element `heap_[i]` of the vector. -/
def heapAt (h : List TimerNode) (i : Nat) : TimerNode := h.getD i default

/-- The effect of `swap(heap_[i], heap_[j])` on the vector. -/
def swapList (h : List TimerNode) (i j : Nat) : List TimerNode :=
  (h.set i (heapAt h j)).set j (heapAt h i)

/-- The assignment `ref_[k] = v` on the `unordered_map`, seen as a finite map. -/
def mapAssign (m : Int → Option Nat) (k : Int) (v : Nat) : Int → Option Nat :=
  fun x => if x = k then some v else m x

/-- The call `ref_.erase(k)`. -/
def mapErase (m : Int → Option Nat) (k : Int) : Int → Option Nat :=
  fun x => if x = k then none else m x

/-- The test `ref_.count(k)` (0 or 1), as a boolean. -/
def mapCount (m : Int → Option Nat) (k : Int) : Bool := (m k).isSome

/-- The value read by `ref_[k]`; every read in the source follows a `count(k)` test. -/
def mapGet (m : Int → Option Nat) (k : Int) : Nat := (m k).getD 0

/-- The two data members of `class HeapTimer` (heaptimer.h, lines 58-59). -/
structure HeapTimer where
  heap_ : List TimerNode
  ref_ : Int → Option Nat

namespace HeapTimer

/-- The timer after the constructor: no node. -/
def empty : HeapTimer := { heap_ := [], ref_ := fun _ => none }

/-- Source lines 4-10, for `i, j < heap_.size()` (the two asserts). -/
def SwapNode_ (t : HeapTimer) (i j : Nat) : HeapTimer :=
  let heap := swapList t.heap_ i j
  let ref1 := mapAssign t.ref_ (heapAt heap i).id i
  { heap_ := heap, ref_ := mapAssign ref1 (heapAt heap j).id j }

/-- The `while` loop of `siftup_` (lines 15-24); `fuel` bounds the iterations. -/
def siftupLoop : Nat → HeapTimer → Nat → HeapTimer
  | 0, t, _ => t
  | fuel + 1, t, i =>
    if 0 < i then
      let parent := (i - 1) / 2
      if (heapAt t.heap_ parent).expires > (heapAt t.heap_ i).expires then
        siftupLoop fuel (t.SwapNode_ i parent) parent
      else t
    else t

/-- Source lines 12-25, for `i < heap_.size()` (the assert).  The index strictly
decreases at each iteration, so `i` iterations are all the loop can make. -/
def siftup_ (t : HeapTimer) (i : Nat) : HeapTimer := siftupLoop i t i

/-- The `while` loop of `siftdown_` (lines 35-50): the timer and the final value
of `index`; `fuel` bounds the iterations. -/
def siftdownLoop : Nat → HeapTimer → Nat → Nat → HeapTimer × Nat
  | 0, t, index, _ => (t, index)
  | fuel + 1, t, index, n =>
    let child := 2 * index + 1
    if child < n then
      let child :=
        if child + 1 < n ∧ (heapAt t.heap_ (child + 1)).expires < (heapAt t.heap_ child).expires
        then child + 1 else child
      if (heapAt t.heap_ child).expires < (heapAt t.heap_ index).expires then
        siftdownLoop fuel (t.SwapNode_ index child) child n
      else (t, index)
    else (t, index)

/-- Source lines 29-53, for `i < heap_.size()` and `n ≤ heap_.size()` (the
asserts): the timer afterwards and the returned `index > i`.  The index strictly
increases and stays below `n`, so `n - i` iterations are all the loop can make. -/
def siftdown_ (t : HeapTimer) (i n : Nat) : HeapTimer × Bool :=
  let r := siftdownLoop (n - i) t i n
  (r.1, decide (r.2 > i))

/-- Source lines 56-73, for `index < heap_.size()` (the assert). -/
def del_ (t : HeapTimer) (index : Nat) : HeapTimer :=
  let tmp := index
  let n := t.heap_.length - 1
  let t1 :=
    if index < t.heap_.length - 1 then
      let t2 := t.SwapNode_ tmp (t.heap_.length - 1)
      let r := t2.siftdown_ tmp n
      if !r.2 then r.1.siftup_ tmp else r.1
    else t
  { heap_ := t1.heap_.dropLast,
    ref_ := mapErase t1.ref_ (heapAt t1.heap_ (t1.heap_.length - 1)).id }

/-- Source lines 76-83, with `now` the value of `Clock::now()`; no result when
the assert fails. -/
def adjust (t : HeapTimer) (now : Int) (id newExpires : Int) : Option HeapTimer :=
  if !t.heap_.isEmpty && mapCount t.ref_ id then
    let i := mapGet t.ref_ id
    let node : TimerNode := { heapAt t.heap_ i with expires := now + MS newExpires }
    let t1 : HeapTimer := { t with heap_ := t.heap_.set i node }
    some (t1.siftdown_ (mapGet t1.ref_ id) t1.heap_.length).1
  else none

/-- Source lines 86-107, with `now` the value of `Clock::now()`; no result when
`assert(id >= 0)` fails. -/
def add (t : HeapTimer) (now : Int) (id timeOut : Int) (cb : Nat) : Option HeapTimer :=
  if 0 ≤ id then
    if mapCount t.ref_ id then
      let tmp := mapGet t.ref_ id
      let node : TimerNode := { heapAt t.heap_ tmp with expires := now + MS timeOut, cb := cb }
      let t1 : HeapTimer := { t with heap_ := t.heap_.set tmp node }
      let r := t1.siftdown_ tmp t1.heap_.length
      some (if !r.2 then r.1.siftup_ tmp else r.1)
    else
      let n := t.heap_.length
      let t1 : HeapTimer :=
        { heap_ := t.heap_ ++ [{ id := id, expires := now + MS timeOut, cb := cb }],
          ref_ := mapAssign t.ref_ id n }
      some (t1.siftup_ n)
  else none

/-- Source lines 110-118: the timer afterwards and the nodes whose callback was
invoked. -/
def doWork (t : HeapTimer) (id : Int) : HeapTimer × List TimerNode :=
  if t.heap_.isEmpty || !mapCount t.ref_ id then (t, [])
  else
    let i := mapGet t.ref_ id
    let node := heapAt t.heap_ i
    (t.del_ i, [node])

/-- Source lines 137-140; no result when `assert(!heap_.empty())` fails. -/
def pop (t : HeapTimer) : Option HeapTimer :=
  if !t.heap_.isEmpty then some (t.del_ 0) else none

/-- The `while` loop of `tick` (lines 127-134) at the clock reading `now`: the
timer afterwards and the nodes whose callback was invoked, in order.  `pop` is
called on a non-empty heap, where it is `del_ 0`; `fuel` bounds the iterations. -/
def tickLoop : Nat → HeapTimer → Int → HeapTimer × List TimerNode
  | 0, t, _ => (t, [])
  | fuel + 1, t, now =>
    if !t.heap_.isEmpty then
      let node := heapAt t.heap_ 0
      if durationCastMS (node.expires - now) > 0 then (t, [])
      else
        let r := tickLoop fuel (t.del_ 0) now
        (r.1, node :: r.2)
    else (t, [])

/-- Source lines 122-135, the clock reading `now` during the call.  Each
iteration removes one node, so `heap_.size()` iterations are all the loop can
make. -/
def tick (t : HeapTimer) (now : Int) : HeapTimer × List TimerNode :=
  if t.heap_.isEmpty then (t, []) else tickLoop t.heap_.length t now

/-- Source lines 142-145. -/
def clear (_t : HeapTimer) : HeapTimer := { heap_ := [], ref_ := fun _ => none }

/-- Source lines 148-157: the timer afterwards, the fired nodes and the returned
`res`.  `now` is the clock reading during `tick()`, `now2` the one of line 153. -/
def GetNextTick (t : HeapTimer) (now now2 : Int) : HeapTimer × List TimerNode × Int :=
  let r := t.tick now
  let res : Int := -1
  let res :=
    if !r.1.heap_.isEmpty then
      let res := toInt32 (durationCastMS ((heapAt r.1.heap_ 0).expires - now2))
      if res < 0 then 0 else res
    else res
  (r.1, r.2, res)

end HeapTimer

/-- The calls of `HeapTimer` of the claim about the index map, each with the
clock reading it sees. -/
inductive TimerCall where
  | add (now id timeOut : Int) (cb : Nat)
  | adjust (now id newExpires : Int)
  | doWork (id : Int)
  | pop
  | tick (now : Int)

namespace HeapTimer

/-- Perform one call; `none` when an assertion of the call fails. -/
def applyCall (t : HeapTimer) : TimerCall → Option HeapTimer
  | .add now id timeOut cb => t.add now id timeOut cb
  | .adjust now id newExpires => t.adjust now id newExpires
  | .doWork id => some (t.doWork id).1
  | .pop => t.pop
  | .tick now => some (t.tick now).1

/-- Perform a sequence of calls, first to last. -/
def runCalls (t : HeapTimer) : List TimerCall → Option HeapTimer
  | [] => some t
  | c :: cs => (t.applyCall c).bind (fun t1 => t1.runCalls cs)

/-- The index-map invariant: `ref_` maps the id of `heap_[i]` to `i`, and every
key of `ref_` is the id of the node at the index it is mapped to. -/
def IndexInv (t : HeapTimer) : Prop :=
  (∀ i, i < t.heap_.length → t.ref_ (heapAt t.heap_ i).id = some i) ∧
  (∀ id i, t.ref_ id = some i → i < t.heap_.length ∧ (heapAt t.heap_ i).id = id)

end HeapTimer

/-- The heap-order invariant on the first `n` nodes:
`heap_[parent(i)].expires ≤ heap_[i].expires` for `0 < i < n`. -/
def HeapOrdered (h : List TimerNode) (n : Nat) : Prop :=
  ∀ i, i < n → 0 < i → (heapAt h ((i - 1) / 2)).expires ≤ (heapAt h i).expires

instance (h : List TimerNode) (n : Nat) : Decidable (HeapOrdered h n) := by
  unfold HeapOrdered; infer_instance

/-! ## Part III: `HttpRequest` (code/httprequest.h, code/httprequest.cpp)

A `std::string` is the list of its bytes.  `std::regex_match` is embedded by a
matcher written for each of the two patterns of the source; `RequestLineMatch`
and `HeaderLineMatch` spell out the languages of the patterns, and the matchers
are proved to decide them.  The MySQL table `user` is a finite map from name
to password; `mysqlSelect` and `mysqlInsert` stand for the server at the two
statements of `UserVerify`.  Logging is left out. -/

/-- The bytes of a string literal of the source. -/
def cstr (s : String) : List Byte := s.toList.map (fun c => UInt8.ofNat c.toNat)

/-- A `std::unordered_map<std::string, std::string>`, seen as a finite map. -/
abbrev StrMap := List Byte → Option (List Byte)

/-- The map after `clear()`. -/
def StrMap.empty : StrMap := fun _ => none

/-- The assignment `m[k] = v`. -/
def StrMap.assign (m : StrMap) (k v : List Byte) : StrMap :=
  fun x => if x = k then some v else m x

/-- The value of `m.count(k)`. -/
def StrMap.count (m : StrMap) (k : List Byte) : Nat := if (m k).isSome then 1 else 0

/-- The read `m[k]`: the value, and the map afterwards, in which an absent key
has been inserted with the empty string. -/
def StrMap.index (m : StrMap) (k : List Byte) : List Byte × StrMap :=
  match m k with
  | some v => (v, m)
  | none => ([], StrMap.assign m k [])

/-- The rows of the table `user`: name to password. -/
abbrev UserTable := StrMap

/-- The `enum PARSE_STATE` (httprequest.h, lines 18-23). -/
inductive PARSE_STATE where
  | REQUEST_LINE
  | HEADERS
  | BODY
  | FINISH
  deriving DecidableEq, Repr

/-- The data members of `class HttpRequest` (httprequest.h, lines 56-59). -/
structure HttpRequest where
  state_ : PARSE_STATE
  method_ : List Byte
  path_ : List Byte
  version_ : List Byte
  body_ : List Byte
  header_ : StrMap
  post_ : StrMap

/-- The set `DEFAULT_HTML` (lines 7-10). -/
def DEFAULT_HTML : List (List Byte) :=
  [cstr "/index", cstr "/register", cstr "/login", cstr "/welcome", cstr "/video",
    cstr "/picture"]

/-- The map `DEFAULT_HTML_TAG` (lines 12-14). -/
def DEFAULT_HTML_TAG (path : List Byte) : Option Int :=
  if path = cstr "/register.html" then some 0
  else if path = cstr "/login.html" then some 1
  else none

/-- The language of the pattern `^([^ ]*) ([^ ]*) HTTP/([^ ]*)$` of
`ParseRequestLine_` with its three groups: three tokens without a space, any of
which may be empty. -/
def RequestLineMatch (line m p v : List Byte) : Prop :=
  line = m ++ [32] ++ p ++ [32] ++ cstr "HTTP/" ++ v ∧ 32 ∉ m ∧ 32 ∉ p ∧ 32 ∉ v

/-- The result of `regex_match(line, subMatch, patten)` in `ParseRequestLine_`
(lines 102-104): the three groups when the line matches. -/
def matchRequestLine (line : List Byte) : Option (List Byte × List Byte × List Byte) :=
  let m := line.takeWhile (fun c => c != 32)
  match line.dropWhile (fun c => c != 32) with
  | [] => none
  | _ :: r1 =>
    let p := r1.takeWhile (fun c => c != 32)
    match r1.dropWhile (fun c => c != 32) with
    | [] => none
    | _ :: r2 =>
      if (cstr "HTTP/").isPrefixOf r2 ∧ 32 ∉ r2.drop 5 then some (m, p, r2.drop 5) else none

/-- The language of the pattern `^([^:]*): ?(.*)$` of `ParseHeader_` with its two
groups: a name without a colon, a colon, at most one space taken greedily, and a
value in which `.` admits every byte but `\n` and `\r`. -/
def HeaderLineMatch (line k v : List Byte) : Prop :=
  58 ∉ k ∧ 10 ∉ v ∧ 13 ∉ v ∧
  (line = k ++ [58, 32] ++ v ∨ (line = k ++ [58] ++ v ∧ v.head? ≠ some 32))

/-- The result of `regex_match(line, subMatch, patten)` in `ParseHeader_` (lines
117-119): the two groups when the line matches. -/
def matchHeaderLine (line : List Byte) : Option (List Byte × List Byte) :=
  let k := line.takeWhile (fun c => c != 58)
  match line.dropWhile (fun c => c != 58) with
  | [] => none
  | _ :: r =>
    let v := match r with
      | [] => r
      | c :: r1 => if c = 32 then r1 else r
    if 10 ∉ v ∧ 13 ∉ v then some (k, v) else none

/-- The offset at which `std::search` finds the first `"\r\n"` in a range, or
the length of the range when there is none (line 46). -/
def searchCRLF : List Byte → Nat
  | [] => 0
  | [_] => 1
  | a :: b :: rest => if a = 13 ∧ b = 10 then 0 else searchCRLF (b :: rest) + 1

/-- Source lines 136-141. -/
def ConverHex (ch : Byte) : Nat :=
  if 48 ≤ ch ∧ ch ≤ 57 then ch.toNat - 48
  else if 65 ≤ ch ∧ ch ≤ 70 then ch.toNat - 65 + 10
  else if 97 ≤ ch ∧ ch ≤ 102 then ch.toNat - 97 + 10
  else 0

/-- The local variables of `ParseFormUrlencoded_` together with the two members it
writes. -/
structure FormLoopState where
  body_ : List Byte
  post_ : StrMap
  key : List Byte
  value : List Byte
  i : Nat
  j : Nat

/-- The value of `s.substr(pos, count)` for `pos ≤ s.size()`. -/
def substr (s : List Byte) (pos count : Nat) : List Byte := (s.drop pos).take count

/-- The value of `s[i]`.  The position `s.size()` holds the terminating zero.  A
position after it is outside the string, and reading it is undefined behaviour:
`past` stands for the byte that such a read finds in the memory behind the
terminator. -/
def charAt (past : Byte) (s : List Byte) (i : Nat) : Byte :=
  if h : i < s.length then s[i] else if i = s.length then 0 else past

/-- The `for` loop of `ParseFormUrlencoded_` (lines 177-204); `n` is
`body_.size()` and `fuel` bounds the iterations.  The `%` case reads `body_[i + 1]`
and `body_[i + 2]` whatever `n` is; for a `%` that ends the body, the second of
them is the byte `past` of `charAt`. -/
def formLoop (past : Byte) (n : Nat) : Nat → FormLoopState → FormLoopState
  | 0, s => s
  | fuel + 1, s =>
    if s.i < n then
      let ch := charAt past s.body_ s.i
      let s1 : FormLoopState :=
        if ch = 61 then
          { s with key := substr s.body_ s.j (s.i - s.j), j := s.i + 1 }
        else if ch = 43 then
          { s with body_ := s.body_.set s.i 32 }
        else if ch = 37 then
          let num := ConverHex (charAt past s.body_ (s.i + 1)) * 16 +
            ConverHex (charAt past s.body_ (s.i + 2))
          { s with body_ := s.body_.set s.i (UInt8.ofNat num), i := s.i + 2 }
        else if ch = 38 then
          let value := substr s.body_ s.j (s.i - s.j)
          { s with value := value, j := s.i + 1, post_ := StrMap.assign s.post_ s.key value }
        else s
      formLoop past n fuel { s1 with i := s1.i + 1 }
    else s

/-- The text that `%s` prints for the argument `s.c_str()`, and the value of
`std::string(p)` for a pointer `p` to the bytes `s` and a zero after them: the
bytes of `s` before its first zero byte. -/
def cArg (s : List Byte) : List Byte := s.takeWhile (fun b => b != 0)

/-- The C string that `snprintf(array, size, ...)` leaves in a character array
for the formatted text `s`. -/
def cString (size : Nat) (s : List Byte) : List Byte := s.take (size - 1)

/-- A string literal of SQL, read from the text `t` that follows its opening
quote: the bytes of the literal and the text after its closing quote.  There is
no result when no quote closes the literal.  A backslash starts an escape
sequence, which this embedding does not follow: there is no result for it
either. -/
def sqlLiteral (t : List Byte) : Option (List Byte × List Byte) :=
  let lit := t.takeWhile (fun b => b != 39)
  match t.drop lit.length with
  | [] => none
  | _ :: rest => if 92 ∈ lit then none else some (lit, rest)

/-- The server at `mysql_query(sql, order)` of line 235 and the
`mysql_store_result` after it: no result when the query fails, else the password
of the row found, if there is one.  The statement is the C string `order`.  The
server runs `SELECT username, password FROM user WHERE username='<literal>'`,
with ` LIMIT 1` or without it; names are compared byte by byte.  Any other text
is taken to fail: that is what the server does with a statement cut inside the
literal or inside ` LIMIT 1`.  A name with a quote or a backslash makes another
statement of the text (the code escapes nothing); what the server does with
that one is outside this embedding, and it is taken to fail too. -/
def mysqlSelect (db : UserTable) (order : List Byte) : Option (Option (List Byte)) :=
  let head := cstr "SELECT username, password FROM user WHERE username='"
  if order.take head.length = head then
    match sqlLiteral (order.drop head.length) with
    | some (lit, rest) =>
      if rest = cstr " LIMIT 1" ∨ rest = cstr " " ∨ rest = [] then some (db lit) else none
    | none => none
  else none

/-- The server at `mysql_query(sql, order)` of line 270: no result when the query
fails, else the table afterwards.  The server runs
`INSERT INTO user(username, password) VALUES('<literal>','<literal>')`; any other
text is taken to fail, as in `mysqlSelect`.  `UserVerify` reaches the `INSERT`
only after its `SELECT` found no row of the same name. -/
def mysqlInsert (db : UserTable) (order : List Byte) : Option UserTable :=
  let head := cstr "INSERT INTO user(username, password) VALUES('"
  if order.take head.length = head then
    match sqlLiteral (order.drop head.length) with
    | some (name, rest) =>
      if rest.take 2 = cstr ",'" then
        match sqlLiteral (rest.drop 2) with
        | some (pwd, rest) => if rest = cstr ")" then some (StrMap.assign db name pwd) else none
        | none => none
      else none
    | none => none
  else none

/-- The C string in `order` after the `snprintf` of lines 230-231, which keeps the
first 255 bytes of the text. -/
def selectOrder (name : List Byte) : List Byte :=
  cString 256
    (cstr "SELECT username, password FROM user WHERE username='" ++ cArg name
      ++ cstr "' LIMIT 1")

/-- The C string in `order` after the `snprintf` of line 268. -/
def insertOrder (name pwd : List Byte) : List Byte :=
  cString 256
    (cstr "INSERT INTO user(username, password) VALUES('" ++ cArg name ++ cstr "','"
      ++ cArg pwd ++ cstr "')")

namespace HttpRequest

/-- Source lines 16-21. -/
def Init (_r : HttpRequest) : HttpRequest :=
  { state_ := .REQUEST_LINE, method_ := [], path_ := [], version_ := [], body_ := [],
    header_ := StrMap.empty, post_ := StrMap.empty }

/-- The object after the constructor (httprequest.h, lines 25-27). -/
def new : HttpRequest :=
  { state_ := .REQUEST_LINE, method_ := [], path_ := [], version_ := [], body_ := [],
    header_ := StrMap.empty, post_ := StrMap.empty }

/-- Source lines 26-31. -/
def IsKeepAlive (r : HttpRequest) : Bool :=
  if StrMap.count r.header_ (cstr "Connection") = 1 then
    decide (r.header_ (cstr "Connection") = some (cstr "keep-alive")) &&
      decide (r.version_ = cstr "1.1")
  else false

/-- Source lines 86-98. -/
def ParsePath_ (r : HttpRequest) : HttpRequest :=
  if r.path_ = cstr "/" then { r with path_ := cstr "/index.html" }
  else if r.path_ ∈ DEFAULT_HTML then { r with path_ := r.path_ ++ cstr ".html" }
  else r

/-- Source lines 100-113: the returned flag and the request afterwards. -/
def ParseRequestLine_ (r : HttpRequest) (line : List Byte) : Bool × HttpRequest :=
  match matchRequestLine line with
  | some (m, p, v) =>
    (true, { r with method_ := m, path_ := p, version_ := v, state_ := .HEADERS })
  | none => (false, r)

/-- Source lines 115-125. -/
def ParseHeader_ (r : HttpRequest) (line : List Byte) : HttpRequest :=
  match matchHeaderLine line with
  | some (k, v) => { r with header_ := StrMap.assign r.header_ k v }
  | none => { r with state_ := .BODY }

/-- Source lines 169-210.  The loop advances `i` at every iteration, so
`body_.size()` iterations are all it can make; `assert(j <= i)` holds after it
(`formLoop_j_le_i`).  `past` is the byte of `charAt`; the functions that reach
this one pass it on. -/
def ParseFormUrlencoded_ (past : Byte) (r : HttpRequest) : HttpRequest :=
  if r.body_.length = 0 then r
  else
    let n := r.body_.length
    let s := formLoop past n n
      { body_ := r.body_, post_ := r.post_, key := [], value := [], i := 0, j := 0 }
    if StrMap.count s.post_ s.key = 0 ∧ s.j < s.i then
      { r with body_ := s.body_,
               post_ := StrMap.assign s.post_ s.key (substr s.body_ s.j (s.i - s.j)) }
    else { r with body_ := s.body_, post_ := s.post_ }

/-- Source lines 212-278: the returned flag and the table afterwards.  Both
statements are printed into `char order[256]` by `snprintf(order, 256, ...)`
(`selectOrder`, `insertOrder`).  A failing `SELECT` returns false
(lines 235-238).  A failing `INSERT` sets `flag = false` at line 272, inside
the braces of the `if` of line 270, and line 274, after the braces, sets
`flag = true`: the function returns true and the table has no new row.
`std::string password(row[1])` is the stored password up to its first zero
byte. -/
def UserVerify (db : UserTable) (name pwd : List Byte) (isLogin : Bool) : Bool × UserTable :=
  if name = [] ∨ pwd = [] then (false, db)
  else
    let flag := false
    let flag := if !isLogin then true else flag
    match mysqlSelect db (selectOrder name) with
    | none => (false, db)
    | some row =>
      let flag :=
        match row with
        | some password =>
          if isLogin then (if pwd = cArg password then true else false) else false
        | none => flag
      if !isLogin ∧ flag = true then
        match mysqlInsert db (insertOrder name pwd) with
        | some db1 => (true, db1)
        | none => (true, db)
      else (flag, db)

/-- Source lines 143-160: the request and the table afterwards. -/
def ParsePost_ (past : Byte) (db : UserTable) (r : HttpRequest) : HttpRequest × UserTable :=
  if r.method_ = cstr "POST" then
    let ct := StrMap.index r.header_ (cstr "Content-Type")
    let r := { r with header_ := ct.2 }
    if ct.1 = cstr "application/x-www-form-urlencoded" then
      let r := r.ParseFormUrlencoded_ past
      match DEFAULT_HTML_TAG r.path_ with
      | some tag =>
        if tag = 0 ∨ tag = 1 then
          let isLogin := decide (tag = 1)
          let name := StrMap.index r.post_ (cstr "username")
          let pwd := StrMap.index name.2 (cstr "password")
          let r := { r with post_ := pwd.2 }
          let res := UserVerify db name.1 pwd.1 isLogin
          if res.1 then ({ r with path_ := cstr "/welcome.html" }, res.2)
          else ({ r with path_ := cstr "/error.html" }, res.2)
        else (r, db)
      | none => (r, db)
    else (r, db)
  else (r, db)

/-- Source lines 128-133. -/
def ParseBody_ (past : Byte) (db : UserTable) (r : HttpRequest) (line : List Byte) :
    HttpRequest × UserTable :=
  let res := ParsePost_ past db { r with body_ := line }
  ({ res.1 with state_ := .FINISH }, res.2)

/-- The `switch` of `parse` (lines 49-72): `none` for the `return false` of line
53, else the request and the table afterwards. -/
def parseSwitch (past : Byte) (db : UserTable) (r : HttpRequest) (buff : Buffer)
    (line : List Byte) : Option (HttpRequest × UserTable) :=
  match r.state_ with
  | .REQUEST_LINE =>
    let res := r.ParseRequestLine_ line
    if !res.1 then none else some (res.2.ParsePath_, db)
  | .HEADERS =>
    let r1 := r.ParseHeader_ line
    if buff.ReadableBytes ≤ 2 then some ({ r1 with state_ := .FINISH }, db) else some (r1, db)
  | .BODY => some (ParseBody_ past db r line)
  | .FINISH => some (r, db)

/-- The `while` loop of `parse` (lines 43-79) and the `return true` after it: the
returned flag, the request, the buffer and the table afterwards.  `lineEnd` is
`Peek()` plus the offset found by `std::search`, `line` the bytes before it;
`RetrieveUntil(lineEnd + 2)`, whose assert holds as `Peek() ≤ lineEnd`, is the
`Retrieve` it makes.  `fuel` bounds the iterations. -/
def parseLoop (past : Byte) : Nat → UserTable → HttpRequest → Buffer →
    Bool × HttpRequest × Buffer × UserTable
  | 0, db, r, buff => (true, r, buff, db)
  | fuel + 1, db, r, buff =>
    if buff.ReadableBytes ≠ 0 ∧ r.state_ ≠ .FINISH then
      let lineEnd := buff.Peek + searchCRLF buff.readable
      let line := buff.readable.take (lineEnd - buff.Peek)
      match parseSwitch past db r buff line with
      | none => (false, r, buff, db)
      | some (r1, db1) =>
        if lineEnd = buff.BeginWrite then (true, r1, buff, db1)
        else parseLoop past fuel db1 r1 (buff.Retrieve (lineEnd + 2 - buff.Peek))
    else (true, r, buff, db)

/-- Source lines 35-83.  Every iteration that goes on retrieves at least two
bytes, so `ReadableBytes() + 1` iterations are all the loop can make
(`parseLoop_fuel`). -/
def parse (past : Byte) (db : UserTable) (r : HttpRequest) (buff : Buffer) :
    Bool × HttpRequest × Buffer × UserTable :=
  if buff.ReadableBytes ≤ 0 then (false, r, buff, db)
  else parseLoop past (buff.ReadableBytes + 1) db r buff

end HttpRequest

/-! ## Part IV: `HttpResponse` (code/httpresponse.h, code/httpresponse.cpp)

The file system is a function from path to entry, fixed during a call.  `stat`
fails on a missing path; `open(path, O_RDONLY)` succeeds on every entry that
exists; `mmap` maps the bytes of a regular file and fails on a directory. -/

/-- What a path names. -/
inductive FsEntry where
  | missing
  | directory (othRead : Bool) (size : Nat)
  | regular (othRead : Bool) (content : List Byte)

/-- The file system: what every path names. -/
abbrev FileSystem := List Byte → FsEntry

/-- The fields of `struct stat` the source reads: `S_ISDIR(st_mode)`,
`st_mode & S_IROTH` and `st_size`. -/
structure FileStat where
  isDir : Bool
  othRead : Bool
  st_size : Nat
  deriving DecidableEq, Repr

/-- The call `stat(path, &buf)`: `none` when it returns -1, else what it stores. -/
def sysStat (fs : FileSystem) (path : List Byte) : Option FileStat :=
  match fs path with
  | .missing => none
  | .directory othRead size => some { isDir := true, othRead := othRead, st_size := size }
  | .regular othRead content =>
    some { isDir := false, othRead := othRead, st_size := content.length }

/-- Whether `open(path, O_RDONLY)` returns a descriptor. -/
def sysOpen (fs : FileSystem) (path : List Byte) : Bool :=
  match fs path with
  | .missing => false
  | _ => true

/-- The call `mmap(nullptr, len, PROT_READ, MAP_PRIVATE, fd, 0)` on the descriptor
of `path`: the mapped bytes, or `none` for `MAP_FAILED`. -/
def sysMmap (fs : FileSystem) (path : List Byte) (len : Nat) : Option (List Byte) :=
  match fs path with
  | .regular _ content => some (content.take len)
  | _ => none

/-- The value of `std::to_string(n)`. -/
def to_string (n : Int) : List Byte := cstr (toString n)

/-- The table `SUFFIX_TYPE` (lines 5-25). -/
def SUFFIX_TYPE : List (List Byte × List Byte) :=
  [(cstr ".html", cstr "text/html"), (cstr ".xml", cstr "text/xml"),
   (cstr ".xhtml", cstr "application/xhtml+xml"), (cstr ".txt", cstr "text/plain"),
   (cstr ".rtf", cstr "application/rtf"), (cstr ".pdf", cstr "application/pdf"),
   (cstr ".word", cstr "application/nsword"), (cstr ".png", cstr "image/png"),
   (cstr ".gif", cstr "image/gif"), (cstr ".jpg", cstr "image/jpeg"),
   (cstr ".jpeg", cstr "image/jpeg"), (cstr ".au", cstr "audio/basic"),
   (cstr ".mpeg", cstr "video/mpeg"), (cstr ".mpg", cstr "video/mpeg"),
   (cstr ".avi", cstr "video/x-msvideo"), (cstr ".gz", cstr "application/x-gzip"),
   (cstr ".tar", cstr "application/x-tar"), (cstr ".css", cstr "text/css"),
   (cstr ".js", cstr "text/javascript")]

/-- The table `CODE_STATUS` (lines 27-32). -/
def CODE_STATUS (code : Int) : Option (List Byte) :=
  if code = 200 then some (cstr "OK")
  else if code = 400 then some (cstr "Bad Request")
  else if code = 403 then some (cstr "Forbidden")
  else if code = 404 then some (cstr "Not Found")
  else none

/-- The table `CODE_PATH` (lines 34-38). -/
def CODE_PATH (code : Int) : Option (List Byte) :=
  if code = 400 then some (cstr "/400.html")
  else if code = 403 then some (cstr "/403.html")
  else if code = 404 then some (cstr "/404.html")
  else none

/-- The value of `s.find_last_of(c)`: the last index holding `c`, if any. -/
def findLastOf (s : List Byte) (c : Byte) : Option Nat :=
  match (s.reverse.indexOf? c) with
  | some k => some (s.length - 1 - k)
  | none => none

/-- The data members of `class HttpResponse` (httpresponse.h, lines 40-47);
`mmFile_` holds the mapped bytes, `none` for `nullptr`. -/
structure HttpResponse where
  code_ : Int
  isKeepAlive_ : Bool
  path_ : List Byte
  srcDir_ : List Byte
  mmFile_ : Option (List Byte)
  mmFileStat_ : FileStat

namespace HttpResponse

/-- The object after the constructor (lines 40-46). -/
def new : HttpResponse :=
  { code_ := 1, isKeepAlive_ := false, path_ := [], srcDir_ := [], mmFile_ := none,
    mmFileStat_ := { isDir := false, othRead := false, st_size := 0 } }

/-- Source lines 169-175. -/
def UnmapFile (r : HttpResponse) : HttpResponse := { r with mmFile_ := none }

/-- Source lines 52-62; no result when `assert(srcDir != "")` fails. -/
def Init (r : HttpResponse) (srcDir path : List Byte) (isKeepAlive : Bool) (code : Int) :
    Option HttpResponse :=
  if srcDir ≠ [] then
    let r := if r.mmFile_.isSome then r.UnmapFile else r
    some { r with code_ := code, isKeepAlive_ := isKeepAlive, path_ := path, srcDir_ := srcDir,
                  mmFile_ := none,
                  mmFileStat_ := { isDir := false, othRead := false, st_size := 0 } }
  else none

/-- Source lines 89-91: whether `File()` is not null. -/
def File (r : HttpResponse) : Option (List Byte) := r.mmFile_

/-- Source lines 93-95. -/
def FileLen (r : HttpResponse) : Nat := r.mmFileStat_.st_size

/-- Source lines 178-189. -/
def GetFileType_ (r : HttpResponse) : List Byte :=
  match findLastOf r.path_ 46 with
  | none => cstr "text/plain"
  | some idx =>
    let suffix := r.path_.drop idx
    match SUFFIX_TYPE.lookup suffix with
    | some t => t
    | none => cstr "text/plain"

/-- The first statement of `MakeResponse` (lines 65-82): the `stat` and the choice
of the code. -/
def statCode (fs : FileSystem) (r : HttpResponse) : HttpResponse :=
  let fullpath := r.srcDir_ ++ r.path_
  match sysStat fs fullpath with
  | none => { r with code_ := 404 }
  | some st =>
    let r := { r with mmFileStat_ := st }
    if st.isDir then { r with code_ := 404 }
    else if !st.othRead then { r with code_ := 403 }
    else if r.code_ = -1 then { r with code_ := 200 }
    else r

/-- Source lines 97-103. -/
def ErrorHtml_ (fs : FileSystem) (r : HttpResponse) : HttpResponse :=
  match CODE_PATH r.code_ with
  | some p =>
    let r := { r with path_ := p }
    match sysStat fs (r.srcDir_ ++ r.path_) with
    | some st => { r with mmFileStat_ := st }
    | none => r
  | none => r

/-- Source lines 105-116. -/
def AddStateLine_ (r : HttpResponse) (buff : Buffer) : HttpResponse × Buffer :=
  match CODE_STATUS r.code_ with
  | some status =>
    (r, buff.Append (cstr "HTTP/1.1 " ++ to_string r.code_ ++ cstr " " ++ status ++ cstr "\r\n"))
  | none =>
    let r := { r with code_ := 400 }
    (r, buff.Append (cstr "HTTP/1.1 " ++ to_string r.code_ ++ cstr " " ++ cstr "Bad Request"
      ++ cstr "\r\n"))

/-- Source lines 118-127. -/
def AddHeader_ (r : HttpResponse) (buff : Buffer) : Buffer :=
  let buff := buff.Append (cstr "Connection: ")
  let buff :=
    if r.isKeepAlive_ then
      (buff.Append (cstr "keep-alive\r\n")).Append (cstr "Keep-Alive: max=6, timeout=120\r\n")
    else buff.Append (cstr "close\r\n")
  buff.Append (cstr "Content-type: " ++ r.GetFileType_ ++ cstr "\r\n")

/-- Source lines 192-209. -/
def ErrorContent (r : HttpResponse) (buff : Buffer) (message : List Byte) : Buffer :=
  let status := match CODE_STATUS r.code_ with
    | some s => s
    | none => cstr "Bad Request"
  let body := cstr "<html><title>Error</title>" ++ cstr "<body bgcolor=\"ffffff\">"
    ++ (to_string r.code_ ++ cstr " : " ++ status ++ cstr "\n")
    ++ (cstr "<p>" ++ message ++ cstr "</p>")
    ++ cstr "<hr><em>UIEWebServer</em></body></html>"
  (buff.Append (cstr "Content-length: " ++ to_string body.length ++ cstr "\r\n\r\n")).Append body

/-- Source lines 129-166. -/
def AddContent_ (fs : FileSystem) (r : HttpResponse) (buff : Buffer) : HttpResponse × Buffer :=
  let fullpath := r.srcDir_ ++ r.path_
  if !sysOpen fs fullpath then (r, r.ErrorContent buff (cstr "File NotFound!"))
  else
    let done (r : HttpResponse) : HttpResponse × Buffer :=
      (r, buff.Append (cstr "Content-length: " ++ to_string r.mmFileStat_.st_size
        ++ cstr "\r\n\r\n"))
    if r.mmFileStat_.st_size > 0 then
      match sysMmap fs fullpath r.mmFileStat_.st_size with
      | none =>
        let r := { r with code_ := 404 }
        (r, r.ErrorContent buff (cstr "File NotFound!"))
      | some bytes => done { r with mmFile_ := some bytes }
    else done r

/-- Source lines 64-87. -/
def MakeResponse (fs : FileSystem) (r : HttpResponse) (buff : Buffer) : HttpResponse × Buffer :=
  let r := statCode fs r
  let r := ErrorHtml_ fs r
  let rb := AddStateLine_ r buff
  let buff := AddHeader_ rb.1 rb.2
  AddContent_ fs rb.1 buff

end HttpResponse

/-! ## Part V: `HttpConn` (code/httpconn.h, code/httpconn.cpp) -/

/-- A `struct iovec`: `iov_base` is an index into the region the vector points
into (the write buffer for `iov_[0]`, the mapped file for `iov_[1]`). -/
structure IoVec where
  iov_base : Nat
  iov_len : Nat
  deriving DecidableEq, Repr

/-- The data members of `class HttpConn` (httpconn.h, lines 61-75), `addr_` apart;
`iov0` and `iov1` are `iov_[0]` and `iov_[1]`. -/
structure HttpConn where
  fd_ : Int
  isClose_ : Bool
  iovCnt_ : Int
  iov0 : IoVec
  iov1 : IoVec
  readBuff_ : Buffer
  writeBuff_ : Buffer
  request_ : HttpRequest
  response_ : HttpResponse

namespace HttpConn

/-- The object after the constructor (httpconn.cpp, lines 10-14); the buffers
have the default size 1024, and `iov_`, which the constructor leaves alone,
is taken as zero. -/
def new : HttpConn :=
  { fd_ := -1, isClose_ := true, iovCnt_ := 0, iov0 := ⟨0, 0⟩, iov1 := ⟨0, 0⟩,
    readBuff_ := Buffer.new 1024, writeBuff_ := Buffer.new 1024,
    request_ := HttpRequest.new, response_ := HttpResponse.new }

/-- Source lines 20-29 (httpconn.cpp): the connection and `userCount` afterwards;
no result when `assert(fd > 0)` fails. -/
def Init (c : HttpConn) (userCount : Int) (fd : Int) : Option (HttpConn × Int) :=
  if 0 < fd then
    some ({ c with fd_ := fd, writeBuff_ := c.writeBuff_.RetrieveAll,
                   readBuff_ := c.readBuff_.RetrieveAll, isClose_ := false }, userCount + 1)
  else none

/-- Source lines 31-39 (httpconn.cpp): the connection and `userCount` afterwards. -/
def Close (c : HttpConn) (userCount : Int) : HttpConn × Int :=
  let c := { c with response_ := c.response_.UnmapFile }
  if c.isClose_ = false then ({ c with isClose_ := true }, userCount - 1)
  else (c, userCount)

/-- Source lines 41-43 (httpconn.cpp). -/
def GetFd (c : HttpConn) : Int := c.fd_

/-- Source lines 44-46 (httpconn.h). -/
def ToWriteBytes (c : HttpConn) : Nat := c.iov0.iov_len + c.iov1.iov_len

/-- The bytes `iov_[0]` describes in the write buffer. -/
def iov0Bytes (c : HttpConn) : List Byte :=
  (c.writeBuff_.buffer_.drop c.iov0.iov_base).take c.iov0.iov_len

/-- The bytes `iov_[1]` describes in the mapped file. -/
def iov1Bytes (c : HttpConn) : List Byte :=
  ((c.response_.mmFile_.getD []).drop c.iov1.iov_base).take c.iov1.iov_len

/-- The body of the `do` loop of `write` (lines 80-106) for the result `len` of
`writev` and the `errno` it left: the connection and `*saveErrno` afterwards,
and whether the body ended in a `break`. -/
def writeIteration (c : HttpConn) (len errno saveErrno : Int) : HttpConn × Int × Bool :=
  if len ≤ 0 then (c, errno, true)
  else if c.iov0.iov_len + c.iov1.iov_len = 0 then (c, saveErrno, true)
  else if len.toNat > c.iov0.iov_len then
    let c := { c with iov1 := { iov_base := c.iov1.iov_base + (len.toNat - c.iov0.iov_len),
                                 iov_len := c.iov1.iov_len - (len.toNat - c.iov0.iov_len) } }
    let c :=
      if c.iov0.iov_len ≠ 0 then
        { c with writeBuff_ := c.writeBuff_.RetrieveAll, iov0 := { c.iov0 with iov_len := 0 } }
      else c
    (c, saveErrno, false)
  else
    let c := { c with iov0 := { iov_base := c.iov0.iov_base + len.toNat,
                                 iov_len := c.iov0.iov_len - len.toNat },
                      writeBuff_ := c.writeBuff_.Retrieve len.toNat }
    (c, saveErrno, false)

/-- Source lines 111-144 (httpconn.cpp), with the static `srcDir`: the returned
flag, the connection and the table afterwards; no result when the assert of
`HttpResponse::Init` fails. -/
def process (past : Byte) (fs : FileSystem) (db : UserTable) (srcDir : List Byte)
    (c : HttpConn) : Option (Bool × HttpConn × UserTable) :=
  let c := { c with request_ := c.request_.Init }
  if c.readBuff_.ReadableBytes ≤ 0 then some (false, c, db)
  else
    let res := HttpRequest.parse past db c.request_ c.readBuff_
    let c := { c with request_ := res.2.1, readBuff_ := res.2.2.1 }
    let db := res.2.2.2
    let init :=
      if res.1 then c.response_.Init srcDir c.request_.path_ c.request_.IsKeepAlive 200
      else c.response_.Init srcDir c.request_.path_ false 400
    match init with
    | none => none
    | some resp =>
      let made := HttpResponse.MakeResponse fs resp c.writeBuff_
      let c := { c with response_ := made.1, writeBuff_ := made.2 }
      let c := { c with iov0 := { iov_base := c.writeBuff_.Peek,
                                   iov_len := c.writeBuff_.ReadableBytes }, iovCnt_ := 1 }
      let c :=
        if c.response_.FileLen > 0 ∧ c.response_.File.isSome then
          { c with iov1 := { iov_base := 0, iov_len := c.response_.FileLen }, iovCnt_ := 2 }
        else c
      some (true, c, db)

end HttpConn

/-! ### The loops of `HttpConn::read` and `HttpConn::write`

The results of the successive system calls are an argument: a list with one
entry for each call the loop makes.  A call of the loop has no result when the
list ends before the loop does. -/

namespace HttpConn

/-- Source lines 48-50 (httpconn.h). -/
def IsKeepAlive (c : HttpConn) : Bool := c.request_.IsKeepAlive

/-- Source lines 60-74 (httpconn.cpp), with the static `isET`: the connection,
the returned `len` and `*saveErrno` afterwards.  `stack` is the content of the
stack buffer of `ReadFd` on entry and `outcomes` are the results of the
successive `readv` calls. -/
def read (c : HttpConn) (isET : Bool) (stack : List Byte) (saveErrno : Int) :
    List ReadvOutcome → Option (HttpConn × Int × Int)
  | [] => none
  | r :: rest =>
    let res := c.readBuff_.ReadFd stack saveErrno r
    let c := { c with readBuff_ := res.1 }
    let len := res.2.1
    if len ≤ 0 then some (c, len, res.2.2)
    else if isET then read c isET stack res.2.2 rest
    else some (c, len, res.2.2)

/-- Source lines 76-109 (httpconn.cpp), with the static `isET`: the connection,
the returned `len` and `*saveErrno` afterwards.  `results` are the values
returned by the successive `writev` calls, each with the `errno` it left. -/
def write (c : HttpConn) (isET : Bool) (saveErrno : Int) :
    List (Int × Int) → Option (HttpConn × Int × Int)
  | [] => none
  | (len, errno) :: rest =>
    let r := c.writeIteration len errno saveErrno
    if r.2.2 then some (r.1, len, r.2.1)
    else if isET ∨ r.1.ToWriteBytes > 10240 then write r.1 isET r.2.1 rest
    else some (r.1, len, r.2.1)

end HttpConn

/-! ## Part VI: the reactor of `WebServer` (code/webserver.cpp, code/epoller.cpp) -/

/-- The registrations of the `Epoller`: fd to event mask. -/
abbrev EpollSet := Int → Option Nat

/-- The call `epoller_->AddFd(fd, events)` (epoller.cpp, lines 12-20): the
returned flag and the registrations afterwards; `EPOLL_CTL_ADD` fails on a
registered fd. -/
def Epoller_AddFd (e : EpollSet) (fd : Int) (events : Nat) : Bool × EpollSet :=
  if fd < 0 then (false, e)
  else match e fd with
    | some _ => (false, e)
    | none => (true, fun x => if x = fd then some events else e x)

/-- The call `epoller_->DelFd(fd)` (epoller.cpp, lines 30-33); `EPOLL_CTL_DEL`
fails on an fd that is not registered. -/
def Epoller_DelFd (e : EpollSet) (fd : Int) : Bool × EpollSet :=
  if fd < 0 then (false, e)
  else match e fd with
    | some _ => (true, fun x => if x = fd then none else e x)
    | none => (false, e)

/-- The members of `WebServer` that `AddClient_` and `CloseConn_` use, with the
static `HttpConn::userCount`. -/
structure WebServer where
  timeoutMS_ : Int
  connEvent_ : Nat
  timer_ : HeapTimer
  epoller_ : EpollSet
  users_ : Int → Option HttpConn
  userCount : Int

/-- The bit `EPOLLIN`. -/
def EPOLLIN : Nat := 1

namespace WebServer

/-- Source lines 189-197 for `client = &users_[key]`; no result when the table
has no such connection. -/
def CloseConn_ (s : WebServer) (key : Int) : Option WebServer :=
  match s.users_ key with
  | none => none
  | some client =>
    let fd := client.GetFd
    let e := (Epoller_DelFd s.epoller_ fd).2
    let closed := client.Close s.userCount
    some { s with epoller_ := e, userCount := closed.2,
                  users_ := fun x => if x = fd then none else s.users_ x }

/-- Source lines 199-219 at the clock reading `now`; the callback handed to the
timer is labelled by the fd it captures.  No result when an assert fails. -/
def AddClient_ (s : WebServer) (now : Int) (fd : Int) : Option WebServer :=
  if 0 < fd then
    let conn := (s.users_ fd).getD HttpConn.new
    match conn.Init s.userCount fd with
    | none => none
    | some (conn, userCount) =>
      let s := { s with users_ := fun x => if x = fd then some conn else s.users_ x,
                        userCount := userCount }
      let timer :=
        if (0 : Int) < s.timeoutMS_ then s.timer_.add now fd s.timeoutMS_ fd.toNat
        else some s.timer_
      match timer with
      | none => none
      | some timer =>
        some { s with timer_ := timer,
                      epoller_ := (Epoller_AddFd s.epoller_ fd (EPOLLIN ||| s.connEvent_)).2 }
  else none

end WebServer

/-! ### The tasks of `WebServer` run by the worker threads -/

/-- The call `epoller_->ModFd(fd, events)` (epoller.cpp, lines 22-28);
`EPOLL_CTL_MOD` fails on an fd that is not registered. -/
def Epoller_ModFd (e : EpollSet) (fd : Int) (events : Nat) : Bool × EpollSet :=
  if fd < 0 then (false, e)
  else match e fd with
    | some _ => (true, fun x => if x = fd then some events else e x)
    | none => (false, e)

/-- The bit `EPOLLOUT`. -/
def EPOLLOUT : Nat := 4

/-- The value of `EAGAIN`. -/
def EAGAIN : Int := 11

namespace WebServer

/-- The table after the connection `users_[key]`, which the tasks reach through
the pointer `client`, was changed to `client`. -/
def setClient (s : WebServer) (key : Int) (client : HttpConn) : WebServer :=
  { s with users_ := fun x => if x = key then some client else s.users_ x }

/-- Source lines 285-293 for `client = &users_[key]`, with the file system, the
table `user` and the static `srcDir` that `process` reads: the server and the
table `user` afterwards. -/
def OnProcess (past : Byte) (s : WebServer) (fs : FileSystem) (db : UserTable)
    (srcDir : List Byte) (key : Int) : Option (WebServer × UserTable) :=
  match s.users_ key with
  | none => none
  | some client =>
    match client.process past fs db srcDir with
    | none => none
    | some (flag, client, db) =>
      let s := s.setClient key client
      if flag then
        some ({ s with epoller_ :=
          (Epoller_ModFd s.epoller_ client.GetFd (s.connEvent_ ||| EPOLLOUT)).2 }, db)
      else
        some ({ s with epoller_ :=
          (Epoller_ModFd s.epoller_ client.GetFd (s.connEvent_ ||| EPOLLIN)).2 }, db)

/-- Source lines 268-283 for `client = &users_[key]`: the server and the table
`user` afterwards. -/
def OnRead_ (past : Byte) (s : WebServer) (isET : Bool) (stack : List Byte)
    (outcomes : List ReadvOutcome) (fs : FileSystem) (db : UserTable) (srcDir : List Byte)
    (key : Int) : Option (WebServer × UserTable) :=
  match s.users_ key with
  | none => none
  | some client =>
    let readErrno : Int := 0
    match client.read isET stack readErrno outcomes with
    | none => none
    | some (client, ret, readErrno) =>
      let s := s.setClient key client
      if ret ≤ 0 ∧ readErrno ≠ EAGAIN then
        (s.CloseConn_ key).map (fun s => (s, db))
      else s.OnProcess past fs db srcDir key

/-- Source lines 295-322 for `client = &users_[key]`. -/
def OnWrite_ (s : WebServer) (isET : Bool) (results : List (Int × Int)) (key : Int) :
    Option WebServer :=
  match s.users_ key with
  | none => none
  | some client =>
    let writeErrno : Int := 0
    match client.write isET writeErrno results with
    | none => none
    | some (client, ret, writeErrno) =>
      let s := s.setClient key client
      if client.ToWriteBytes = 0 then
        if client.IsKeepAlive then
          some { s with epoller_ :=
            (Epoller_ModFd s.epoller_ client.GetFd (s.connEvent_ ||| EPOLLIN)).2 }
        else s.CloseConn_ key
      else if ret < 0 then
        if writeErrno = EAGAIN then
          some { s with epoller_ :=
            (Epoller_ModFd s.epoller_ client.GetFd (s.connEvent_ ||| EPOLLOUT)).2 }
        else s.CloseConn_ key
      else s.CloseConn_ key

end WebServer

/-! ## Part VII: `SqlConnPool` and the lease of `UserVerify` (code/sqlconnpool.h,
code/sqlconnpool.cpp, code/httprequest.cpp)

A `MYSQL*` is a number, 0 for the null pointer.  `sem_wait` on a semaphore
whose count is 0 waits; a call that waits has no result here. -/

/-- The members `connQue_` and `semId_` of `class SqlConnPool` (sqlconnpool.h,
lines 32-34). -/
structure SqlConnPool where
  connQue_ : List Nat
  semId_ : Nat
  deriving DecidableEq, Repr

namespace SqlConnPool

/-- Source lines 30-40 (sqlconnpool.cpp): the returned handle and the pool
afterwards. -/
def GetConn (p : SqlConnPool) : Option (Nat × SqlConnPool) :=
  if p.semId_ = 0 then none
  else
    let p := { p with semId_ := p.semId_ - 1 }
    match p.connQue_ with
    | conn :: rest => some (conn, { p with connQue_ := rest })
    | [] => some (0, p)

/-- Source lines 43-48 (sqlconnpool.cpp); no result when `assert(conn)` fails. -/
def FreeConn (p : SqlConnPool) (conn : Nat) : Option SqlConnPool :=
  if conn ≠ 0 then some { connQue_ := p.connQue_ ++ [conn], semId_ := p.semId_ + 1 }
  else none

end SqlConnPool

/-- The members of `class SqlConnRAII` (sqlconnpool.h, lines 53-54); the pool is
the one singleton. -/
structure SqlConnRAII where
  sql_ : Nat

namespace SqlConnRAII

/-- The constructor (sqlconnpool.h, lines 40-45): the object, the value stored
in `*sql` and the pool afterwards. -/
def ctor (p : SqlConnPool) : Option (SqlConnRAII × Nat × SqlConnPool) :=
  match p.GetConn with
  | none => none
  | some (conn, p) => some ({ sql_ := conn }, conn, p)

/-- The destructor (sqlconnpool.h, lines 47-51). -/
def dtor (r : SqlConnRAII) (p : SqlConnPool) : Option SqlConnPool :=
  if r.sql_ ≠ 0 then p.FreeConn r.sql_ else some p

end SqlConnRAII

/-- One `mysql_query(sql, order)` of `UserVerify`: the handle it is issued on and
the pool at that moment. -/
structure SqlQuery where
  sql : Nat
  pool : SqlConnPool
  deriving DecidableEq, Repr

/-- Whether a handle is leased: it is not in the free queue of the pool. -/
def SqlConnPool.leased (p : SqlConnPool) (conn : Nat) : Bool := decide (conn ∉ p.connQue_)

namespace HttpRequest

/-- Source lines 212-278 of httprequest.cpp once more, this time with the pool:
the returned flag, the table `user`, the pool afterwards, and the queries in the
order they are issued.  The statement of line 216,
`SqlConnRAII(&sql, SqlConnPool::Instance());`, names no variable: it constructs a
temporary, whose destructor runs at the end of that statement.  The statements
and the server are those of `UserVerify`. -/
def UserVerify_pool (p : SqlConnPool) (db : UserTable) (name pwd : List Byte) (isLogin : Bool) :
    Option (Bool × UserTable × SqlConnPool × List SqlQuery) :=
  if name = [] ∨ pwd = [] then some (false, db, p, [])
  else
    match SqlConnRAII.ctor p with
    | none => none
    | some (raii, sql, p) =>
      match raii.dtor p with
      | none => none
      | some p =>
        if sql = 0 then none
        else
          let flag := false
          let flag := if !isLogin then true else flag
          let select : SqlQuery := { sql := sql, pool := p }
          match mysqlSelect db (selectOrder name) with
          | none => some (false, db, p, [select])
          | some row =>
            let flag :=
              match row with
              | some password =>
                if isLogin then (if pwd = cArg password then true else false) else false
              | none => flag
            if !isLogin ∧ flag = true then
              let insert : SqlQuery := { sql := sql, pool := p }
              match mysqlInsert db (insertOrder name pwd) with
              | some db1 => some (true, db1, p, [select, insert])
              | none => some (true, db, p, [select, insert])
            else some (flag, db, p, [select])

end HttpRequest

/-! ## Part VIII: `BlockQueue` (code/blockqueue.h)

The sequential model: one thread calls, and no other thread changes the queue
while a call waits on a condition variable.  A wait may still return, because
of `notify_all` or spuriously; the number of times it does is an argument.  A
call that is still waiting after them never returns. -/

/-- The members `deq_`, `isClose_` and `capacity_` of `class BlockQueue`
(lines 36-41). -/
structure BlockQueue (α : Type) where
  deq_ : List α
  isClose_ : Bool
  capacity_ : Nat
  deriving DecidableEq, Repr

/-- What a call that may wait does: it returns, or it waits for ever. -/
inductive Waiting (β : Type) where
  | returns (b : β)
  | blocks
  deriving DecidableEq, Repr

/-- The value `std::cv_status` returned by `wait_for`. -/
inductive cv_status where
  | no_timeout
  | timeout
  deriving DecidableEq, Repr

namespace BlockQueue

/-- The constructor (lines 48-52); no result when `assert(maxsize > 0)` fails. -/
def new {α : Type} (maxsize : Nat) : Option (BlockQueue α) :=
  if 0 < maxsize then some { deq_ := [], isClose_ := false, capacity_ := maxsize } else none

/-- Source lines 68-74. -/
def clear {α : Type} (q : BlockQueue α) : BlockQueue α := { q with deq_ := [] }

/-- Source lines 60-66. -/
def Close {α : Type} (q : BlockQueue α) : BlockQueue α := { q.clear with isClose_ := true }

/-- Source lines 76-81. -/
def empty {α : Type} (q : BlockQueue α) : Bool := q.deq_.isEmpty

/-- Source lines 83-87. -/
def full {α : Type} (q : BlockQueue α) : Bool := decide (q.deq_.length ≥ q.capacity_)

/-- Source lines 89-99; `wakeups` is the number of times the wait of line 95
returns. -/
def push_back {α : Type} (q : BlockQueue α) (item : α) : Nat → Waiting (BlockQueue α)
  | 0 =>
    if q.deq_.length ≥ q.capacity_ then .blocks
    else .returns { q with deq_ := q.deq_ ++ [item] }
  | wakeups + 1 =>
    if q.deq_.length ≥ q.capacity_ then q.push_back item wakeups
    else .returns { q with deq_ := q.deq_ ++ [item] }

/-- Source lines 111-121: the item stored in `item` and the queue afterwards,
when the call returns (it then returns true); `wakeups` is the number of times
the wait of line 115 returns. -/
def pop {α : Type} (q : BlockQueue α) : Nat → Waiting (α × BlockQueue α)
  | 0 =>
    match q.deq_ with
    | [] => .blocks
    | item :: rest => .returns (item, { q with deq_ := rest })
  | wakeups + 1 =>
    match q.deq_ with
    | [] => q.pop wakeups
    | item :: rest => .returns (item, { q with deq_ := rest })

/-- Source lines 123-137: the returned flag, the item stored in `item` if any,
and the queue afterwards.  `waits` are the values of the successive `wait_for`
calls; when they are used up the next `wait_for` times out, as no other thread
notifies. -/
def popTimed {α : Type} (q : BlockQueue α) : List cv_status → Bool × Option α × BlockQueue α
  | [] =>
    match q.deq_ with
    | [] => (false, none, q)
    | item :: rest => (true, some item, { q with deq_ := rest })
  | w :: waits =>
    match q.deq_ with
    | [] =>
      if w = .timeout then (false, none, q)
      else if q.isClose_ then (false, none, q)
      else q.popTimed waits
    | item :: rest => (true, some item, { q with deq_ := rest })

end BlockQueue

/-! ## Part IX: `Log` (code/log.h, code/log.cpp)

The broken-down local time of a call is an argument.  `fopen` succeeds, and the
open file is known by the name it was opened with.  A character array filled by
`snprintf` holds a C string: the formatted text cut to the size of the array
less one. -/

/-- The fields of `struct tm` the source reads. -/
structure Tm where
  tm_year : Int
  tm_mon : Int
  tm_mday : Int
  tm_hour : Int
  tm_min : Int
  tm_sec : Int
  deriving DecidableEq, Repr

/-- The text of the conversions `%d` (`width = 0`) and `%0<width>d`,
`%0<width>ld` of `printf`: the decimal digits, padded with zeros on the left up
to the width, the sign of a negative number counting in the width. -/
def fmtD (width : Nat) (n : Int) : List Byte :=
  let digits := cstr (toString n.natAbs)
  if n < 0 then 45 :: (List.replicate (width - 1 - digits.length) 48 ++ digits)
  else List.replicate (width - digits.length) 48 ++ digits

/-- The call `snprintf(&v[pos], size, ...)` (and `vsnprintf`) into the backing
vector `v` for the formatted text `s`: the vector afterwards, holding at most
`size - 1` bytes of `s` and the terminating zero, and the returned length, which
is the one of the whole of `s`. -/
def snprintf (v : List Byte) (pos size : Nat) (s : List Byte) : List Byte × Nat :=
  (if size = 0 then v else stdCopy v pos (s.take (size - 1) ++ [0]), s.length)

/-- The constant `LOG_NAME_LEN` (log.h, line 41). -/
def LOG_NAME_LEN : Nat := 256

/-- The constant `MAX_LINES` (log.h, line 42). -/
def MAX_LINES : Int := 50000

/-- The data members of `class Log` (log.h, lines 44-63) that `init` and `write`
use; `fp_` is the name of the open file, and the write thread is left out. -/
structure Log where
  path_ : List Byte
  suffix_ : List Byte
  lineCount_ : Int
  toDay_ : Int
  isOpen_ : Bool
  buff_ : Buffer
  level_ : Int
  isAsync_ : Bool
  fp_ : Option (List Byte)
  deque_ : Option (BlockQueue (List Byte))

/-- Where `write` hands the record. -/
inductive LogSink where
  | queue (record : List Byte)
  | file (name : List Byte) (record : List Byte)
  | nowhere
  deriving DecidableEq, Repr

namespace Log

/-- The object after the constructor (log.cpp, lines 3-11); the members the
constructor leaves alone are taken as zero or empty, and `buff_` has the default
size 1024. -/
def new : Log :=
  { path_ := [], suffix_ := [], lineCount_ := 0, toDay_ := 0, isOpen_ := false,
    buff_ := Buffer.new 1024, level_ := 0, isAsync_ := false, fp_ := none, deque_ := none }

/-- Source lines 72-118 at the local time `systime`. -/
def init (l : Log) (level : Int) (path suffix : List Byte) (maxQueueSize : Int) (systime : Tm) :
    Log :=
  let l := { l with isOpen_ := true, level_ := level, path_ := path, suffix_ := suffix }
  let l :=
    if maxQueueSize > 0 then
      let l := { l with isAsync_ := true }
      if l.deque_.isNone then { l with deque_ := BlockQueue.new maxQueueSize.toNat } else l
    else { l with isAsync_ := false }
  let l := { l with lineCount_ := 0 }
  let fileName := cString (LOG_NAME_LEN - 1)
    (l.path_ ++ cstr "/" ++ fmtD 4 (systime.tm_year + 1900) ++ cstr "_"
      ++ fmtD 2 (systime.tm_mon + 1) ++ cstr "_" ++ fmtD 2 systime.tm_mday ++ l.suffix_)
  let l := { l with toDay_ := systime.tm_mday }
  { l with buff_ := l.buff_.RetrieveAll, fp_ := some fileName }

/-- Source lines 137-163 of `write`, the switch of the file, at the local time
`t`. -/
def rotate (l : Log) (t : Tm) : Log :=
  if l.toDay_ ≠ t.tm_mday ∨
      (l.lineCount_ ≠ 0 ∧ (l.lineCount_ ≠ 0 ∧ Int.tmod l.lineCount_ MAX_LINES = 0)) then
    let tail := cString 36
      (fmtD 4 (t.tm_year + 1900) ++ cstr "_" ++ fmtD 2 (t.tm_mon + 1) ++ cstr "_"
        ++ fmtD 2 t.tm_mday)
    if l.toDay_ ≠ t.tm_mday then
      let newFile := cString (LOG_NAME_LEN - 72) (l.path_ ++ cstr "/" ++ tail ++ l.suffix_)
      { l with toDay_ := t.tm_mday, lineCount_ := 0, fp_ := some newFile }
    else
      let newFile := cString (LOG_NAME_LEN - 72)
        (l.path_ ++ cstr "/" ++ tail ++ cstr "-" ++ fmtD 0 (Int.tdiv l.lineCount_ MAX_LINES)
          ++ l.suffix_)
      { l with fp_ := some newFile }
  else l

/-- Source lines 199-217. -/
def AppendLogLevelTitle_ (l : Log) (level : Int) : Log :=
  if level = 0 then { l with buff_ := l.buff_.Append (cstr "[debug]: ") }
  else if level = 1 then { l with buff_ := l.buff_.Append (cstr "[info] : ") }
  else if level = 2 then { l with buff_ := l.buff_.Append (cstr "[warn] : ") }
  else if level = 3 then { l with buff_ := l.buff_.Append (cstr "[error]: ") }
  else { l with buff_ := l.buff_.Append (cstr "[info] : ") }

/-- Source lines 167-182 of `write`: the record is formatted into `buff_`.
`usec` is `now.tv_usec` and `message` the text that `format` and the arguments
expand to. -/
def formatRecord (l : Log) (level : Int) (t : Tm) (usec : Int) (message : List Byte) : Log :=
  let l := { l with lineCount_ := l.lineCount_ + 1 }
  let stamp := fmtD 0 (t.tm_year + 1900) ++ cstr "-" ++ fmtD 2 (t.tm_mon + 1) ++ cstr "-"
    ++ fmtD 2 t.tm_mday ++ cstr " " ++ fmtD 2 t.tm_hour ++ cstr ":" ++ fmtD 2 t.tm_min
    ++ cstr ":" ++ fmtD 2 t.tm_sec ++ cstr "." ++ fmtD 6 usec ++ cstr " "
  let r := snprintf l.buff_.buffer_ l.buff_.BeginWrite 128 stamp
  let n := r.2
  let l := { l with buff_ := ({ l.buff_ with buffer_ := r.1 } : Buffer).HasWritten n }
  let l := l.AppendLogLevelTitle_ level
  let r := snprintf l.buff_.buffer_ l.buff_.BeginWrite l.buff_.WritableBytes message
  let m := r.2
  { l with buff_ := ({ l.buff_ with buffer_ := r.1 } : Buffer).HasWritten m }

/-- The C string that `fputs(buff_.Peek(), fp_)` writes: the bytes from `Peek()`
up to the first zero; no result when the vector holds no zero from there on. -/
def peekCString (b : Buffer) : Option (List Byte) :=
  let rest := b.buffer_.drop b.Peek
  if 0 ∈ rest then some (rest.takeWhile (fun c => c != 0)) else none

/-- Source lines 120-196 at the local time `t`: the object afterwards and where
the record was handed.  The call has no result when `buff_.Append("\n", 1)`
starts with the write cursor beyond the end of the vector (`WritableBytes()`
then wraps around, `EnsureWritable` does nothing and `std::copy` writes outside
the vector), or when `fputs` finds no terminating zero. -/
def write (l : Log) (level : Int) (t : Tm) (usec : Int) (message : List Byte) :
    Option (Log × LogSink) :=
  let l := l.rotate t
  let l := l.formatRecord level t usec message
  if l.buff_.writeIndex_ > l.buff_.buffer_.length then none
  else
    let l := { l with buff_ := l.buff_.Append (cstr "\n") }
    match (if l.isAsync_ then l.deque_ else none) with
    | some deque =>
      if !deque.full then
        let str := l.buff_.RetrieveAllToStr
        match deque.push_back str.1 0 with
        | .returns deque =>
          some ({ l with buff_ := str.2.RetrieveAll, deque_ := some deque }, .queue str.1)
        | .blocks => none
      else
        match l.fp_ with
        | some name =>
          (peekCString l.buff_).map
            (fun s => ({ l with buff_ := l.buff_.RetrieveAll }, .file name s))
        | none => some ({ l with buff_ := l.buff_.RetrieveAll }, .nowhere)
    | none =>
      match l.fp_ with
      | some name =>
        (peekCString l.buff_).map
          (fun s => ({ l with buff_ := l.buff_.RetrieveAll }, .file name s))
      | none => some ({ l with buff_ := l.buff_.RetrieveAll }, .nowhere)

end Log

/-! ## Part X: auxiliary definitions of the proofs -/

/-- What a run of swaps inside the index range `[lo, hi)` does to the timer:
the nodes are permuted, the index-map invariant is kept and the nodes outside
the range stay where they are. -/
structure Shuffled (lo hi : Nat) (t t1 : HeapTimer) : Prop where
  length : t1.heap_.length = t.heap_.length
  perm : t1.heap_.Perm t.heap_
  inv : t.IndexInv → t1.IndexInv
  frame : ∀ k, k < lo ∨ hi ≤ k → heapAt t1.heap_ k = heapAt t.heap_ k

/-- The child index the loop of `siftdown_` compares `heap_[index]` with (lines
34-39): the right child when it is in range and expires earlier, else the left. -/
def smallerChild (h : List TimerNode) (index n : Nat) : Nat :=
  if 2 * index + 1 + 1 < n ∧
      (heapAt h (2 * index + 1 + 1)).expires < (heapAt h (2 * index + 1)).expires
  then 2 * index + 1 + 1 else 2 * index + 1

/-- A timer with two nodes, as left by `add(1, 100 ms)` and `add(2, 200 ms)` at
clock reading 0; used to instantiate the theorems. -/
def sampleTimer : HeapTimer :=
  { heap_ := [⟨1, 100000000, 1⟩, ⟨2, 200000000, 2⟩],
    ref_ := mapAssign (mapAssign (fun _ => none) 1 0) 2 1 }

/-! ### Auxiliary definitions of the proofs on the HTTP classes -/

/-- The standard decoding of a urlencoded value, in the words of the
specification: `+` becomes a space, `%HH` the byte with the hexadecimal value
`HH`, every other byte stays. -/
def urlDecodeSpec : List Byte → List Byte
  | [] => []
  | c :: h1 :: h2 :: rest =>
    if c = 37 then UInt8.ofNat (ConverHex h1 * 16 + ConverHex h2) :: urlDecodeSpec rest
    else (if c = 43 then 32 else c) :: urlDecodeSpec (h1 :: h2 :: rest)
  | c :: rest => (if c = 43 then 32 else c) :: urlDecodeSpec rest

/-- A key or value with none of the bytes `&`, `=`, `+`, `%`. -/
def formPlain (s : List Byte) : Prop := 38 ∉ s ∧ 61 ∉ s ∧ 43 ∉ s ∧ 37 ∉ s

/-- The body `k1=v1&k2=v2&...&kn=vn`. -/
def encodePairs : List (List Byte × List Byte) → List Byte
  | [] => []
  | kv :: rest => kv.1 ++ 61 :: kv.2 ++ (if rest.isEmpty then [] else 38 :: encodePairs rest)

/-- The map after `m[k] = v` for every pair of a list, first to last. -/
def assignAll (m : StrMap) (ps : List (List Byte × List Byte)) : StrMap :=
  ps.foldl (fun m kv => StrMap.assign m kv.1 kv.2) m

/-- The loop of `ParseFormUrlencoded_` read off the bytes still to scan, for a body
without `+` and `%`: `tok` holds the bytes since the last `=` or `&`.  The result
is the last token, the last key and the map. -/
def formGo : List Byte → List Byte → List Byte → StrMap → List Byte × List Byte × StrMap
  | [], tok, key, post => (tok, key, post)
  | c :: rest, tok, key, post =>
    if c = 61 then formGo rest [] tok post
    else if c = 38 then formGo rest [] key (StrMap.assign post key tok)
    else formGo rest (tok ++ [c]) key post

/-- The statement after the loop of `ParseFormUrlencoded_` (lines 206-209) on the
result of `formGo`. -/
def formFinish (x : List Byte × List Byte × StrMap) : StrMap :=
  if StrMap.count x.2.2 x.2.1 = 0 ∧ x.1 ≠ [] then StrMap.assign x.2.2 x.2.1 x.1 else x.2.2

/-- The code that `MakeResponse` passes to the status line once degraded: a code
outside `CODE_STATUS` becomes 400 (`AddStateLine_`, lines 110-114). -/
def emittedCode (code : Int) : Int := if (CODE_STATUS code).isSome then code else 400

/-- The status line `HTTP/1.1 <code> <reason>\r\n` for a code of `CODE_STATUS`. -/
def statusLine (code : Int) : List Byte :=
  cstr "HTTP/1.1 " ++ to_string code ++ cstr " " ++ (CODE_STATUS code).getD [] ++ cstr "\r\n"

/-- The bytes `AddHeader_` appends. -/
def headerBytes (r : HttpResponse) : List Byte :=
  cstr "Connection: " ++
    (if r.isKeepAlive_ then cstr "keep-alive\r\n" ++ cstr "Keep-Alive: max=6, timeout=120\r\n"
     else cstr "close\r\n") ++
    (cstr "Content-type: " ++ r.GetFileType_ ++ cstr "\r\n")

/-- The code resolved from what `src_dir + path` names and the initial code, in
the words of the specification: 404 for a missing path or a directory, 403 for a
file that is not world-readable, 200 for a readable file when the code was
unset (-1), else the initial code. -/
def resolveCode (entry : FsEntry) (code0 : Int) : Int :=
  match entry with
  | .missing => 404
  | .directory _ _ => 404
  | .regular othRead _ => if !othRead then 403 else if code0 = -1 then 200 else code0

/-- A resource root `/www` holding `index.html` (12 bytes) and the error pages
`400.html` and `404.html`; used to instantiate the theorems. -/
def sampleFs : FileSystem := fun p =>
  if p = cstr "/www" then .directory true 4096
  else if p = cstr "/www/index.html" then .regular true (cstr "hello world!")
  else if p = cstr "/www/400.html" then .regular true (cstr "bad")
  else if p = cstr "/www/404.html" then .regular true (cstr "not found")
  else .missing

/-- A connection whose read buffer, of the default size, received `request`. -/
def connWith (request : List Byte) : HttpConn :=
  { HttpConn.new with readBuff_ := (Buffer.new 1024).Append request }

/-- Two calls of `parse` on one request object and one buffer of the default
size: the first on the bytes `first`, the second after `second` has been
appended to what the first call left in the buffer; `past` is the byte of
`charAt`. -/
def parseTwice (past : Byte) (db : UserTable) (first second : List Byte) :
    Bool × HttpRequest × Buffer × UserTable :=
  let res := HttpRequest.parse past db HttpRequest.new ((Buffer.new 1024).Append first)
  HttpRequest.parse past res.2.2.2 res.2.1 (res.2.2.1.Append second)

/-- A login request as `ParsePost_` finds it: the method, the path after
`ParsePath_`, the content type and the body. -/
def loginRequest (body : List Byte) : HttpRequest :=
  { HttpRequest.new with
      method_ := cstr "POST", path_ := cstr "/login.html", body_ := body,
      header_ := StrMap.assign StrMap.empty (cstr "Content-Type")
        (cstr "application/x-www-form-urlencoded") }

/-- A registration request as `ParsePost_` finds it: the method, the path after
`ParsePath_`, the content type and the body. -/
def registerRequest (body : List Byte) : HttpRequest :=
  { HttpRequest.new with
      method_ := cstr "POST", path_ := cstr "/register.html", body_ := body,
      header_ := StrMap.assign StrMap.empty (cstr "Content-Type")
        (cstr "application/x-www-form-urlencoded") }

/-- A user name of 100 bytes `a`. -/
def longName : List Byte := List.replicate 100 97

/-- A password of 150 bytes `b`. -/
def longPwd : List Byte := List.replicate 150 98

/-- A reactor with the idle timeout 1000 ms and no connection. -/
def sampleServer : WebServer :=
  { timeoutMS_ := 1000, connEvent_ := 0, timer_ := HeapTimer.empty,
    epoller_ := fun _ => none, users_ := fun _ => none, userCount := 0 }

/-! ### Auxiliary definitions of the proofs on the reactor tasks, the pool, the
queue and the log -/

/-- The indices `i + 1` and `i + 2` at which the `%` case of the loop of
`ParseFormUrlencoded_` reads `body_` (line 189), in the order of the reads; the
loop is `formLoop`, followed one iteration at a time, and `past` the byte of
`charAt`. -/
def formReads (past : Byte) (n : Nat) : Nat → FormLoopState → List Nat
  | 0, _ => []
  | fuel + 1, s =>
    if s.i < n then
      (if charAt past s.body_ s.i = 37 then [s.i + 1, s.i + 2] else [])
        ++ formReads past n fuel (formLoop past n 1 s)
    else []

/-- The reads of `ParseFormUrlencoded_` on the body `body`. -/
def formReadsOf (past : Byte) (body : List Byte) : List Nat :=
  formReads past body.length body.length
    { body_ := body, post_ := StrMap.empty, key := [], value := [], i := 0, j := 0 }

/-- The reactor `sampleServer` after `AddClient_` of the fd 5 at the clock
reading 0. -/
def serverWithClient : WebServer := (sampleServer.AddClient_ 0 5).getD sampleServer

/-- The reactor `serverWithClient` after the task `OnRead_`, in LT mode, read the
request `GET / HTTP/1.1\r\n\r\n` of the fd 5 and `process` built the response
from the sample root: 83 header bytes and the 12 bytes of `index.html` are
pending. -/
def serverWithResponse : WebServer :=
  ((serverWithClient.OnRead_ 0 false (List.replicate stackBuffSize 0)
      [.deliver (cstr "GET / HTTP/1.1\r\n\r\n")] sampleFs StrMap.empty (cstr "/www") 5).map
    Prod.fst).getD serverWithClient

/-- The fifth of January and the fifth of February 2024, at ten o'clock. -/
def jan5 : Tm := ⟨124, 0, 5, 10, 0, 0⟩

/-- See `jan5`. -/
def feb5 : Tm := ⟨124, 1, 5, 10, 0, 0⟩

/-- The synchronous log opened in `./log` on the fifth of January 2024, after
one record. -/
def sampleLog : Log :=
  ((Log.new.init 1 (cstr "./log") (cstr ".log") 0 jan5).write 1 jan5 123 (cstr "hello")).elim
    Log.new Prod.fst

/-- A request `POST /login` with a form body, and nothing after the body. -/
def postRequest : List Byte :=
  cstr "POST /login HTTP/1.1\r\n" ++ cstr "Content-Type: application/x-www-form-urlencoded\r\n"
    ++ cstr "\r\n" ++ cstr "username=alice&password=pw"

/-! ## Part XI: proofs about `Buffer` -/

/-! ### Lemmas on the vector primitives -/

theorem vectorResize_length (v : List Byte) (k : Nat) : (vectorResize v k).length = k := by
  simp [vectorResize]; omega

theorem stdCopy_length (src : List Byte) :
    ∀ (buf : List Byte) (pos : Nat), (stdCopy buf pos src).length = buf.length := by
  induction src with
  | nil => intro buf pos; rfl
  | cons x xs ih => intro buf pos; simp [stdCopy, ih]

theorem stdCopy_eq (src : List Byte) :
    ∀ (buf : List Byte) (pos : Nat), pos + src.length ≤ buf.length →
      stdCopy buf pos src = buf.take pos ++ src ++ buf.drop (pos + src.length) := by
  induction src with
  | nil => intro buf pos _; simp [stdCopy]
  | cons x xs ih =>
    intro buf pos h
    simp only [List.length_cons] at h
    have hpos : pos < buf.length := by omega
    rw [stdCopy, ih _ _ (by simp; omega)]
    rw [List.set_eq_take_append_cons_drop, if_pos hpos]
    have h1 : List.take (pos + 1) (List.take pos buf ++ x :: List.drop (pos + 1) buf)
        = List.take pos buf ++ [x] := by
      rw [List.take_append_eq_append_take]
      simp [List.length_take, Nat.min_eq_left (Nat.le_of_lt hpos)]
    have h2 : List.drop (pos + 1 + xs.length)
        (List.take pos buf ++ x :: List.drop (pos + 1) buf)
        = List.drop (pos + (xs.length + 1)) buf := by
      rw [List.drop_append_eq_append_drop]
      simp only [List.length_take, Nat.min_eq_left (Nat.le_of_lt hpos)]
      have e1 : List.drop (pos + 1 + xs.length) (List.take pos buf) = [] := by
        apply List.drop_eq_nil_of_le; simp; omega
      have e2 : pos + 1 + xs.length - pos = xs.length + 1 := by omega
      rw [e1, e2]
      simp only [List.nil_append, List.drop_succ_cons, List.drop_drop]
      congr 1; omega
    rw [h1, h2]
    simp [List.length_cons]

/-! ### Lemmas on `Buffer` -/

namespace Buffer

theorem new_cursorInv (n : Nat) : (new n).CursorInv := by
  simp [CursorInv, new]

theorem new_readable (n : Nat) : (new n).readable = [] := by
  simp [readable, new, ReadableBytes]

theorem RetrieveAll_cursorInv (b : Buffer) : b.RetrieveAll.CursorInv := by
  simp [CursorInv, RetrieveAll]

theorem RetrieveAll_readable (b : Buffer) : b.RetrieveAll.readable = [] := by
  simp [readable, RetrieveAll, ReadableBytes]

theorem Retrieve_cursorInv (b : Buffer) (n : Nat) (h : b.CursorInv) :
    (b.Retrieve n).CursorInv := by
  unfold Retrieve
  split
  · rename_i hlt
    simp only [CursorInv, ReadableBytes] at *
    omega
  · exact RetrieveAll_cursorInv b

theorem Retrieve_readable (b : Buffer) (n : Nat) (h : b.CursorInv) :
    (b.Retrieve n).readable = b.readable.drop n := by
  have hlen : b.readable.length = b.writeIndex_ - b.readIndex_ := by
    simp only [readable, ReadableBytes, Peek, CursorInv, List.length_take, List.length_drop] at *
    omega
  unfold Retrieve
  split
  · rename_i hlt
    simp only [readable, ReadableBytes, Peek] at *
    rw [List.drop_take, List.drop_drop]
    congr 1
    omega
  · rename_i hge
    rw [RetrieveAll_readable]
    symm
    apply List.drop_eq_nil_of_le
    simp only [ReadableBytes] at hge
    omega

theorem readable_length (b : Buffer) (h : b.CursorInv) :
    b.readable.length = b.ReadableBytes := by
  simp only [readable, ReadableBytes, Peek, CursorInv, List.length_take, List.length_drop] at *
  omega

theorem MakeSpace_grow (b : Buffer) (n : Nat) (h : b.WritableBytes + b.PrependableBytes < n) :
    b.MakeSpace_ n = { b with buffer_ := vectorResize b.buffer_ (b.writeIndex_ + n + 1) } := by
  simp [MakeSpace_, h]

theorem MakeSpace_slide (b : Buffer) (n : Nat) (h : ¬ b.WritableBytes + b.PrependableBytes < n) :
    b.MakeSpace_ n = { buffer_ := stdCopy b.buffer_ 0 b.readable, readIndex_ := 0,
                       writeIndex_ := b.ReadableBytes } := by
  simp [MakeSpace_, h, readable, ReadableBytes, Peek]

/-- All the facts about one `EnsureWritable` call on a well-formed buffer. -/
theorem EnsureWritable_spec (b : Buffer) (n : Nat) (h : b.CursorInv) :
    (b.EnsureWritable n).CursorInv ∧ n ≤ (b.EnsureWritable n).WritableBytes ∧
    (b.EnsureWritable n).readable = b.readable := by
  have hlen := readable_length b h
  unfold EnsureWritable
  split
  · rename_i hlt
    by_cases hg : b.WritableBytes + b.PrependableBytes < n
    · rw [MakeSpace_grow b n hg]
      simp only [CursorInv, WritableBytes, PrependableBytes, readable, ReadableBytes, Peek,
        vectorResize_length] at *
      refine ⟨⟨h.1, by omega⟩, by omega, ?_⟩
      have htake : List.take (b.writeIndex_ + n + 1) b.buffer_ = b.buffer_ :=
        List.take_of_length_le (by omega)
      rw [vectorResize, htake, List.drop_append_of_le_length (by omega),
        List.take_append_of_le_length (by simp; omega)]
    · rw [MakeSpace_slide b n hg]
      have hcopy := stdCopy_eq b.readable b.buffer_ 0 (by rw [hlen]; simp only [CursorInv, ReadableBytes] at *; omega)
      simp only [CursorInv, WritableBytes, PrependableBytes, ReadableBytes,
        stdCopy_length] at *
      refine ⟨⟨by omega, by omega⟩, by omega, ?_⟩
      show List.take (b.writeIndex_ - b.readIndex_ - 0)
        (List.drop 0 (stdCopy b.buffer_ 0 b.readable)) = b.readable
      rw [hcopy]
      simp only [List.take_zero, List.nil_append, List.drop_zero, Nat.sub_zero]
      rw [List.take_append_of_le_length (by omega)]
      exact List.take_of_length_le (by omega)
  · rename_i hge
    simp only [WritableBytes] at *
    exact ⟨h, by omega, trivial⟩

/-- The copy and cursor bump that end `Append`, on a buffer with room for `s`. -/
theorem write_spec (b1 : Buffer) (s : List Byte) (hinv : b1.CursorInv)
    (hw : s.length ≤ b1.WritableBytes) :
    (HasWritten { b1 with buffer_ := stdCopy b1.buffer_ b1.BeginWrite s } s.length).CursorInv ∧
    (HasWritten { b1 with buffer_ := stdCopy b1.buffer_ b1.BeginWrite s } s.length).readable
      = b1.readable ++ s := by
  have hcopy := stdCopy_eq s b1.buffer_ b1.writeIndex_
    (by simp only [WritableBytes, CursorInv] at *; omega)
  simp only [HasWritten, BeginWrite, CursorInv, WritableBytes, readable, ReadableBytes, Peek,
    stdCopy_length] at *
  refine ⟨⟨by omega, by omega⟩, ?_⟩
  rw [hcopy, List.append_assoc, List.drop_append_of_le_length (by simp; omega),
    List.drop_take, List.take_append_eq_append_take]
  have e1 : List.take (b1.writeIndex_ + s.length - b1.readIndex_)
      (List.take (b1.writeIndex_ - b1.readIndex_) (List.drop b1.readIndex_ b1.buffer_))
      = List.take (b1.writeIndex_ - b1.readIndex_) (List.drop b1.readIndex_ b1.buffer_) := by
    rw [List.take_take]; congr 1; omega
  rw [e1]
  congr 1
  rw [List.take_append_eq_append_take]
  simp only [List.length_take, List.length_drop]
  have e2 : b1.writeIndex_ + s.length - b1.readIndex_ -
      min (b1.writeIndex_ - b1.readIndex_) (b1.buffer_.length - b1.readIndex_) = s.length := by
    omega
  rw [e2]
  simp

theorem Append_spec (b : Buffer) (s : List Byte) (h : b.CursorInv) :
    (b.Append s).CursorInv ∧ (b.Append s).readable = b.readable ++ s := by
  obtain ⟨hinv, hw, hr⟩ := EnsureWritable_spec b s.length h
  have := write_spec (b.EnsureWritable s.length) s hinv hw
  rw [hr] at this
  exact this

theorem applyOp_spec (b : Buffer) (o : BufferOp) (h : b.CursorInv) :
    (b.applyOp o).CursorInv ∧ (b.applyOp o).readable = fifoStep b.readable o := by
  cases o with
  | append s => exact Append_spec b s h
  | retrieve n =>
    refine ⟨Retrieve_cursorInv b n h, ?_⟩
    show (b.Retrieve n).readable = b.readable.drop (min n b.readable.length)
    rw [Retrieve_readable b n h]
    rcases Nat.le_total n b.readable.length with hle | hle
    · rw [Nat.min_eq_left hle]
    · rw [Nat.min_eq_right hle, List.drop_length, List.drop_eq_nil_of_le hle]
  | retrieveAll => exact ⟨RetrieveAll_cursorInv b, RetrieveAll_readable b⟩
  | ensureWritable n =>
    obtain ⟨h1, _, h3⟩ := EnsureWritable_spec b n h
    exact ⟨h1, h3⟩

theorem runOps_spec (ops : List BufferOp) :
    ∀ b : Buffer, b.CursorInv →
      (b.runOps ops).CursorInv ∧ (b.runOps ops).readable = fifoRun b.readable ops := by
  induction ops with
  | nil => intro b h; exact ⟨h, rfl⟩
  | cons o os ih =>
    intro b h
    obtain ⟨h1, h2⟩ := applyOp_spec b o h
    obtain ⟨h3, h4⟩ := ih (b.applyOp o) h1
    refine ⟨h3, ?_⟩
    show ((b.applyOp o).runOps os).readable = fifoRun (fifoStep b.readable o) os
    rw [h4, h2]

theorem fifoRun_appends (ss : List (List Byte)) :
    ∀ q : List Byte, fifoRun q (ss.map BufferOp.append) = q ++ ss.flatten := by
  induction ss with
  | nil => intro q; simp [fifoRun]
  | cons s ss ih =>
    intro q
    show fifoRun (q ++ s) (ss.map BufferOp.append) = _
    rw [ih]; simp

theorem applyCall_cursorInv (b b1 : Buffer) (c : BufferCall) (h : b.CursorInv)
    (hc : b.applyCall c = some b1) : b1.CursorInv := by
  cases c with
  | op o =>
    simp only [applyCall, Option.some.injEq] at hc
    subst hc
    exact (applyOp_spec b o h).1
  | retrieveUntil e =>
    simp only [applyCall, RetrieveUntil] at hc
    split at hc
    · simp only [Option.some.injEq] at hc
      subst hc
      exact Retrieve_cursorInv b _ h
    · exact absurd hc (by simp)
  | retrieveAllToStr =>
    simp only [applyCall, RetrieveAllToStr, Option.some.injEq] at hc
    subst hc
    exact RetrieveAll_cursorInv b

theorem runCalls_cursorInv (cs : List BufferCall) :
    ∀ b b1 : Buffer, b.CursorInv → b.runCalls cs = some b1 → b1.CursorInv := by
  induction cs with
  | nil =>
    intro b b1 h hc
    simp only [runCalls, Option.some.injEq] at hc
    subst hc; exact h
  | cons c cs ih =>
    intro b b1 h hc
    simp only [runCalls] at hc
    cases hstep : b.applyCall c with
    | none => rw [hstep] at hc; exact absurd hc (by simp)
    | some b2 =>
      rw [hstep] at hc
      exact ih b2 b1 (applyCall_cursorInv b b2 c h hstep) hc

end Buffer

/-! ### The claims on `Buffer` -/

/-- C1. From a freshly constructed buffer, after every sequence of `Append`,
`Retrieve`, `RetrieveUntil`, `RetrieveAll`, `RetrieveAllToStr` and
`EnsureWritable` calls that ran to the end, the cursors satisfy
`0 ≤ readIndex_ ≤ writeIndex_ ≤ buffer_.size()`. -/
theorem buffer_cursor_invariant (initBufferSize : Nat) (calls : List BufferCall) (b : Buffer)
    (hrun : (Buffer.new initBufferSize).runCalls calls = some b) :
    0 ≤ b.readIndex_ ∧ b.readIndex_ ≤ b.writeIndex_ ∧ b.writeIndex_ ≤ b.buffer_.length :=
  ⟨Nat.zero_le _,
    Buffer.runCalls_cursorInv calls _ b (Buffer.new_cursorInv initBufferSize) hrun⟩

/-- Witness of C1: a buffer of two bytes, an append that grows it, a partial
retrieve, a `RetrieveUntil` and an append that slides. -/
theorem buffer_cursor_invariant_witness :
    (Buffer.new 2).runCalls
        [.op (.append [1, 2, 3]), .op (.retrieve 1), .retrieveUntil 2, .op (.append [4, 5, 6])]
      = some { buffer_ := [3, 4, 5, 6], readIndex_ := 0, writeIndex_ := 4 } ∧
    (0 ≤ 0 ∧ 0 ≤ 4 ∧ 4 ≤ ([3, 4, 5, 6] : List Byte).length) :=
  ⟨by decide, buffer_cursor_invariant 2
    [.op (.append [1, 2, 3]), .op (.retrieve 1), .retrieveUntil 2, .op (.append [4, 5, 6])]
    { buffer_ := [3, 4, 5, 6], readIndex_ := 0, writeIndex_ := 4 } (by decide)⟩

/-- C2. The buffer is a FIFO byte queue: after any sequence of `Append`,
`Retrieve`, `RetrieveAll` and `EnsureWritable` calls on a fresh buffer the
readable region is the queue of the appended bytes minus the retrieved ones,
`RetrieveAllToStr` returns it, and after appends alone it returns their
concatenation. -/
theorem buffer_fifo (initBufferSize : Nat) (ops : List BufferOp) (ss : List (List Byte)) :
    ((Buffer.new initBufferSize).runOps ops).readable = fifoRun [] ops ∧
    ((Buffer.new initBufferSize).runOps ops).RetrieveAllToStr.1 = fifoRun [] ops ∧
    ((Buffer.new initBufferSize).runOps (ss.map BufferOp.append)).RetrieveAllToStr.1
      = ss.flatten := by
  have h := fun l => (Buffer.runOps_spec l (Buffer.new initBufferSize)
    (Buffer.new_cursorInv initBufferSize)).2
  simp only [Buffer.new_readable] at h
  refine ⟨h ops, h ops, ?_⟩
  show ((Buffer.new initBufferSize).runOps (ss.map BufferOp.append)).readable = _
  rw [h, Buffer.fifoRun_appends]; simp

/-- C3. `EnsureWritable(n)` on a buffer with the cursor invariant leaves at least
`n` writable bytes and the same readable bytes; it changes nothing when the
room was there, slides the readable bytes to offset 0 at the same capacity when
prependable + writable suffices, and otherwise grows the capacity to exactly
`writeIndex_ + n + 1` with the cursors unchanged. -/
theorem EnsureWritable_postcondition (b : Buffer) (n : Nat) (h : b.CursorInv) :
    n ≤ (b.EnsureWritable n).WritableBytes ∧
    (b.EnsureWritable n).readable = b.readable ∧
    (n ≤ b.WritableBytes → b.EnsureWritable n = b) ∧
    (b.WritableBytes < n → n ≤ b.PrependableBytes + b.WritableBytes →
      (b.EnsureWritable n).buffer_.length = b.buffer_.length ∧
      (b.EnsureWritable n).readIndex_ = 0 ∧
      (b.EnsureWritable n).writeIndex_ = b.ReadableBytes ∧
      (b.EnsureWritable n).buffer_.take b.ReadableBytes = b.readable) ∧
    (b.PrependableBytes + b.WritableBytes < n →
      (b.EnsureWritable n).buffer_.length = b.writeIndex_ + n + 1 ∧
      (b.EnsureWritable n).readIndex_ = b.readIndex_ ∧
      (b.EnsureWritable n).writeIndex_ = b.writeIndex_) := by
  obtain ⟨hinv, hw, hr⟩ := Buffer.EnsureWritable_spec b n h
  refine ⟨hw, hr, ?_, ?_, ?_⟩
  · intro hle
    simp [Buffer.EnsureWritable, Nat.not_lt.mpr hle]
  · intro hlt hle
    have hs : b.EnsureWritable n = Buffer.mk (stdCopy b.buffer_ 0 b.readable) 0
        b.ReadableBytes := by
      rw [Buffer.EnsureWritable, if_pos hlt]
      exact Buffer.MakeSpace_slide b n (by omega)
    have hread := hr
    rw [hs] at hread ⊢
    refine ⟨by simp [stdCopy_length], rfl, rfl, ?_⟩
    simpa [Buffer.readable, Buffer.ReadableBytes, Buffer.Peek] using hread
  · intro hlt
    have hs : b.EnsureWritable n = Buffer.mk
        (vectorResize b.buffer_ (b.writeIndex_ + n + 1)) b.readIndex_ b.writeIndex_ := by
      rw [Buffer.EnsureWritable, if_pos (by omega)]
      exact Buffer.MakeSpace_grow b n (by omega)
    rw [hs]
    exact ⟨vectorResize_length _ _, rfl, rfl⟩

/-- Witness of C3: one writable byte, two prependable bytes, three bytes asked
for, so the readable byte is slid to the front. -/
theorem EnsureWritable_postcondition_witness :
    (Buffer.mk [1, 2, 3, 0] 2 3).CursorInv ∧
    3 ≤ ((Buffer.mk [1, 2, 3, 0] 2 3).EnsureWritable 3).WritableBytes ∧
    ((Buffer.mk [1, 2, 3, 0] 2 3).EnsureWritable 3).readable = [3] :=
  ⟨by decide, (EnsureWritable_postcondition (Buffer.mk [1, 2, 3, 0] 2 3) 3 (by decide)).1,
    (EnsureWritable_postcondition (Buffer.mk [1, 2, 3, 0] 2 3) 3 (by decide)).2.1⟩

/-- The part of `ReadFd` after a successful `readv`, case by case. -/
theorem Buffer.ReadFd_deliver (b : Buffer) (stack : List Byte) (Errno : Int) (d : List Byte)
    (h : b.CursorInv) (hstack : stack.length = stackBuffSize)
    (hd : d.length ≤ b.WritableBytes + stackBuffSize) :
    (b.ReadFd stack Errno (.deliver d)).1.CursorInv ∧
    (b.ReadFd stack Errno (.deliver d)).1.readable = b.readable ++ d := by
  by_cases hfit : d.length ≤ b.WritableBytes
  · have e : (b.ReadFd stack Errno (.deliver d)).1 =
        Buffer.HasWritten { b with buffer_ := stdCopy b.buffer_ b.BeginWrite d } d.length := by
      simp only [Buffer.ReadFd, if_pos hfit, List.take_of_length_le hfit, Buffer.HasWritten]
    rw [e]
    exact Buffer.write_spec b d h hfit
  · have hlen : (d.take b.WritableBytes).length = b.WritableBytes :=
      List.length_take_of_le (by omega)
    have hcap : b.writeIndex_ + b.WritableBytes = b.buffer_.length := by
      simp only [Buffer.WritableBytes, Buffer.CursorInv] at *; omega
    have hbuff : (stdCopy stack 0 (d.drop b.WritableBytes)).take (d.length - b.WritableBytes)
        = d.drop b.WritableBytes := by
      rw [stdCopy_eq _ _ _ (by simp only [List.length_drop]; omega)]
      simp only [List.take_zero, List.nil_append]
      rw [List.take_append_of_le_length (by simp)]
      exact List.take_of_length_le (by simp)
    have e : (b.ReadFd stack Errno (.deliver d)).1 =
        Buffer.Append (Buffer.HasWritten
          { b with buffer_ := stdCopy b.buffer_ b.BeginWrite (d.take b.WritableBytes) }
          (d.take b.WritableBytes).length) (d.drop b.WritableBytes) := by
      simp only [Buffer.ReadFd, if_neg hfit, Buffer.HasWritten, hbuff, hlen, hcap,
        stdCopy_length]
    obtain ⟨h1, h2⟩ := Buffer.write_spec b (d.take b.WritableBytes) h (by rw [hlen])
    rw [e]
    obtain ⟨h3, h4⟩ := Buffer.Append_spec _ (d.drop b.WritableBytes) h1
    refine ⟨h3, ?_⟩
    rw [h4, h2, List.append_assoc, List.take_append_drop]

/-- C4. `ReadFd` keeps the bytes in order: when `readv` delivers `d` (at most
writable + 65545 bytes) the readable region becomes the old one followed by `d`
and `|d|` is returned, whether `d` fits the writable space or spills into the
stack buffer; when `readv` fails the buffer is unchanged, the negative result
is returned and `errno` is stored in the out-parameter. -/
theorem ReadFd_preserves_bytes (b : Buffer) (stack : List Byte) (Errno errno : Int)
    (d : List Byte) (h : b.CursorInv) (hstack : stack.length = stackBuffSize)
    (hd : d.length ≤ b.WritableBytes + stackBuffSize) :
    ((b.ReadFd stack Errno (.deliver d)).1.readable = b.readable ++ d ∧
      (b.ReadFd stack Errno (.deliver d)).2.1 = d.length ∧
      (b.ReadFd stack Errno (.deliver d)).1.CursorInv) ∧
    ((b.ReadFd stack Errno (.fail errno)).1 = b ∧
      (b.ReadFd stack Errno (.fail errno)).2.1 < 0 ∧
      (b.ReadFd stack Errno (.fail errno)).2.2 = errno) := by
  obtain ⟨h1, h2⟩ := Buffer.ReadFd_deliver b stack Errno d h hstack hd
  refine ⟨⟨h2, ?_, h1⟩, rfl, (by show (-1 : Int) < 0; decide), rfl⟩
  simp only [Buffer.ReadFd]
  split <;> rfl

/-- Witness of C4: a full two-byte buffer receives three bytes, all of which
pass through the stack buffer. -/
theorem ReadFd_preserves_bytes_witness :
    (Buffer.mk [7, 8] 0 2).CursorInv ∧
    (List.replicate stackBuffSize (0 : Byte)).length = stackBuffSize ∧
    ([1, 2, 3] : List Byte).length ≤ (Buffer.mk [7, 8] 0 2).WritableBytes + stackBuffSize ∧
    ((Buffer.mk [7, 8] 0 2).ReadFd (List.replicate stackBuffSize 0) 0
      (.deliver [1, 2, 3])).1.readable = (Buffer.mk [7, 8] 0 2).readable ++ [1, 2, 3] :=
  ⟨by decide, List.length_replicate _ _, (by show 3 ≤ 0 + 65545; omega),
    (ReadFd_preserves_bytes (Buffer.mk [7, 8] 0 2) (List.replicate stackBuffSize 0) 0 0 [1, 2, 3]
      (by decide) (List.length_replicate _ _) (by show 3 ≤ 0 + 65545; omega)).1.1⟩

/-! ## Part XII: proofs about `HeapTimer` -/

/-! ### Lemmas on the heap vector -/

theorem heapAt_eq_getElem (h : List TimerNode) (i : Nat) (hi : i < h.length) :
    heapAt h i = h[i] := by
  simp [heapAt, List.getD_eq_getElem?_getD, List.getElem?_eq_getElem hi]

theorem heapAt_mem (h : List TimerNode) (i : Nat) (hi : i < h.length) : heapAt h i ∈ h := by
  rw [heapAt_eq_getElem h i hi]; exact List.getElem_mem hi

theorem heapAt_set_eq (h : List TimerNode) (i : Nat) (a : TimerNode) (hi : i < h.length) :
    heapAt (h.set i a) i = a := by
  simp [heapAt, List.getD_eq_getElem?_getD, List.getElem?_set, hi]

theorem heapAt_set_ne (h : List TimerNode) (i k : Nat) (a : TimerNode) (hik : i ≠ k) :
    heapAt (h.set i a) k = heapAt h k := by
  simp [heapAt, List.getD_eq_getElem?_getD, List.getElem?_set, hik]

theorem heapAt_append_left (h : List TimerNode) (x : TimerNode) (k : Nat) (hk : k < h.length) :
    heapAt (h ++ [x]) k = heapAt h k := by
  simp [heapAt, List.getD_eq_getElem?_getD, List.getElem?_append_left hk]

theorem heapAt_append_length (h : List TimerNode) (x : TimerNode) :
    heapAt (h ++ [x]) h.length = x := by
  simp [heapAt, List.getD_eq_getElem?_getD]

theorem heapAt_dropLast (h : List TimerNode) (k : Nat) (hk : k < h.length - 1) :
    heapAt h.dropLast k = heapAt h k := by
  simp only [heapAt, List.getD_eq_getElem?_getD, List.getElem?_dropLast, if_pos hk]

theorem dropLast_append_heapAt (h : List TimerNode) (hne : 0 < h.length) :
    h.dropLast ++ [heapAt h (h.length - 1)] = h := by
  have hne2 : h ≠ [] := by intro e; rw [e] at hne; exact Nat.lt_irrefl _ hne
  rw [heapAt_eq_getElem h _ (by omega), ← List.getLast_eq_getElem h hne2]
  exact List.dropLast_append_getLast hne2

theorem swapList_length (h : List TimerNode) (i j : Nat) :
    (swapList h i j).length = h.length := by
  simp [swapList]

theorem heapAt_swapList (h : List TimerNode) (i j k : Nat) (hi : i < h.length)
    (hj : j < h.length) :
    heapAt (swapList h i j) k =
      if k = j then heapAt h i else if k = i then heapAt h j else heapAt h k := by
  unfold swapList
  by_cases hkj : k = j
  · subst hkj
    rw [if_pos rfl, heapAt_set_eq _ _ _ (by simpa using hj)]
  · rw [if_neg hkj, heapAt_set_ne _ _ _ _ (Ne.symm hkj)]
    by_cases hki : k = i
    · subst hki
      rw [if_pos rfl, heapAt_set_eq _ _ _ hi]
    · rw [if_neg hki, heapAt_set_ne _ _ _ _ (Ne.symm hki)]

theorem swapList_perm (h : List TimerNode) (i j : Nat) (hi : i < h.length)
    (hj : j < h.length) : (swapList h i j).Perm h := by
  rw [List.perm_iff_count]
  intro a
  unfold swapList
  rw [List.count_set _ _ _ _ (by simpa using hj), List.count_set _ _ _ _ hi]
  have e1 : ∀ (hp : j < (h.set i (heapAt h j)).length), (h.set i (heapAt h j))[j] = h[j] := by
    intro hp
    rw [List.getElem_set]
    split
    · rename_i hij; subst hij; exact heapAt_eq_getElem h i hi
    · rfl
  rw [e1, heapAt_eq_getElem h i hi, heapAt_eq_getElem h j hj]
  have b1 := List.boole_getElem_le_count a h i hi
  omega

/-! ### `SwapNode_` -/

namespace HeapTimer

theorem IndexInv.inj {t : HeapTimer} (hinv : t.IndexInv) {i j : Nat} (hi : i < t.heap_.length)
    (hj : j < t.heap_.length) (e : (heapAt t.heap_ i).id = (heapAt t.heap_ j).id) : i = j := by
  have h1 := hinv.1 i hi
  have h2 := hinv.1 j hj
  rw [e, h2] at h1
  exact (Option.some.inj h1).symm

theorem SwapNode_length (t : HeapTimer) (i j : Nat) :
    (t.SwapNode_ i j).heap_.length = t.heap_.length := swapList_length _ _ _

theorem SwapNode_heapAt (t : HeapTimer) (i j k : Nat) (hi : i < t.heap_.length)
    (hj : j < t.heap_.length) :
    heapAt (t.SwapNode_ i j).heap_ k =
      if k = j then heapAt t.heap_ i else if k = i then heapAt t.heap_ j else heapAt t.heap_ k :=
  heapAt_swapList _ _ _ _ hi hj

theorem SwapNode_indexInv (t : HeapTimer) (i j : Nat) (hi : i < t.heap_.length)
    (hj : j < t.heap_.length) (hinv : t.IndexInv) : (t.SwapNode_ i j).IndexInv := by
  have hat := fun k => heapAt_swapList t.heap_ i j k hi hj
  have hatj : heapAt (swapList t.heap_ i j) j = heapAt t.heap_ i := by rw [hat, if_pos rfl]
  constructor
  · intro k hk
    have hk0 : k < t.heap_.length := by rw [SwapNode_length] at hk; exact hk
    show mapAssign (mapAssign t.ref_ (heapAt (swapList t.heap_ i j) i).id i)
      (heapAt (swapList t.heap_ i j) j).id j (heapAt (swapList t.heap_ i j) k).id = some k
    unfold mapAssign
    by_cases hkj : k = j
    · subst hkj; rw [if_pos rfl]
    · have hne1 : (heapAt (swapList t.heap_ i j) k).id ≠ (heapAt (swapList t.heap_ i j) j).id := by
        intro e
        rw [hatj, hat k, if_neg hkj] at e
        by_cases hki : k = i
        · rw [if_pos hki] at e
          exact hkj (hki.trans (hinv.inj hj hi e).symm)
        · rw [if_neg hki] at e
          exact hki (hinv.inj hk0 hi e)
      rw [if_neg hne1]
      by_cases hki : k = i
      · subst hki; rw [if_pos rfl]
      · have hne2 : (heapAt (swapList t.heap_ i j) k).id ≠ (heapAt (swapList t.heap_ i j) i).id := by
          intro e
          rw [hat k, if_neg hkj, if_neg hki, hat i] at e
          by_cases hij : i = j
          · rw [if_pos hij] at e; exact hki (hinv.inj hk0 hi e)
          · rw [if_neg hij, if_pos rfl] at e; exact hkj (hinv.inj hk0 hj e)
        rw [if_neg hne2, hat k, if_neg hkj, if_neg hki]
        exact hinv.1 k hk0
  · intro id m hm
    rw [SwapNode_length]
    change mapAssign (mapAssign t.ref_ (heapAt (swapList t.heap_ i j) i).id i)
      (heapAt (swapList t.heap_ i j) j).id j id = some m at hm
    show m < t.heap_.length ∧ (heapAt (swapList t.heap_ i j) m).id = id
    unfold mapAssign at hm
    by_cases h1 : id = (heapAt (swapList t.heap_ i j) j).id
    · rw [if_pos h1] at hm
      have : j = m := Option.some.inj hm
      subst this
      exact ⟨hj, h1.symm⟩
    · rw [if_neg h1] at hm
      by_cases h2 : id = (heapAt (swapList t.heap_ i j) i).id
      · rw [if_pos h2] at hm
        have : i = m := Option.some.inj hm
        subst this
        exact ⟨hi, h2.symm⟩
      · rw [if_neg h2] at hm
        obtain ⟨hml, hmid⟩ := hinv.2 id m hm
        refine ⟨hml, ?_⟩
        have hmi : m ≠ i := by
          intro e; subst e; rw [hatj] at h1; exact h1 hmid.symm
        have hmj : m ≠ j := by
          intro e; subst e
          rw [hat i] at h2
          by_cases hij : i = m
          · subst hij; exact hmi rfl
          · rw [if_neg hij, if_pos rfl] at h2; exact h2 hmid.symm
        rw [hat m, if_neg hmj, if_neg hmi]
        exact hmid

end HeapTimer

/-! ### The sift loops permute the nodes inside their range -/

namespace Shuffled

theorem refl (lo hi : Nat) (t : HeapTimer) : Shuffled lo hi t t :=
  ⟨rfl, List.Perm.refl _, id, fun _ _ => rfl⟩

theorem trans {lo hi : Nat} {t t1 t2 : HeapTimer} (h1 : Shuffled lo hi t t1)
    (h2 : Shuffled lo hi t1 t2) : Shuffled lo hi t t2 :=
  ⟨h2.length.trans h1.length, h2.perm.trans h1.perm, fun h => h2.inv (h1.inv h),
    fun k hk => (h2.frame k hk).trans (h1.frame k hk)⟩

theorem mono {lo hi lo1 hi1 : Nat} {t t1 : HeapTimer} (h : Shuffled lo hi t t1)
    (hlo : lo1 ≤ lo) (hhi : hi ≤ hi1) : Shuffled lo1 hi1 t t1 :=
  ⟨h.length, h.perm, h.inv, fun k hk => h.frame k (by omega)⟩

end Shuffled

namespace HeapTimer

theorem SwapNode_shuffled (t : HeapTimer) (lo hi i j : Nat) (hi1 : i < t.heap_.length)
    (hj1 : j < t.heap_.length) (hi2 : lo ≤ i ∧ i < hi) (hj2 : lo ≤ j ∧ j < hi) :
    Shuffled lo hi t (t.SwapNode_ i j) := by
  refine ⟨SwapNode_length t i j, swapList_perm _ _ _ hi1 hj1, SwapNode_indexInv t i j hi1 hj1, ?_⟩
  intro k hk
  rw [SwapNode_heapAt t i j k hi1 hj1, if_neg (by omega), if_neg (by omega)]

theorem siftupLoop_succ (fuel : Nat) (t : HeapTimer) (i : Nat) :
    siftupLoop (fuel + 1) t i =
      if 0 < i then
        if (heapAt t.heap_ ((i - 1) / 2)).expires > (heapAt t.heap_ i).expires then
          siftupLoop fuel (t.SwapNode_ i ((i - 1) / 2)) ((i - 1) / 2)
        else t
      else t := rfl

theorem siftdownLoop_succ (fuel : Nat) (t : HeapTimer) (i n : Nat) :
    siftdownLoop (fuel + 1) t i n =
      if 2 * i + 1 < n then
        if (heapAt t.heap_ (smallerChild t.heap_ i n)).expires < (heapAt t.heap_ i).expires then
          siftdownLoop fuel (t.SwapNode_ i (smallerChild t.heap_ i n)) (smallerChild t.heap_ i n) n
        else (t, i)
      else (t, i) := rfl

theorem smallerChild_cases (h : List TimerNode) (i n : Nat) (hc : 2 * i + 1 < n) :
    (smallerChild h i n = 2 * i + 1 ∨ smallerChild h i n = 2 * i + 2) ∧
    smallerChild h i n < n ∧
    (heapAt h (smallerChild h i n)).expires ≤ (heapAt h (2 * i + 1)).expires ∧
    (2 * i + 2 < n →
      (heapAt h (smallerChild h i n)).expires ≤ (heapAt h (2 * i + 2)).expires) := by
  unfold smallerChild
  by_cases hr : 2 * i + 1 + 1 < n ∧
      (heapAt h (2 * i + 1 + 1)).expires < (heapAt h (2 * i + 1)).expires
  · rw [if_pos hr]
    exact ⟨Or.inr rfl, hr.1, Int.le_of_lt hr.2, fun _ => Int.le_refl _⟩
  · rw [if_neg hr]
    refine ⟨Or.inl rfl, hc, Int.le_refl _, fun h2 => ?_⟩
    by_cases hlt : (heapAt h (2 * i + 1 + 1)).expires < (heapAt h (2 * i + 1)).expires
    · exact absurd ⟨h2, hlt⟩ hr
    · exact Int.not_lt.mp hlt

theorem siftupLoop_shuffled (fuel : Nat) :
    ∀ (t : HeapTimer) (i : Nat), i < t.heap_.length →
      Shuffled 0 (i + 1) t (siftupLoop fuel t i) := by
  induction fuel with
  | zero => intro t i _; exact Shuffled.refl _ _ _
  | succ fuel ih =>
    intro t i hi
    rw [siftupLoop_succ]
    by_cases hpos : 0 < i
    · rw [if_pos hpos]
      have hp : (i - 1) / 2 < i := by omega
      by_cases hgt : (heapAt t.heap_ ((i - 1) / 2)).expires > (heapAt t.heap_ i).expires
      · rw [if_pos hgt]
        have h1 := SwapNode_shuffled t 0 (i + 1) i ((i - 1) / 2) hi (by omega)
          (by omega) (by omega)
        have h2 := ih (t.SwapNode_ i ((i - 1) / 2)) ((i - 1) / 2)
          (by rw [SwapNode_length]; omega)
        exact h1.trans (h2.mono (Nat.le_refl _) (by omega))
      · rw [if_neg hgt]; exact Shuffled.refl _ _ _
    · rw [if_neg hpos]; exact Shuffled.refl _ _ _

theorem siftup_shuffled (t : HeapTimer) (i : Nat) (hi : i < t.heap_.length) :
    Shuffled 0 (i + 1) t (t.siftup_ i) := siftupLoop_shuffled i t i hi

theorem siftdownLoop_shuffled (fuel : Nat) :
    ∀ (t : HeapTimer) (i n : Nat), n ≤ t.heap_.length →
      Shuffled i n t (siftdownLoop fuel t i n).1 := by
  induction fuel with
  | zero => intro t i n _; exact Shuffled.refl _ _ _
  | succ fuel ih =>
    intro t i n hn
    rw [siftdownLoop_succ]
    by_cases hchild : 2 * i + 1 < n
    · rw [if_pos hchild]
      obtain ⟨hc, hcn, _, _⟩ := smallerChild_cases t.heap_ i n hchild
      by_cases hlt : (heapAt t.heap_ (smallerChild t.heap_ i n)).expires
          < (heapAt t.heap_ i).expires
      · rw [if_pos hlt]
        have h1 := SwapNode_shuffled t i n i (smallerChild t.heap_ i n) (by omega) (by omega)
          (by omega) (by omega)
        have h2 := ih (t.SwapNode_ i (smallerChild t.heap_ i n)) (smallerChild t.heap_ i n) n
          (by rw [SwapNode_length]; omega)
        exact h1.trans (h2.mono (by omega) (Nat.le_refl _))
      · rw [if_neg hlt]; exact Shuffled.refl _ _ _
    · rw [if_neg hchild]; exact Shuffled.refl _ _ _

theorem siftdown_shuffled (t : HeapTimer) (i n : Nat) (hn : n ≤ t.heap_.length) :
    Shuffled i n t (t.siftdown_ i n).1 := siftdownLoop_shuffled _ t i n hn

/-- The final `index` of the loop is at least the starting one, and the timer is
untouched when they are equal. -/
theorem siftdownLoop_index (fuel : Nat) :
    ∀ (t : HeapTimer) (i n : Nat), i ≤ (siftdownLoop fuel t i n).2 ∧
      ((siftdownLoop fuel t i n).2 = i → (siftdownLoop fuel t i n).1 = t) := by
  induction fuel with
  | zero => intro t i n; exact ⟨Nat.le_refl _, fun _ => rfl⟩
  | succ fuel ih =>
    intro t i n
    rw [siftdownLoop_succ]
    by_cases hchild : 2 * i + 1 < n
    · rw [if_pos hchild]
      obtain ⟨hc, _, _, _⟩ := smallerChild_cases t.heap_ i n hchild
      by_cases hlt : (heapAt t.heap_ (smallerChild t.heap_ i n)).expires
          < (heapAt t.heap_ i).expires
      · rw [if_pos hlt]
        have h2 := (ih (t.SwapNode_ i (smallerChild t.heap_ i n)) (smallerChild t.heap_ i n) n).1
        exact ⟨by omega, fun e => by omega⟩
      · rw [if_neg hlt]; exact ⟨Nat.le_refl _, fun _ => rfl⟩
    · rw [if_neg hchild]; exact ⟨Nat.le_refl _, fun _ => rfl⟩

end HeapTimer

/-! ### The sift loops restore the heap order -/

namespace HeapTimer

/-- `siftup_` at `i`: when the order can fail only between `i` and its parent,
and the children of `i` are not below the parent of `i`, the result is ordered. -/
theorem siftupLoop_heapOrdered (fuel : Nat) :
    ∀ (t : HeapTimer) (i n : Nat), i ≤ fuel → i < n → n ≤ t.heap_.length →
      (∀ k, k < n → 0 < k → k ≠ i →
        (heapAt t.heap_ ((k - 1) / 2)).expires ≤ (heapAt t.heap_ k).expires) →
      (∀ k, k < n → 0 < k → (k - 1) / 2 = i → 0 < i →
        (heapAt t.heap_ ((i - 1) / 2)).expires ≤ (heapAt t.heap_ k).expires) →
      HeapOrdered (siftupLoop fuel t i).heap_ n := by
  induction fuel with
  | zero =>
    intro t i n hf _ _ ha _ k hk hk0
    exact ha k hk hk0 (by omega)
  | succ fuel ih =>
    intro t i n hf hin hn ha hb
    rw [siftupLoop_succ]
    by_cases hpos : 0 < i
    · rw [if_pos hpos]
      by_cases hgt : (heapAt t.heap_ ((i - 1) / 2)).expires > (heapAt t.heap_ i).expires
      · rw [if_pos hgt]
        obtain ⟨p, hp⟩ : ∃ p, p = (i - 1) / 2 := ⟨_, rfl⟩
        rw [← hp] at hgt ⊢
        have hpi : p < i := by omega
        have hsw := fun k => SwapNode_heapAt t i p k (by omega) (by omega)
        have hC := ha p (by omega)
        apply ih (t.SwapNode_ i p) p n (by omega) (by omega) (by rw [SwapNode_length]; exact hn)
        · intro k hk hk0 hkp
          have hA := ha k hk hk0
          have hB := hb k hk hk0
          rw [hsw k, hsw ((k - 1) / 2), if_neg hkp]
          by_cases hki : k = i
          · subst hki
            rw [if_pos rfl, ← hp, if_pos rfl]
            omega
          · rw [if_neg hki]
            by_cases hpp : (k - 1) / 2 = p
            · rw [if_pos hpp]
              rw [hpp] at hA
              have := hA hki
              omega
            · rw [if_neg hpp]
              by_cases hpi2 : (k - 1) / 2 = i
              · rw [if_pos hpi2]
                have := hB hpi2 hpos
                rw [← hp] at this
                exact this
              · rw [if_neg hpi2]; exact hA hki
        · intro k hk hk0 hkp hp0
          have hA := ha k hk hk0
          have hC' := hC hp0 (by omega)
          rw [hsw k, hsw ((p - 1) / 2), if_neg (by omega), if_neg (by omega), if_neg (by omega)]
          by_cases hki : k = i
          · rw [if_pos hki]; exact hC'
          · rw [if_neg hki]
            have := hA hki
            rw [hkp] at this
            omega
      · rw [if_neg hgt]
        intro k hk hk0
        by_cases hki : k = i
        · subst hki; omega
        · exact ha k hk hk0 hki
    · rw [if_neg hpos]
      intro k hk hk0
      exact ha k hk hk0 (by omega)

/-- `siftdown_` at `i` below `n`: when the order can fail only between `i` and
its children, and these are not below the parent of `i`, the result is ordered. -/
theorem siftdownLoop_heapOrdered (fuel : Nat) :
    ∀ (t : HeapTimer) (i n : Nat), n - i ≤ fuel → n ≤ t.heap_.length →
      (∀ k, k < n → 0 < k → (k - 1) / 2 ≠ i →
        (heapAt t.heap_ ((k - 1) / 2)).expires ≤ (heapAt t.heap_ k).expires) →
      (∀ k, k < n → 0 < k → (k - 1) / 2 = i → 0 < i →
        (heapAt t.heap_ ((i - 1) / 2)).expires ≤ (heapAt t.heap_ k).expires) →
      HeapOrdered (siftdownLoop fuel t i n).1.heap_ n := by
  induction fuel with
  | zero =>
    intro t i n hf _ ha _
    show HeapOrdered t.heap_ n
    intro k hk hk0
    exact ha k hk hk0 (by omega)
  | succ fuel ih =>
    intro t i n hf hn ha hb
    rw [siftdownLoop_succ]
    by_cases hchild : 2 * i + 1 < n
    · rw [if_pos hchild]
      obtain ⟨hc, hcn, hcl, hcr⟩ := smallerChild_cases t.heap_ i n hchild
      generalize smallerChild t.heap_ i n = c at hc hcn hcl hcr ⊢
      have hpc : (c - 1) / 2 = i := by omega
      by_cases hlt : (heapAt t.heap_ c).expires < (heapAt t.heap_ i).expires
      · rw [if_pos hlt]
        have hsw := fun k => SwapNode_heapAt t i c k (by omega) (by omega)
        apply ih (t.SwapNode_ i c) c n (by omega) (by rw [SwapNode_length]; exact hn)
        · intro k hk hk0 hkp
          have hA := ha k hk hk0
          rw [hsw k, hsw ((k - 1) / 2), if_neg hkp]
          by_cases hkc : k = c
          · rw [if_pos hkc, hkc, hpc, if_pos rfl]
            omega
          · rw [if_neg hkc]
            by_cases hki : k = i
            · have hB := hb c hcn (by omega) hpc (by omega)
              rw [if_pos hki, if_neg (by omega), hki]
              exact hB
            · rw [if_neg hki]
              by_cases hpi : (k - 1) / 2 = i
              · rw [if_pos hpi]
                have hk2 : k = 2 * i + 1 ∨ k = 2 * i + 2 := by omega
                rcases hk2 with e | e
                · rw [e]; exact hcl
                · rw [e]; exact hcr (by omega)
              · rw [if_neg hpi]; exact hA hpi
        · intro k hk hk0 hkp _
          have hA := ha k hk hk0 (by omega)
          have e1 : heapAt (t.SwapNode_ i c).heap_ k = heapAt t.heap_ k := by
            rw [hsw k, if_neg (by omega), if_neg (by omega)]
          have e2 : heapAt (t.SwapNode_ i c).heap_ i = heapAt t.heap_ c := by
            rw [hsw i, if_neg (by omega), if_pos rfl]
          rw [hpc, e1, e2]
          rw [hkp] at hA
          exact hA
      · rw [if_neg hlt]
        show HeapOrdered t.heap_ n
        intro k hk hk0
        by_cases hpi : (k - 1) / 2 = i
        · rw [hpi]
          have hk2 : k = 2 * i + 1 ∨ k = 2 * i + 2 := by omega
          rcases hk2 with e | e
          · rw [e]; omega
          · rw [e]; have := hcr (by omega); omega
        · exact ha k hk hk0 hpi
    · rw [if_neg hchild]
      show HeapOrdered t.heap_ n
      intro k hk hk0
      exact ha k hk hk0 (by omega)

/-- After `heap_[i]` was replaced in an ordered heap, the order can fail only
between `i` and its neighbours; `siftdown_` followed, when it moved nothing, by
`siftup_` (the step shared by `del_` and `add`) restores it. -/
theorem resift_heapOrdered (t : HeapTimer) (i n : Nat) (hin : i < n) (hn : n ≤ t.heap_.length)
    (ha : ∀ k, k < n → 0 < k → k ≠ i → (k - 1) / 2 ≠ i →
      (heapAt t.heap_ ((k - 1) / 2)).expires ≤ (heapAt t.heap_ k).expires)
    (hb : ∀ k, k < n → 0 < k → (k - 1) / 2 = i → 0 < i →
      (heapAt t.heap_ ((i - 1) / 2)).expires ≤ (heapAt t.heap_ k).expires) :
    HeapOrdered (if !(t.siftdown_ i n).2 then (t.siftdown_ i n).1.siftup_ i
      else (t.siftdown_ i n).1).heap_ n := by
  obtain ⟨hidx, hsame⟩ := siftdownLoop_index (n - i) t i n
  have hdown2 : (t.siftdown_ i n).2 = decide ((siftdownLoop (n - i) t i n).2 > i) := rfl
  have hdown1 : (t.siftdown_ i n).1 = (siftdownLoop (n - i) t i n).1 := rfl
  by_cases hpar : 0 < i ∧ (heapAt t.heap_ i).expires < (heapAt t.heap_ ((i - 1) / 2)).expires
  · -- the new deadline is below the parent: nothing moves down, `siftup_` repairs
    have hstay : siftdownLoop (n - i) t i n = (t, i) := by
      obtain ⟨m, hm⟩ : ∃ m, n - i = m + 1 := ⟨n - i - 1, by omega⟩
      rw [hm, siftdownLoop_succ]
      by_cases hchild : 2 * i + 1 < n
      · rw [if_pos hchild]
        obtain ⟨hc, hcn, _, _⟩ := smallerChild_cases t.heap_ i n hchild
        have := hb _ hcn (by omega) (by omega) hpar.1
        rw [if_neg (by omega)]
      · rw [if_neg hchild]
    rw [hdown2, hdown1, hstay]
    simp only [gt_iff_lt, Nat.lt_irrefl, decide_False, Bool.not_false, if_true]
    apply siftupLoop_heapOrdered i t i n (Nat.le_refl _) hin hn
    · intro k hk hk0 hki
      by_cases hpi : (k - 1) / 2 = i
      · have := hb k hk hk0 hpi hpar.1
        rw [hpi]; omega
      · exact ha k hk hk0 hki hpi
    · exact hb
  · -- the new deadline is not below the parent: `siftdown_` repairs
    have hord : HeapOrdered (siftdownLoop (n - i) t i n).1.heap_ n := by
      apply siftdownLoop_heapOrdered (n - i) t i n (Nat.le_refl _) hn
      · intro k hk hk0 hpi
        by_cases hki : k = i
        · subst hki
          by_cases hle : (heapAt t.heap_ ((k - 1) / 2)).expires ≤ (heapAt t.heap_ k).expires
          · exact hle
          · exact absurd ⟨hk0, by omega⟩ hpar
        · exact ha k hk hk0 hki hpi
      · exact hb
    rw [hdown2, hdown1]
    by_cases hmoved : (siftdownLoop (n - i) t i n).2 > i
    · simp only [hmoved, decide_True, Bool.not_true, Bool.false_eq_true, if_false]
      exact hord
    · simp only [hmoved, decide_False, Bool.not_false, if_true]
      have hl := (siftdownLoop_shuffled (n - i) t i n hn).length
      apply siftupLoop_heapOrdered i _ i n (Nat.le_refl _) hin (by rw [hl]; exact hn)
      · intro k hk hk0 _; exact hord k hk hk0
      · intro k hk hk0 hpi hi0
        have h1 := hord k hk hk0
        have h2 := hord i hin hi0
        rw [hpi] at h1
        omega

end HeapTimer

/-! ### `del_`, `add`, `adjust`, `doWork`, `pop` -/

namespace HeapTimer

theorem resift_shuffled (t : HeapTimer) (i n : Nat) (hin : i < n) (hn : n ≤ t.heap_.length) :
    Shuffled 0 n t (if !(t.siftdown_ i n).2 then (t.siftdown_ i n).1.siftup_ i
      else (t.siftdown_ i n).1) := by
  have h1 := (siftdown_shuffled t i n hn).mono (Nat.zero_le _) (Nat.le_refl _)
  by_cases hm : (t.siftdown_ i n).2 = true
  · simp only [hm, Bool.not_true, Bool.false_eq_true, if_false]
    exact h1
  · simp only [hm, Bool.not_false, if_true]
    have h2 := siftup_shuffled (t.siftdown_ i n).1 i (by rw [h1.length]; omega)
    exact h1.trans (h2.mono (Nat.le_refl _) (by omega))

/-- The last two statements of `del_`: erase the id of the last node and drop
the node. -/
theorem eraseLast_spec (t1 : HeapTimer) (hpos : 0 < t1.heap_.length) :
    (t1.IndexInv → IndexInv (HeapTimer.mk t1.heap_.dropLast
      (mapErase t1.ref_ (heapAt t1.heap_ (t1.heap_.length - 1)).id))) ∧
    (HeapOrdered t1.heap_ (t1.heap_.length - 1) →
      HeapOrdered t1.heap_.dropLast t1.heap_.dropLast.length) := by
  constructor
  · intro hinv
    constructor
    · intro k hk
      simp only [List.length_dropLast] at hk
      show mapErase t1.ref_ _ (heapAt t1.heap_.dropLast k).id = some k
      rw [heapAt_dropLast _ _ hk]
      unfold mapErase
      rw [if_neg]
      · exact hinv.1 k (by omega)
      · intro e
        have := hinv.inj (by omega) (by omega) e
        omega
    · intro id m hm
      change mapErase t1.ref_ _ id = some m at hm
      unfold mapErase at hm
      by_cases e : id = (heapAt t1.heap_ (t1.heap_.length - 1)).id
      · rw [if_pos e] at hm; exact absurd hm (by simp)
      · rw [if_neg e] at hm
        obtain ⟨hml, hmid⟩ := hinv.2 id m hm
        have hne : m ≠ t1.heap_.length - 1 := by
          intro e2; rw [e2] at hmid; exact e hmid.symm
        have hlt : m < t1.heap_.length - 1 := by omega
        simp only [List.length_dropLast]
        refine ⟨hlt, ?_⟩
        show (heapAt t1.heap_.dropLast m).id = id
        rw [heapAt_dropLast _ _ hlt]; exact hmid
  · intro hord k hk hk0
    simp only [List.length_dropLast] at hk
    rw [heapAt_dropLast _ _ hk, heapAt_dropLast _ _ (by omega)]
    exact hord k hk hk0

/-- Everything about `del_(index)` for an index in range. -/
theorem del_spec (t : HeapTimer) (index : Nat) (hidx : index < t.heap_.length) :
    (t.del_ index).heap_.length = t.heap_.length - 1 ∧
    ((t.del_ index).heap_ ++ [heapAt t.heap_ index]).Perm t.heap_ ∧
    (t.IndexInv → (t.del_ index).IndexInv) ∧
    (HeapOrdered t.heap_ t.heap_.length →
      HeapOrdered (t.del_ index).heap_ (t.del_ index).heap_.length) := by
  -- `t1` is the timer before the last two statements
  obtain ⟨t1, ht1, hsh, hlast, hord⟩ : ∃ t1 : HeapTimer,
      t.del_ index = HeapTimer.mk t1.heap_.dropLast
        (mapErase t1.ref_ (heapAt t1.heap_ (t1.heap_.length - 1)).id) ∧
      Shuffled 0 t.heap_.length t t1 ∧
      heapAt t1.heap_ (t.heap_.length - 1) = heapAt t.heap_ index ∧
      (HeapOrdered t.heap_ t.heap_.length → HeapOrdered t1.heap_ (t.heap_.length - 1)) := by
    by_cases hlt : index < t.heap_.length - 1
    · have hsw := SwapNode_shuffled t 0 t.heap_.length index (t.heap_.length - 1) hidx
        (by omega) (by omega) (by omega)
      have hat := fun k => SwapNode_heapAt t index (t.heap_.length - 1) k hidx (by omega)
      have hre := resift_shuffled (t.SwapNode_ index (t.heap_.length - 1)) index
        (t.heap_.length - 1) hlt (by rw [hsw.length]; omega)
      refine ⟨_, by simp only [del_, if_pos hlt], hsw.trans (hre.mono (Nat.le_refl _) (by omega)),
        ?_, ?_⟩
      · rw [hre.frame _ (Or.inr (Nat.le_refl _)), hat, if_pos rfl]
      · intro hord
        apply resift_heapOrdered _ index (t.heap_.length - 1) hlt (by rw [hsw.length]; omega)
        · intro k hk hk0 hki hpi
          have e1 := hat k
          have e2 := hat ((k - 1) / 2)
          rw [if_neg (by omega), if_neg hki] at e1
          rw [if_neg (by omega), if_neg hpi] at e2
          rw [e1, e2]
          exact hord k (by omega) hk0
        · intro k hk hk0 hpi hi0
          have e1 := hat k
          have e2 := hat ((index - 1) / 2)
          rw [if_neg (by omega), if_neg (by omega)] at e1
          rw [if_neg (by omega), if_neg (by omega)] at e2
          rw [e1, e2]
          have h1 := hord k (by omega) hk0
          have h2 := hord index hidx hi0
          rw [hpi] at h1
          omega
    · refine ⟨t, by simp only [del_, if_neg hlt], Shuffled.refl _ _ _, ?_, ?_⟩
      · have : index = t.heap_.length - 1 := by omega
        rw [← this]
      · intro hord k hk hk0
        exact hord k (by omega) hk0
  have hlen : t1.heap_.length = t.heap_.length := hsh.length
  have hpos : 0 < t1.heap_.length := by omega
  obtain ⟨hinv1, hord1⟩ := eraseLast_spec t1 hpos
  rw [ht1]
  refine ⟨by simp [hlen], ?_, fun hinv => hinv1 (hsh.inv hinv), fun h => ?_⟩
  · show (t1.heap_.dropLast ++ [heapAt t.heap_ index]).Perm t.heap_
    rw [← hlast, ← hlen, dropLast_append_heapAt _ hpos]
    exact hsh.perm
  · apply hord1
    rw [hlen]
    exact hord h

theorem mapCount_true {m : Int → Option Nat} {k : Int} (h : mapCount m k = true) :
    m k = some (mapGet m k) := by
  unfold mapCount at h
  unfold mapGet
  cases hm : m k with
  | none => rw [hm] at h; exact absurd h (by simp)
  | some v => rfl

theorem mapCount_false {m : Int → Option Nat} {k : Int} (h : ¬ mapCount m k = true) :
    m k = none := by
  unfold mapCount at h
  cases hm : m k with
  | none => rfl
  | some v => rw [hm] at h; exact absurd rfl h

/-- Overwriting `heap_[i]` by a node with the same id keeps the index map right. -/
theorem setNode_indexInv (t : HeapTimer) (i : Nat) (node : TimerNode) (hinv : t.IndexInv)
    (hid : node.id = (heapAt t.heap_ i).id) :
    IndexInv { t with heap_ := t.heap_.set i node } := by
  have hat : ∀ k, k < t.heap_.length → (heapAt (t.heap_.set i node) k).id = (heapAt t.heap_ k).id := by
    intro k hk
    by_cases hik : i = k
    · subst hik; rw [heapAt_set_eq _ _ _ hk, hid]
    · rw [heapAt_set_ne _ _ _ _ hik]
  constructor
  · intro k hk
    have hk0 : k < t.heap_.length := by simpa using hk
    show t.ref_ (heapAt (t.heap_.set i node) k).id = some k
    rw [hat k hk0]; exact hinv.1 k hk0
  · intro id m hm
    obtain ⟨hml, hmid⟩ := hinv.2 id m hm
    refine ⟨by simpa using hml, ?_⟩
    show (heapAt (t.heap_.set i node) m).id = id
    rw [hat m hml]; exact hmid

/-- The re-sift after `heap_[i]` was overwritten in an ordered heap. -/
theorem setNode_resift_heapOrdered (t : HeapTimer) (i : Nat) (node : TimerNode)
    (hi : i < t.heap_.length) (hord : HeapOrdered t.heap_ t.heap_.length) (t1 : HeapTimer)
    (ht1 : t1.heap_ = t.heap_.set i node) :
    HeapOrdered (if !(t1.siftdown_ i t1.heap_.length).2
      then (t1.siftdown_ i t1.heap_.length).1.siftup_ i
      else (t1.siftdown_ i t1.heap_.length).1).heap_ t1.heap_.length := by
  have hlen : t1.heap_.length = t.heap_.length := by rw [ht1]; simp
  apply resift_heapOrdered t1 i t1.heap_.length (by omega) (Nat.le_refl _)
  · intro k hk hk0 hki hpi
    rw [ht1, heapAt_set_ne _ _ _ _ (Ne.symm hki), heapAt_set_ne _ _ _ _ (Ne.symm hpi)]
    exact hord k (by omega) hk0
  · intro k hk hk0 hpi hi0
    rw [ht1, heapAt_set_ne _ _ _ _ (by omega : i ≠ k),
      heapAt_set_ne _ _ _ _ (by omega : i ≠ (i - 1) / 2)]
    have h1 := hord k (by omega) hk0
    have h2 := hord i hi hi0
    rw [hpi] at h1
    omega

/-- Everything about `add` on a timer with a right index map. -/
theorem add_spec (t : HeapTimer) (now id timeOut : Int) (cb : Nat) (hid : 0 ≤ id)
    (hinv : t.IndexInv) :
    ∃ t1, t.add now id timeOut cb = some t1 ∧ t1.IndexInv ∧
      (HeapOrdered t.heap_ t.heap_.length → HeapOrdered t1.heap_ t1.heap_.length) := by
  by_cases hc : mapCount t.ref_ id = true
  · -- the id is present
    have href := mapCount_true hc
    obtain ⟨hil, hiid⟩ := hinv.2 id _ href
    obtain ⟨tmp, htmp⟩ : ∃ tmp, tmp = mapGet t.ref_ id := ⟨_, rfl⟩
    rw [← htmp] at href hil hiid
    obtain ⟨node, hnode⟩ : ∃ node : TimerNode,
        node = { heapAt t.heap_ tmp with expires := now + MS timeOut, cb := cb } := ⟨_, rfl⟩
    obtain ⟨t1, ht1⟩ : ∃ t1 : HeapTimer, t1 = { t with heap_ := t.heap_.set tmp node } :=
      ⟨_, rfl⟩
    have hlen : t1.heap_.length = t.heap_.length := by rw [ht1]; simp
    have hinv1 : t1.IndexInv := by
      rw [ht1]; exact setNode_indexInv t tmp node hinv (by rw [hnode])
    have hres : t.add now id timeOut cb = some
        (if !(t1.siftdown_ tmp t1.heap_.length).2
          then (t1.siftdown_ tmp t1.heap_.length).1.siftup_ tmp
          else (t1.siftdown_ tmp t1.heap_.length).1) := by
      simp only [add, hid, hc, if_true, ht1, hnode, htmp]
    refine ⟨_, hres, ?_, ?_⟩
    · exact (resift_shuffled t1 tmp t1.heap_.length (by omega) (Nat.le_refl _)).inv hinv1
    · intro hord
      have hl2 := (resift_shuffled t1 tmp t1.heap_.length (by omega) (Nat.le_refl _)).length
      rw [hl2]
      exact setNode_resift_heapOrdered t tmp node hil hord t1 (by rw [ht1])
  · -- a new id
    have href := mapCount_false hc
    obtain ⟨node, hnode⟩ : ∃ node : TimerNode,
        node = { id := id, expires := now + MS timeOut, cb := cb } := ⟨_, rfl⟩
    obtain ⟨t1, ht1⟩ : ∃ t1 : HeapTimer,
        t1 = HeapTimer.mk (t.heap_ ++ [node]) (mapAssign t.ref_ id t.heap_.length) := ⟨_, rfl⟩
    have hlen : t1.heap_.length = t.heap_.length + 1 := by rw [ht1]; simp
    have hinv1 : t1.IndexInv := by
      rw [ht1]
      constructor
      · intro k hk
        simp only [List.length_append, List.length_singleton] at hk
        show mapAssign t.ref_ id t.heap_.length (heapAt (t.heap_ ++ [node]) k).id = some k
        unfold mapAssign
        by_cases hkl : k < t.heap_.length
        · rw [heapAt_append_left _ _ _ hkl, if_neg]
          · exact hinv.1 k hkl
          · intro e
            have := hinv.1 k hkl
            rw [e, href] at this
            exact absurd this (by simp)
        · have : k = t.heap_.length := by omega
          subst this
          rw [heapAt_append_length, hnode, if_pos rfl]
      · intro id1 m hm
        change mapAssign t.ref_ id t.heap_.length id1 = some m at hm
        show m < (t.heap_ ++ [node]).length ∧ (heapAt (t.heap_ ++ [node]) m).id = id1
        unfold mapAssign at hm
        simp only [List.length_append, List.length_singleton]
        by_cases e : id1 = id
        · rw [if_pos e] at hm
          have : t.heap_.length = m := Option.some.inj hm
          subst this
          rw [heapAt_append_length, hnode]
          exact ⟨by omega, e.symm⟩
        · rw [if_neg e] at hm
          obtain ⟨hml, hmid⟩ := hinv.2 id1 m hm
          rw [heapAt_append_left _ _ _ hml]
          exact ⟨by omega, hmid⟩
    have hres : t.add now id timeOut cb = some (t1.siftup_ t.heap_.length) := by
      simp only [add, hid, hc, if_true, ht1, hnode, Bool.false_eq_true, if_false]
    refine ⟨_, hres, ?_, ?_⟩
    · exact (siftup_shuffled t1 t.heap_.length (by omega)).inv hinv1
    · intro hord
      rw [(siftup_shuffled t1 t.heap_.length (by omega)).length, hlen]
      apply siftupLoop_heapOrdered _ t1 _ _ (Nat.le_refl _) (by omega) (by omega)
      · intro k hk hk0 hkn
        rw [ht1]
        show (heapAt (t.heap_ ++ [node]) ((k - 1) / 2)).expires ≤ (heapAt (t.heap_ ++ [node]) k).expires
        rw [heapAt_append_left _ _ _ (by omega), heapAt_append_left _ _ _ (by omega)]
        exact hord k (by omega) hk0
      · intro k hk hk0 hpk _
        omega

/-- `adjust` keeps the index map right. -/
theorem adjust_indexInv (t t1 : HeapTimer) (now id newExpires : Int) (hinv : t.IndexInv)
    (h : t.adjust now id newExpires = some t1) : t1.IndexInv := by
  unfold adjust at h
  by_cases hc : (!t.heap_.isEmpty && mapCount t.ref_ id) = true
  · rw [if_pos hc] at h
    simp only [Option.some.injEq] at h
    subst h
    have hc2 : mapCount t.ref_ id = true := by
      simp only [Bool.and_eq_true] at hc; exact hc.2
    obtain ⟨_, hiid⟩ := hinv.2 id _ (mapCount_true hc2)
    have hinv1 := setNode_indexInv t (mapGet t.ref_ id)
      { heapAt t.heap_ (mapGet t.ref_ id) with expires := now + MS newExpires } hinv rfl
    exact (siftdown_shuffled _ _ _ (Nat.le_refl _)).inv hinv1
  · rw [if_neg hc] at h
    exact absurd h (by simp)

/-- Everything about `doWork` on a timer with a right index map. -/
theorem doWork_spec (t : HeapTimer) (id : Int) (hinv : t.IndexInv) :
    (t.doWork id).1.IndexInv ∧
    (HeapOrdered t.heap_ t.heap_.length →
      HeapOrdered (t.doWork id).1.heap_ (t.doWork id).1.heap_.length) ∧
    ((t.doWork id).1.heap_ ++ (t.doWork id).2).Perm t.heap_ := by
  unfold doWork
  by_cases hc : (t.heap_.isEmpty || !mapCount t.ref_ id) = true
  · rw [if_pos hc]
    exact ⟨hinv, fun h => h, by simp⟩
  · rw [if_neg hc]
    have hc2 : mapCount t.ref_ id = true := by
      simp only [Bool.or_eq_true, Bool.not_eq_true', not_or, Bool.not_eq_false] at hc
      exact hc.2
    obtain ⟨hil, _⟩ := hinv.2 id _ (mapCount_true hc2)
    obtain ⟨_, hperm, hi, ho⟩ := del_spec t (mapGet t.ref_ id) hil
    exact ⟨hi hinv, ho, hperm⟩

theorem isEmpty_false_iff (h : List TimerNode) : (!h.isEmpty) = true ↔ 0 < h.length := by
  cases h <;> simp

/-- `pop` on a non-empty heap is `del_(0)`. -/
theorem pop_eq (t : HeapTimer) (hpos : 0 < t.heap_.length) : t.pop = some (t.del_ 0) := by
  unfold pop
  rw [if_pos ((isEmpty_false_iff _).2 hpos)]

theorem pop_some (t t1 : HeapTimer) (h : t.pop = some t1) :
    0 < t.heap_.length ∧ t1 = t.del_ 0 := by
  unfold pop at h
  by_cases hc : (!t.heap_.isEmpty) = true
  · rw [if_pos hc] at h
    exact ⟨(isEmpty_false_iff _).1 hc, (Option.some.inj h).symm⟩
  · rw [if_neg hc] at h
    exact absurd h (by simp)

end HeapTimer

/-! ### `tick` and `GetNextTick` -/

/-- A duration counts at least one whole millisecond exactly when it is at
least `ticksPerMs` ticks long. -/
theorem durationCastMS_pos_iff (d : Int) : 0 < durationCastMS d ↔ ticksPerMs ≤ d := by
  unfold durationCastMS ticksPerMs
  by_cases hd : 0 ≤ d
  · rw [Int.tdiv_eq_ediv hd (by decide)]
    omega
  · have hneg : (-d).tdiv 1000000 = (-d) / 1000000 := Int.tdiv_eq_ediv (by omega) (by decide)
    rw [Int.neg_tdiv] at hneg
    have : 0 ≤ (-d) / 1000000 := Int.ediv_nonneg (by omega) (by decide)
    omega

/-- In an ordered heap the root expires first. -/
theorem HeapOrdered.root_le {h : List TimerNode} {n : Nat} (hord : HeapOrdered h n) :
    ∀ k, k < n → (heapAt h 0).expires ≤ (heapAt h k).expires := by
  intro k
  induction k using Nat.strong_induction_on with
  | _ k ih =>
    intro hk
    by_cases hk0 : 0 < k
    · have h1 := hord k hk hk0
      have h2 := ih ((k - 1) / 2) (by omega) (by omega)
      omega
    · have : k = 0 := by omega
      subst this; exact Int.le_refl _

theorem HeapOrdered.root_le_mem {h : List TimerNode} (hord : HeapOrdered h h.length)
    (x : TimerNode) (hx : x ∈ h) : (heapAt h 0).expires ≤ x.expires := by
  obtain ⟨k, hk, rfl⟩ := List.getElem_of_mem hx
  rw [← heapAt_eq_getElem h k hk]
  exact hord.root_le k hk

namespace HeapTimer

theorem tickLoop_succ (fuel : Nat) (t : HeapTimer) (now : Int) :
    tickLoop (fuel + 1) t now =
      if !t.heap_.isEmpty then
        if durationCastMS ((heapAt t.heap_ 0).expires - now) > 0 then (t, [])
        else ((tickLoop fuel (t.del_ 0) now).1, heapAt t.heap_ 0 :: (tickLoop fuel (t.del_ 0) now).2)
      else (t, []) := rfl

/-- Everything about the loop of `tick` when the fuel covers the heap size. -/
theorem tickLoop_spec (fuel : Nat) :
    ∀ (t : HeapTimer) (now : Int), t.heap_.length ≤ fuel → t.IndexInv →
      HeapOrdered t.heap_ t.heap_.length →
      (tickLoop fuel t now).1.IndexInv ∧
      HeapOrdered (tickLoop fuel t now).1.heap_ (tickLoop fuel t now).1.heap_.length ∧
      ((tickLoop fuel t now).1.heap_ ++ (tickLoop fuel t now).2).Perm t.heap_ ∧
      (tickLoop fuel t now).2.Pairwise (fun a b => a.expires ≤ b.expires) ∧
      (∀ x ∈ (tickLoop fuel t now).2, durationCastMS (x.expires - now) ≤ 0) ∧
      (∀ x ∈ (tickLoop fuel t now).1.heap_, 0 < durationCastMS (x.expires - now)) := by
  induction fuel with
  | zero =>
    intro t now hf hinv hord
    have hnil : t.heap_ = [] := List.eq_nil_of_length_eq_zero (by omega)
    refine ⟨hinv, hord, by simp [tickLoop], by simp [tickLoop], by simp [tickLoop], ?_⟩
    intro x hx
    simp only [tickLoop, hnil] at hx
    exact absurd hx (List.not_mem_nil _)
  | succ fuel ih =>
    intro t now hf hinv hord
    rw [tickLoop_succ]
    by_cases hne : (!t.heap_.isEmpty) = true
    · rw [if_pos hne]
      have hpos := (isEmpty_false_iff _).1 hne
      by_cases hlive : durationCastMS ((heapAt t.heap_ 0).expires - now) > 0
      · rw [if_pos hlive]
        refine ⟨hinv, hord, by simp, List.Pairwise.nil, by simp, ?_⟩
        intro x hx
        have h1 := hord.root_le_mem x hx
        have h2 := (durationCastMS_pos_iff _).1 hlive
        exact (durationCastMS_pos_iff _).2 (by omega)
      · rw [if_neg hlive]
        obtain ⟨hlen, hperm, hi, ho⟩ := del_spec t 0 hpos
        obtain ⟨r1, r2, r3, r4, r5, r6⟩ := ih (t.del_ 0) now (by omega) (hi hinv) (ho hord)
        have hsub : ∀ y ∈ (tickLoop fuel (t.del_ 0) now).2, y ∈ t.heap_ := by
          intro y hy
          have : y ∈ (tickLoop fuel (t.del_ 0) now).1.heap_ ++ (tickLoop fuel (t.del_ 0) now).2 :=
            List.mem_append_right _ hy
          have := r3.subset this
          exact hperm.subset (List.mem_append_left _ this)
        refine ⟨r1, r2, ?_, ?_, ?_, r6⟩
        · refine List.Perm.trans ?_ hperm
          refine List.Perm.trans ?_ (List.Perm.append_right _ r3)
          simp only [List.append_assoc]
          exact List.Perm.append_left _ (List.perm_append_singleton _ _).symm
        · rw [List.pairwise_cons]
          exact ⟨fun y hy => hord.root_le_mem y (hsub y hy), r4⟩
        · intro x hx
          rcases List.mem_cons.1 hx with e | hx
          · rw [e]; omega
          · exact r5 x hx
    · rw [if_neg hne]
      refine ⟨hinv, hord, by simp, List.Pairwise.nil, by simp, ?_⟩
      intro x hx
      have : t.heap_ = [] := by
        cases hh : t.heap_ with
        | nil => rfl
        | cons a l => rw [hh] at hne; exact absurd rfl hne
      rw [this] at hx
      exact absurd hx (List.not_mem_nil _)

theorem tick_eq (t : HeapTimer) (now : Int) : t.tick now = tickLoop t.heap_.length t now := by
  unfold tick
  by_cases he : t.heap_.isEmpty = true
  · rw [if_pos he]
    have : t.heap_.length = 0 := by
      cases hh : t.heap_ with
      | nil => rfl
      | cons a l => rw [hh] at he; exact absurd he (by simp)
    rw [this]; rfl
  · rw [if_neg he]

theorem tick_heapOrdered (t : HeapTimer) (now : Int) (hinv : t.IndexInv)
    (hord : HeapOrdered t.heap_ t.heap_.length) :
    HeapOrdered (t.tick now).1.heap_ (t.tick now).1.heap_.length := by
  rw [tick_eq]
  exact (tickLoop_spec t.heap_.length t now (Nat.le_refl _) hinv hord).2.1

end HeapTimer

/-! ### The fuel of the loops is enough -/

namespace HeapTimer

/-- More than `i` iterations are never used by the loop of `siftup_`. -/
theorem siftupLoop_fuel (fuel : Nat) :
    ∀ (t : HeapTimer) (i : Nat), i ≤ fuel → siftupLoop (fuel + 1) t i = siftupLoop fuel t i := by
  induction fuel with
  | zero =>
    intro t i hi
    have : i = 0 := by omega
    subst this
    rfl
  | succ fuel ih =>
    intro t i hi
    rw [siftupLoop_succ (fuel + 1)]
    conv_rhs => rw [siftupLoop_succ fuel]
    by_cases hpos : 0 < i
    · rw [if_pos hpos, if_pos hpos, ih _ _ (by omega)]
    · rw [if_neg hpos, if_neg hpos]

/-- More than `n - i` iterations are never used by the loop of `siftdown_`. -/
theorem siftdownLoop_fuel (fuel : Nat) :
    ∀ (t : HeapTimer) (i n : Nat), n - i ≤ fuel →
      siftdownLoop (fuel + 1) t i n = siftdownLoop fuel t i n := by
  induction fuel with
  | zero =>
    intro t i n hf
    rw [siftdownLoop_succ, if_neg (by omega)]
    rfl
  | succ fuel ih =>
    intro t i n hf
    rw [siftdownLoop_succ (fuel + 1)]
    conv_rhs => rw [siftdownLoop_succ fuel]
    by_cases hchild : 2 * i + 1 < n
    · obtain ⟨hc, _, _, _⟩ := smallerChild_cases t.heap_ i n hchild
      rw [if_pos hchild, if_pos hchild, ih _ _ _ (by omega)]
    · rw [if_neg hchild, if_neg hchild]

/-- More than `heap_.size()` iterations are never used by the loop of `tick`. -/
theorem tickLoop_fuel (fuel : Nat) :
    ∀ (t : HeapTimer) (now : Int), t.heap_.length ≤ fuel →
      tickLoop (fuel + 1) t now = tickLoop fuel t now := by
  induction fuel with
  | zero =>
    intro t now hf
    have hnil : t.heap_ = [] := List.eq_nil_of_length_eq_zero (by omega)
    simp [tickLoop, hnil]
  | succ fuel ih =>
    intro t now hf
    rw [tickLoop_succ (fuel + 1)]
    conv_rhs => rw [tickLoop_succ fuel]
    by_cases hne : (!t.heap_.isEmpty) = true
    · have hlen := (del_spec t 0 ((isEmpty_false_iff _).1 hne)).1
      rw [if_pos hne, if_pos hne, ih _ _ (by omega)]
    · rw [if_neg hne, if_neg hne]

end HeapTimer

namespace HeapTimer

theorem empty_indexInv : HeapTimer.empty.IndexInv := by
  constructor
  · intro i hi; exact absurd hi (Nat.not_lt_zero _)
  · intro id i h; exact absurd h (by simp [empty])

theorem tickLoop_indexInv (fuel : Nat) :
    ∀ (t : HeapTimer) (now : Int), t.IndexInv → (tickLoop fuel t now).1.IndexInv := by
  induction fuel with
  | zero => intro t now h; exact h
  | succ fuel ih =>
    intro t now hinv
    rw [tickLoop_succ]
    by_cases hne : (!t.heap_.isEmpty) = true
    · rw [if_pos hne]
      by_cases hlive : durationCastMS ((heapAt t.heap_ 0).expires - now) > 0
      · rw [if_pos hlive]; exact hinv
      · rw [if_neg hlive]
        exact ih _ now ((del_spec t 0 ((isEmpty_false_iff _).1 hne)).2.2.1 hinv)
    · rw [if_neg hne]; exact hinv

theorem applyCall_indexInv (t t1 : HeapTimer) (c : TimerCall) (hinv : t.IndexInv)
    (hc : t.applyCall c = some t1) : t1.IndexInv := by
  cases c with
  | add now id timeOut cb =>
    simp only [applyCall] at hc
    by_cases hid : 0 ≤ id
    · obtain ⟨t2, h2, hinv2, _⟩ := add_spec t now id timeOut cb hid hinv
      rw [h2] at hc
      rw [← Option.some.inj hc]; exact hinv2
    · simp only [add, if_neg hid] at hc
      exact absurd hc (by simp)
  | adjust now id newExpires => exact adjust_indexInv t t1 now id newExpires hinv hc
  | doWork id =>
    simp only [applyCall, Option.some.injEq] at hc
    rw [← hc]; exact (doWork_spec t id hinv).1
  | pop =>
    obtain ⟨hpos, h1⟩ := pop_some t t1 hc
    rw [h1]; exact (del_spec t 0 hpos).2.2.1 hinv
  | tick now =>
    simp only [applyCall, Option.some.injEq] at hc
    rw [← hc, tick_eq]; exact tickLoop_indexInv _ t now hinv

theorem runCalls_indexInv (cs : List TimerCall) :
    ∀ t t1 : HeapTimer, t.IndexInv → t.runCalls cs = some t1 → t1.IndexInv := by
  induction cs with
  | nil =>
    intro t t1 h hc
    simp only [runCalls, Option.some.injEq] at hc
    rw [← hc]; exact h
  | cons c cs ih =>
    intro t t1 h hc
    simp only [runCalls] at hc
    cases hstep : t.applyCall c with
    | none => rw [hstep] at hc; exact absurd hc (by simp)
    | some t2 =>
      rw [hstep] at hc
      exact ih t2 t1 (applyCall_indexInv t t2 c h hstep) hc

theorem sampleTimer_run :
    HeapTimer.empty.runCalls [.add 0 1 100 1, .add 0 2 200 2] = some sampleTimer := rfl

theorem sampleTimer_indexInv : sampleTimer.IndexInv :=
  runCalls_indexInv _ _ _ empty_indexInv sampleTimer_run

theorem sampleTimer_heapOrdered : HeapOrdered sampleTimer.heap_ sampleTimer.heap_.length := by
  decide

end HeapTimer

/-! ### The claims on `HeapTimer` -/

/-- C5. After every sequence of `add`, `adjust`, `doWork`, `pop` and `tick` calls on
a new timer that ran to the end, `ref_` has exactly the ids stored in `heap_` as
keys, the ids in `heap_` are pairwise distinct, and `ref_[heap_[i].id] == i` for
every valid index `i`. -/
theorem timer_index_map_invariant (calls : List TimerCall) (t : HeapTimer)
    (hrun : HeapTimer.empty.runCalls calls = some t) :
    (∀ id, mapCount t.ref_ id = true ↔
      ∃ i, i < t.heap_.length ∧ (heapAt t.heap_ i).id = id) ∧
    (∀ i j, i < t.heap_.length → j < t.heap_.length →
      (heapAt t.heap_ i).id = (heapAt t.heap_ j).id → i = j) ∧
    (∀ i, i < t.heap_.length → t.ref_ (heapAt t.heap_ i).id = some i) := by
  have hinv := HeapTimer.runCalls_indexInv calls _ t HeapTimer.empty_indexInv hrun
  refine ⟨fun id => ⟨fun h => ?_, fun h => ?_⟩, fun i j hi hj e => hinv.inj hi hj e, hinv.1⟩
  · exact ⟨_, hinv.2 id _ (HeapTimer.mapCount_true h)⟩
  · obtain ⟨i, hi, e⟩ := h
    have := hinv.1 i hi
    rw [e] at this
    simp [mapCount, this]

/-- Witness of C5: the two adds that build the sample timer. -/
theorem timer_index_map_invariant_witness :
    HeapTimer.empty.runCalls [.add 0 1 100 1, .add 0 2 200 2] = some sampleTimer ∧
    sampleTimer.ref_ (heapAt sampleTimer.heap_ 1).id = some 1 :=
  ⟨rfl, (timer_index_map_invariant [.add 0 1 100 1, .add 0 2 200 2] sampleTimer rfl).2.2 1
    (by decide)⟩

/-- C6. On a timer whose index map is right, the heap order
`heap_[parent(i)].expires ≤ heap_[i].expires` is kept by `add` (new id or present
id, earlier or later deadline; also the first `add`, on the empty timer), by
`doWork`, by `pop` whenever the heap is not empty, and by `del_` at any index of
the heap. -/
theorem timer_heap_order_add_remove (t : HeapTimer) (hinv : t.IndexInv)
    (hord : HeapOrdered t.heap_ t.heap_.length) :
    (∀ (now id timeOut : Int) (cb : Nat), 0 ≤ id →
      ∃ t1, t.add now id timeOut cb = some t1 ∧ HeapOrdered t1.heap_ t1.heap_.length) ∧
    (∀ id : Int, HeapOrdered (t.doWork id).1.heap_ (t.doWork id).1.heap_.length) ∧
    (0 < t.heap_.length → ∃ t1, t.pop = some t1 ∧ HeapOrdered t1.heap_ t1.heap_.length) ∧
    (∀ index, index < t.heap_.length →
      HeapOrdered (t.del_ index).heap_ (t.del_ index).heap_.length) := by
  refine ⟨?_, ?_, ?_, ?_⟩
  · intro now id timeOut cb hid
    obtain ⟨t1, h1, _, h2⟩ := HeapTimer.add_spec t now id timeOut cb hid hinv
    exact ⟨t1, h1, h2 hord⟩
  · intro id
    exact (HeapTimer.doWork_spec t id hinv).2.1 hord
  · intro hpos
    exact ⟨_, HeapTimer.pop_eq t hpos, (HeapTimer.del_spec t 0 hpos).2.2.2 hord⟩
  · intro index hidx
    exact (HeapTimer.del_spec t index hidx).2.2.2 hord

/-- Witness of C6: the first `add`, on the empty timer; and on the sample timer,
the present id 2 gets a deadline earlier than the root, id 1 is cancelled, the
root is popped and index 1 is deleted. -/
theorem timer_heap_order_add_remove_witness :
    (∃ t1, HeapTimer.empty.add 0 1 100 1 = some t1 ∧ HeapOrdered t1.heap_ t1.heap_.length) ∧
    (∃ t1, sampleTimer.add 0 2 50 7 = some t1 ∧ HeapOrdered t1.heap_ t1.heap_.length) ∧
    HeapOrdered (sampleTimer.doWork 1).1.heap_ (sampleTimer.doWork 1).1.heap_.length ∧
    (∃ t1, sampleTimer.pop = some t1 ∧ HeapOrdered t1.heap_ t1.heap_.length) ∧
    HeapOrdered (sampleTimer.del_ 1).heap_ (sampleTimer.del_ 1).heap_.length :=
  ⟨(timer_heap_order_add_remove HeapTimer.empty HeapTimer.empty_indexInv (by decide)).1
      0 1 100 1 (by decide),
    (timer_heap_order_add_remove sampleTimer HeapTimer.sampleTimer_indexInv
      HeapTimer.sampleTimer_heapOrdered).1 0 2 50 7 (by decide),
    (timer_heap_order_add_remove sampleTimer HeapTimer.sampleTimer_indexInv
      HeapTimer.sampleTimer_heapOrdered).2.1 1,
    (timer_heap_order_add_remove sampleTimer HeapTimer.sampleTimer_indexInv
      HeapTimer.sampleTimer_heapOrdered).2.2.1 (by decide),
    (timer_heap_order_add_remove sampleTimer HeapTimer.sampleTimer_indexInv
      HeapTimer.sampleTimer_heapOrdered).2.2.2 1 (by decide)⟩

/-- C7, the code at the failing input: on the sample timer (deadlines 100 ms and
200 ms) `adjust(2, 50)` at clock reading 0 stores the deadline 50 ms at index 1
and leaves it there, below a parent that expires at 100 ms. -/
theorem adjust_earlier_breaks_heap_order :
    (sampleTimer.adjust 0 2 50).map (fun t => t.heap_)
      = some [⟨1, 100000000, 1⟩, ⟨2, 50000000, 2⟩] ∧
    ¬ HeapOrdered [⟨1, 100000000, 1⟩, ⟨2, 50000000, 2⟩] 2 := by
  decide

/-- C8. On a timer with both invariants and at a fixed clock reading `now`,
`tick` invokes the callbacks in non-decreasing order of deadline, removes
exactly the nodes it invoked, leaves only nodes with deadline later than `now`,
and keeps both invariants. -/
theorem tick_fires_in_deadline_order (t : HeapTimer) (now : Int) (hinv : t.IndexInv)
    (hord : HeapOrdered t.heap_ t.heap_.length) :
    (t.tick now).2.Pairwise (fun a b => a.expires ≤ b.expires) ∧
    ((t.tick now).1.heap_ ++ (t.tick now).2).Perm t.heap_ ∧
    (∀ x ∈ (t.tick now).1.heap_, now < x.expires) ∧
    (t.tick now).1.IndexInv ∧
    HeapOrdered (t.tick now).1.heap_ (t.tick now).1.heap_.length := by
  rw [HeapTimer.tick_eq]
  obtain ⟨r1, r2, r3, r4, _, r6⟩ :=
    HeapTimer.tickLoop_spec t.heap_.length t now (Nat.le_refl _) hinv hord
  refine ⟨r4, r3, fun x hx => ?_, r1, r2⟩
  have := (durationCastMS_pos_iff _).1 (r6 x hx)
  unfold ticksPerMs at this
  omega

/-- Witness of C8: at 150 ms the sample timer fires node 1 and keeps node 2. -/
theorem tick_fires_in_deadline_order_witness :
    sampleTimer.IndexInv ∧ HeapOrdered sampleTimer.heap_ sampleTimer.heap_.length ∧
    (sampleTimer.tick 150000000).2 = [⟨1, 100000000, 1⟩] ∧
    ((sampleTimer.tick 150000000).1.heap_ ++ (sampleTimer.tick 150000000).2).Perm
      sampleTimer.heap_ :=
  ⟨HeapTimer.sampleTimer_indexInv, HeapTimer.sampleTimer_heapOrdered, by decide,
    (tick_fires_in_deadline_order sampleTimer 150000000 HeapTimer.sampleTimer_indexInv
      HeapTimer.sampleTimer_heapOrdered).2.1⟩

/-- C9, counterexample: a node added with a timeout of 1 ms at clock reading 0
has its callback invoked by a `tick` at half a millisecond, although its
deadline (1000000 ticks) is strictly later than `now` (500000 ticks). -/
theorem tick_fires_before_deadline :
    (HeapTimer.empty.add 0 7 1 1).map (fun t => (t.tick 500000).2)
      = some [⟨7, 1000000, 1⟩] ∧
    (500000 : Int) < (TimerNode.mk 7 1000000 1).expires := by
  decide

/-- C9, amended. On a timer with both invariants, `tick` at the clock reading
`now` invokes exactly the nodes whose deadline is less than one millisecond
after `now`: a node of the heap is fired if and only if
`expires < now + ticksPerMs`. -/
theorem tick_fires_exactly_within_ms (t : HeapTimer) (now : Int) (x : TimerNode)
    (hinv : t.IndexInv) (hord : HeapOrdered t.heap_ t.heap_.length) :
    x ∈ (t.tick now).2 ↔ (x ∈ t.heap_ ∧ x.expires < now + ticksPerMs) := by
  rw [HeapTimer.tick_eq]
  obtain ⟨_, _, r3, _, r5, r6⟩ :=
    HeapTimer.tickLoop_spec t.heap_.length t now (Nat.le_refl _) hinv hord
  constructor
  · intro hx
    refine ⟨r3.subset (List.mem_append_right _ hx), ?_⟩
    have h1 := r5 x hx
    have h2 := durationCastMS_pos_iff (x.expires - now)
    by_cases hlt : x.expires < now + ticksPerMs
    · exact hlt
    · have := h2.2 (by omega)
      omega
  · intro ⟨hx, hlt⟩
    have hmem := r3.symm.subset hx
    rcases List.mem_append.1 hmem with h | h
    · have := (durationCastMS_pos_iff _).1 (r6 x h)
      omega
    · exact h

/-- Witness of C9, amended: in the sample timer at 99.5 ms, node 1 (deadline
100 ms) is fired. -/
theorem tick_fires_exactly_within_ms_witness :
    sampleTimer.IndexInv ∧ HeapOrdered sampleTimer.heap_ sampleTimer.heap_.length ∧
    (TimerNode.mk 1 100000000 1 ∈ (sampleTimer.tick 99500000).2 ↔
      (TimerNode.mk 1 100000000 1 ∈ sampleTimer.heap_ ∧
        (TimerNode.mk 1 100000000 1).expires < 99500000 + ticksPerMs)) :=
  ⟨HeapTimer.sampleTimer_indexInv, HeapTimer.sampleTimer_heapOrdered,
    tick_fires_exactly_within_ms sampleTimer 99500000 ⟨1, 100000000, 1⟩
      HeapTimer.sampleTimer_indexInv HeapTimer.sampleTimer_heapOrdered⟩

/-- The conversion to `int` changes nothing on a count in the range of `int`. -/
theorem toInt32_of_range (v : Int) (h1 : -2147483648 ≤ v) (h2 : v < 2147483648) :
    toInt32 v = v := by
  unfold toInt32
  omega

/-- C10, counterexample: the sample timer is not empty, yet `GetNextTick` at
300 ms, when both nodes have expired, fires them and returns -1. -/
theorem GetNextTick_nonempty_returns_minus_one :
    sampleTimer.heap_ ≠ [] ∧ (sampleTimer.GetNextTick 300000000 300000000).2.2 = -1 := by
  decide

/-- C10, amended. `GetNextTick` first runs `tick`.  It returns -1 when the heap
is empty afterwards (so, whenever it is called on an empty heap); when nodes
remain it returns a value `≥ 0`, namely `max(0, whole milliseconds of
deadline - now)` for the earliest remaining node, the count being converted to
`int`. -/
theorem GetNextTick_result (t : HeapTimer) (now now2 : Int) (hinv : t.IndexInv)
    (hord : HeapOrdered t.heap_ t.heap_.length) :
    (t.GetNextTick now now2).1 = (t.tick now).1 ∧
    (t.heap_ = [] → (t.GetNextTick now now2).2.2 = -1) ∧
    ((t.tick now).1.heap_ = [] → (t.GetNextTick now now2).2.2 = -1) ∧
    ((t.tick now).1.heap_ ≠ [] →
      0 ≤ (t.GetNextTick now now2).2.2 ∧
      (t.GetNextTick now now2).2.2 =
        max 0 (toInt32 (durationCastMS ((heapAt (t.tick now).1.heap_ 0).expires - now2))) ∧
      (-2147483648 ≤ durationCastMS ((heapAt (t.tick now).1.heap_ 0).expires - now2) →
        durationCastMS ((heapAt (t.tick now).1.heap_ 0).expires - now2) < 2147483648 →
        (t.GetNextTick now now2).2.2 =
          max 0 (durationCastMS ((heapAt (t.tick now).1.heap_ 0).expires - now2))) ∧
      (∀ x ∈ (t.tick now).1.heap_,
        (heapAt (t.tick now).1.heap_ 0).expires ≤ x.expires)) := by
  have hempty : (t.tick now).1.heap_ = [] → (t.GetNextTick now now2).2.2 = -1 := by
    intro h
    simp [HeapTimer.GetNextTick, h]
  have hres : (t.tick now).1.heap_ ≠ [] → (t.GetNextTick now now2).2.2 =
      max 0 (toInt32 (durationCastMS ((heapAt (t.tick now).1.heap_ 0).expires - now2))) := by
    intro h
    have hne : (!(t.tick now).1.heap_.isEmpty) = true := by
      cases hh : (t.tick now).1.heap_ with
      | nil => exact absurd hh h
      | cons a l => rfl
    simp only [HeapTimer.GetNextTick, hne, if_true]
    split <;> omega
  refine ⟨rfl, fun h => hempty ?_, hempty, fun h => ⟨?_, hres h, fun h1 h2 => ?_, ?_⟩⟩
  · simp [HeapTimer.tick, h]
  · rw [hres h]; omega
  · rw [hres h, toInt32_of_range _ h1 h2]
  · exact (HeapTimer.tick_heapOrdered t now hinv hord).root_le_mem

/-- Witness of C10, amended: at 150 ms the sample timer fires node 1 and the next
tick is due in 50 ms. -/
theorem GetNextTick_result_witness :
    sampleTimer.IndexInv ∧ HeapOrdered sampleTimer.heap_ sampleTimer.heap_.length ∧
    (sampleTimer.GetNextTick 150000000 150000000).2.2 = 50 ∧
    (sampleTimer.GetNextTick 150000000 150000000).1 = (sampleTimer.tick 150000000).1 :=
  ⟨HeapTimer.sampleTimer_indexInv, HeapTimer.sampleTimer_heapOrdered, by decide,
    (GetNextTick_result sampleTimer 150000000 150000000 HeapTimer.sampleTimer_indexInv
      HeapTimer.sampleTimer_heapOrdered).1⟩

set_option maxRecDepth 100000

/-! ## Part XIII: proofs about `HttpRequest` -/

/-! ### The two patterns -/

/-- Cutting a string at the first occurrence of `c`. -/
theorem span_first (c : Byte) (l : List Byte) :
    c ∉ l.takeWhile (fun x => x != c) ∧
    (l.dropWhile (fun x => x != c) = [] ∨
      ∃ r, l.dropWhile (fun x => x != c) = c :: r) := by
  induction l with
  | nil => simp
  | cons a t ih =>
    by_cases h : a = c
    · subst h; simp
    · have hne : (a != c) = true := by simpa using h
      simp only [List.takeWhile_cons, List.dropWhile_cons, hne, if_true, List.mem_cons, not_or]
      exact ⟨⟨fun e => h e.symm, ih.1⟩, ih.2⟩

theorem span_append (c : Byte) (m rest : List Byte) (h : c ∉ m) :
    (m ++ c :: rest).takeWhile (fun x => x != c) = m ∧
    (m ++ c :: rest).dropWhile (fun x => x != c) = c :: rest := by
  induction m with
  | nil => simp
  | cons a t ih =>
    have hat : a ≠ c := fun e => h (by simp [e])
    have hne : (a != c) = true := by simpa using hat
    have ht : c ∉ t := fun e => h (List.mem_cons_of_mem _ e)
    simp only [List.cons_append, List.takeWhile_cons, List.dropWhile_cons, hne, if_true]
    exact ⟨by rw [(ih ht).1], (ih ht).2⟩

theorem span_none (c : Byte) (m : List Byte) (h : c ∉ m) :
    m.takeWhile (fun x => x != c) = m ∧ m.dropWhile (fun x => x != c) = [] := by
  induction m with
  | nil => simp
  | cons a t ih =>
    have hat : a ≠ c := fun e => h (by simp [e])
    have hne : (a != c) = true := by simpa using hat
    have ht : c ∉ t := fun e => h (List.mem_cons_of_mem _ e)
    simp only [List.takeWhile_cons, List.dropWhile_cons, hne, if_true]
    exact ⟨by rw [(ih ht).1], (ih ht).2⟩

theorem cstr_http : cstr "HTTP/" = [72, 84, 84, 80, 47] := by decide

/-- The matcher of the request line decides the language of the pattern and
returns its groups. -/
theorem matchRequestLine_iff (line m p v : List Byte) :
    matchRequestLine line = some (m, p, v) ↔ RequestLineMatch line m p v := by
  constructor
  · intro h
    unfold matchRequestLine at h
    have h1 := span_first 32 line
    have e1 := List.takeWhile_append_dropWhile (fun x => x != (32 : Byte)) line
    rcases h1.2 with hd | ⟨r1, hd⟩
    · rw [hd] at h; exact absurd h (by simp)
    · rw [hd] at h
      simp only at h
      have h2 := span_first 32 r1
      have e2 := List.takeWhile_append_dropWhile (fun x => x != (32 : Byte)) r1
      rcases h2.2 with hd2 | ⟨r2, hd2⟩
      · rw [hd2] at h; exact absurd h (by simp)
      · rw [hd2] at h
        simp only at h
        split at h
        · rename_i hc
          simp only [Option.some.injEq, Prod.mk.injEq] at h
          obtain ⟨hm, hp, hv⟩ := h
          have hpre : r2 = cstr "HTTP/" ++ r2.drop 5 := by
            have := List.isPrefixOf_iff_prefix.1 hc.1
            obtain ⟨t, ht⟩ := this
            rw [← ht, cstr_http]; simp
          refine ⟨?_, hm ▸ h1.1, hp ▸ h2.1, hv ▸ hc.2⟩
          rw [← hm, ← hp, ← hv]
          conv_lhs => rw [← e1, hd, ← e2, hd2, hpre]
          simp [List.append_assoc]
        · exact absurd h (by simp)
  · rintro ⟨hl, hm, hp, hv⟩
    unfold matchRequestLine
    have s1 := span_append 32 m (p ++ [32] ++ cstr "HTTP/" ++ v) hm
    have hl1 : line = m ++ 32 :: (p ++ [32] ++ cstr "HTTP/" ++ v) := by
      rw [hl]; simp [List.append_assoc]
    have s2 := span_append 32 p (cstr "HTTP/" ++ v) hp
    have hl2 : p ++ [32] ++ cstr "HTTP/" ++ v = p ++ 32 :: (cstr "HTTP/" ++ v) := by
      simp [List.append_assoc]
    rw [hl1, s1.1, s1.2]
    simp only
    rw [hl2, s2.1, s2.2]
    simp only
    have hpre : (cstr "HTTP/").isPrefixOf (cstr "HTTP/" ++ v) = true :=
      List.isPrefixOf_iff_prefix.2 (List.prefix_append _ _)
    have hdrop : (cstr "HTTP/" ++ v).drop 5 = v := by rw [cstr_http]; rfl
    rw [hdrop, if_pos ⟨hpre, hv⟩]

theorem matchRequestLine_none (line : List Byte)
    (h : ¬ ∃ m p v, RequestLineMatch line m p v) : matchRequestLine line = none := by
  cases hm : matchRequestLine line with
  | none => rfl
  | some x =>
    obtain ⟨m, p, v⟩ := x
    exact absurd ⟨m, p, v, (matchRequestLine_iff line m p v).1 hm⟩ h

/-- The matcher of a header line decides the language of the pattern and returns
its groups. -/
theorem matchHeaderLine_iff (line k v : List Byte) :
    matchHeaderLine line = some (k, v) ↔ HeaderLineMatch line k v := by
  constructor
  · intro h
    unfold matchHeaderLine at h
    have h1 := span_first 58 line
    have e1 := List.takeWhile_append_dropWhile (fun x => x != (58 : Byte)) line
    rcases h1.2 with hd | ⟨r, hd⟩
    · rw [hd] at h; exact absurd h (by simp)
    · rw [hd] at h
      simp only at h
      split at h
      · rename_i hc
        simp only [Option.some.injEq, Prod.mk.injEq] at h
        obtain ⟨hk, hv⟩ := h
        refine ⟨hk ▸ h1.1, hv ▸ hc.1, hv ▸ hc.2, ?_⟩
        cases r with
        | nil =>
          simp only at hv
          right
          rw [← hk, ← hv]
          refine ⟨?_, by simp⟩
          conv_lhs => rw [← e1, hd]
          simp
        | cons c r1 =>
          simp only at hv
          by_cases hc32 : c = 32
          · rw [if_pos hc32] at hv
            left
            rw [← hk, ← hv]
            conv_lhs => rw [← e1, hd, hc32]
            simp
          · rw [if_neg hc32] at hv
            right
            rw [← hk, ← hv]
            refine ⟨?_, by simpa using hc32⟩
            conv_lhs => rw [← e1, hd]
            simp
      · exact absurd h (by simp)
  · rintro ⟨hk, h10, h13, hl⟩
    unfold matchHeaderLine
    rcases hl with hl | ⟨hl, hhead⟩
    · have s1 := span_append 58 k (32 :: v) hk
      have hl1 : line = k ++ 58 :: (32 :: v) := by rw [hl]; simp
      rw [hl1, s1.1, s1.2]
      simp [h10, h13]
    · have s1 := span_append 58 k v hk
      have hl1 : line = k ++ 58 :: v := by rw [hl]; simp
      rw [hl1, s1.1, s1.2]
      cases v with
      | nil => simp
      | cons c v1 =>
        have hc : c ≠ 32 := by simpa using hhead
        simp only [if_neg hc]
        rw [if_pos ⟨h10, h13⟩]

/-! ### `parse` -/

namespace HttpRequest

theorem parseLoop_succ {past : Byte}
    (fuel : Nat) (db : UserTable) (r : HttpRequest) (buff : Buffer) :
    parseLoop past (fuel + 1) db r buff =
      if buff.ReadableBytes ≠ 0 ∧ r.state_ ≠ .FINISH then
        match parseSwitch past db r buff (buff.readable.take (searchCRLF buff.readable)) with
        | none => (false, r, buff, db)
        | some (r1, db1) =>
          if buff.Peek + searchCRLF buff.readable = buff.BeginWrite then (true, r1, buff, db1)
          else parseLoop past fuel db1 r1 (buff.Retrieve (searchCRLF buff.readable + 2))
      else (true, r, buff, db) := by
  have e1 : buff.Peek + searchCRLF buff.readable - buff.Peek = searchCRLF buff.readable := by
    omega
  have e2 : buff.Peek + searchCRLF buff.readable + 2 - buff.Peek
      = searchCRLF buff.readable + 2 := by omega
  simp only [parseLoop, e1, e2]

theorem ParsePath_state (r : HttpRequest) : r.ParsePath_.state_ = r.state_ := by
  unfold ParsePath_
  split
  · rfl
  · split <;> rfl

theorem ParseRequestLine_some (r : HttpRequest) (line m p v : List Byte)
    (h : RequestLineMatch line m p v) :
    r.ParseRequestLine_ line =
      (true, { r with method_ := m, path_ := p, version_ := v, state_ := .HEADERS }) := by
  unfold ParseRequestLine_
  rw [(matchRequestLine_iff line m p v).2 h]

theorem ParseRequestLine_none (r : HttpRequest) (line : List Byte)
    (h : ¬ ∃ m p v, RequestLineMatch line m p v) : r.ParseRequestLine_ line = (false, r) := by
  unfold ParseRequestLine_
  rw [matchRequestLine_none line h]

/-- Outside the state `REQUEST_LINE` the `switch` never returns false and never
goes back to `REQUEST_LINE`. -/
theorem parseSwitch_later {past : Byte}
    (db : UserTable) (r : HttpRequest) (buff : Buffer) (line : List Byte)
    (h : r.state_ ≠ .REQUEST_LINE) :
    ∃ r1 db1, parseSwitch past db r buff line = some (r1, db1) ∧ r1.state_ ≠ .REQUEST_LINE := by
  unfold parseSwitch
  cases hs : r.state_ with
  | REQUEST_LINE => exact absurd hs h
  | HEADERS =>
    simp only
    split
    · exact ⟨_, _, rfl, by simp⟩
    · refine ⟨_, _, rfl, ?_⟩
      unfold ParseHeader_
      split
      · simp [hs]
      · simp
  | BODY => exact ⟨_, _, rfl, by simp [ParseBody_]⟩
  | FINISH => exact ⟨_, _, rfl, by simp [hs]⟩

/-- Once the request line is behind, the loop of `parse` ends in `return true`. -/
theorem parseLoop_true {past : Byte} (fuel : Nat) :
    ∀ (db : UserTable) (r : HttpRequest) (buff : Buffer), r.state_ ≠ .REQUEST_LINE →
      (parseLoop past fuel db r buff).1 = true := by
  induction fuel with
  | zero => intro db r buff _; rfl
  | succ fuel ih =>
    intro db r buff h
    rw [parseLoop_succ]
    split
    · obtain ⟨r1, db1, hsw, hst⟩ :=
        parseSwitch_later db r buff (buff.readable.take (searchCRLF buff.readable)) h
      rw [hsw]
      simp only
      split
      · rfl
      · exact ih db1 r1 _ hst
    · rfl

/-- On a buffer with bytes to read and a request in the state `REQUEST_LINE`,
`parse` returns true exactly when the first line matches the pattern. -/
theorem parse_true_iff {past : Byte} (db : UserTable) (r : HttpRequest) (buff : Buffer)
    (hst : r.state_ = .REQUEST_LINE) (hne : buff.ReadableBytes ≠ 0) :
    (parse past db r buff).1 = true ↔
      ∃ m p v, RequestLineMatch (buff.readable.take (searchCRLF buff.readable)) m p v := by
  unfold parse
  rw [if_neg (by omega), parseLoop_succ, if_pos ⟨hne, by rw [hst]; simp⟩]
  unfold parseSwitch
  rw [hst]
  simp only
  by_cases hm : ∃ m p v, RequestLineMatch (buff.readable.take (searchCRLF buff.readable)) m p v
  · obtain ⟨m, p, v, h⟩ := hm
    rw [ParseRequestLine_some r _ m p v h]
    simp only [Bool.not_true, Bool.false_eq_true, if_false]
    refine ⟨fun _ => ⟨m, p, v, h⟩, fun _ => ?_⟩
    split
    · rfl
    · apply parseLoop_true
      rw [ParsePath_state]
      simp
  · rw [ParseRequestLine_none r _ hm]
    simp only [Bool.not_false, if_true]
    exact ⟨fun h => absurd h (by simp), fun h => absurd h hm⟩

end HttpRequest

/-! ### The claims on the request line -/

/-- C11, counterexample: the first line `" / HTTP/1.1"`, whose method token is
empty, is accepted: `ParseRequestLine_` returns true with an empty `method_`, and
`parse` returns true on a buffer that starts with this line. -/
theorem request_line_empty_method_accepted :
    (HttpRequest.new.ParseRequestLine_ (cstr " / HTTP/1.1")).1 = true ∧
    (HttpRequest.new.ParseRequestLine_ (cstr " / HTTP/1.1")).2.method_ = [] ∧
    (HttpRequest.parse 0 StrMap.empty HttpRequest.new
      ((Buffer.new 1024).Append (cstr " / HTTP/1.1\r\n\r\n"))).1 = true := by
  decide

/-- C11, amended. `ParseRequestLine_` accepts a line iff it matches
`^([^ ]*) ([^ ]*) HTTP/([^ ]*)$`: three tokens without a space, each of which may
be empty.  Then `method_`, `path_` and `version_` are the three tokens and the
state is `HEADERS`; on every other line it returns false and changes nothing,
and `parse`, called in the state `REQUEST_LINE` on a buffer with bytes to read,
returns true iff the first line matches. -/
theorem request_line_grammar (past : Byte) (db : UserTable) (r : HttpRequest) (line : List Byte)
    (buff : Buffer) (hst : r.state_ = .REQUEST_LINE) (hne : buff.ReadableBytes ≠ 0) :
    (∀ m p v, RequestLineMatch line m p v →
      r.ParseRequestLine_ line =
        (true, { r with method_ := m, path_ := p, version_ := v, state_ := .HEADERS })) ∧
    ((¬ ∃ m p v, RequestLineMatch line m p v) → r.ParseRequestLine_ line = (false, r)) ∧
    ((HttpRequest.parse past db r buff).1 = true ↔
      ∃ m p v, RequestLineMatch (buff.readable.take (searchCRLF buff.readable)) m p v) :=
  ⟨fun m p v h => HttpRequest.ParseRequestLine_some r line m p v h,
    HttpRequest.ParseRequestLine_none r line,
    HttpRequest.parse_true_iff db r buff hst hne⟩

/-- Witness of C11, amended: the line `GET / HTTP/1.1` with its three tokens. -/
theorem request_line_grammar_witness :
    HttpRequest.new.state_ = .REQUEST_LINE ∧
    ((Buffer.new 16).Append (cstr "GET / HTTP/1.1\r\n\r\n")).ReadableBytes ≠ 0 ∧
    RequestLineMatch (cstr "GET / HTTP/1.1") (cstr "GET") (cstr "/") (cstr "1.1") ∧
    HttpRequest.new.ParseRequestLine_ (cstr "GET / HTTP/1.1") =
      (true, { HttpRequest.new with method_ := cstr "GET", path_ := cstr "/",
                                    version_ := cstr "1.1", state_ := .HEADERS }) :=
  ⟨rfl, by decide, ⟨by decide, by decide, by decide, by decide⟩,
    (request_line_grammar 0 StrMap.empty HttpRequest.new (cstr "GET / HTTP/1.1")
      ((Buffer.new 16).Append (cstr "GET / HTTP/1.1\r\n\r\n")) rfl (by decide)).1
      (cstr "GET") (cstr "/") (cstr "1.1") ⟨by decide, by decide, by decide, by decide⟩⟩

/-! ### `parse`: fuel, and the bytes it reads -/

namespace HttpRequest

theorem Retrieve_readableBytes_lt (buff : Buffer) (n : Nat) (hn : 0 < n)
    (hne : buff.ReadableBytes ≠ 0) : (buff.Retrieve n).ReadableBytes < buff.ReadableBytes := by
  unfold Buffer.Retrieve Buffer.RetrieveAll
  split
  · simp only [Buffer.ReadableBytes] at *; omega
  · simp only [Buffer.ReadableBytes] at *; omega

/-- Fuel adequacy of `parseLoop`: any fuel above `ReadableBytes()` gives the same
result, so the fuel of `parse` never runs out. -/
theorem parseLoop_fuel {past : Byte} (f1 : Nat) :
    ∀ (f2 : Nat) (db : UserTable) (r : HttpRequest) (buff : Buffer),
      buff.ReadableBytes < f1 → buff.ReadableBytes < f2 →
      parseLoop past f1 db r buff = parseLoop past f2 db r buff := by
  induction f1 with
  | zero => intro f2 db r buff h; omega
  | succ f1 ih =>
    intro f2 db r buff h1 h2
    obtain ⟨f2, rfl⟩ : ∃ k, f2 = k + 1 := ⟨f2 - 1, by omega⟩
    rw [parseLoop_succ, parseLoop_succ]
    by_cases hc : buff.ReadableBytes ≠ 0 ∧ r.state_ ≠ .FINISH
    · rw [if_pos hc, if_pos hc]
      cases parseSwitch past db r buff (buff.readable.take (searchCRLF buff.readable)) with
      | none => rfl
      | some p =>
        obtain ⟨r1, db1⟩ := p
        simp only
        split
        · rfl
        · have hlt := Retrieve_readableBytes_lt buff (searchCRLF buff.readable + 2) (by omega) hc.1
          exact ih f2 db1 r1 _ (by omega) (by omega)
    · rw [if_neg hc, if_neg hc]

theorem parseSwitch_congr {past : Byte}
    (db : UserTable) (r : HttpRequest) (b1 b2 : Buffer) (line : List Byte)
    (h : b1.ReadableBytes = b2.ReadableBytes) :
    parseSwitch past db r b1 line = parseSwitch past db r b2 line := by
  unfold parseSwitch
  rw [h]

/-- The loop of `parse` reads the buffer through its readable bytes only. -/
theorem parseLoop_congr {past : Byte} (fuel : Nat) :
    ∀ (db : UserTable) (r : HttpRequest) (b1 b2 : Buffer), b1.CursorInv → b2.CursorInv →
      b1.readable = b2.readable →
      (parseLoop past fuel db r b1).1 = (parseLoop past fuel db r b2).1 ∧
      (parseLoop past fuel db r b1).2.1 = (parseLoop past fuel db r b2).2.1 ∧
      (parseLoop past fuel db r b1).2.2.2 = (parseLoop past fuel db r b2).2.2.2 ∧
      (parseLoop past fuel db r b1).2.2.1.readable = (parseLoop past fuel db r b2).2.2.1.readable := by
  induction fuel with
  | zero => intro db r b1 b2 _ _ h; exact ⟨rfl, rfl, rfl, h⟩
  | succ fuel ih =>
    intro db r b1 b2 i1 i2 h
    have hlen : b1.ReadableBytes = b2.ReadableBytes := by
      rw [← Buffer.readable_length b1 i1, ← Buffer.readable_length b2 i2, h]
    have hend : (b1.Peek + searchCRLF b2.readable = b1.BeginWrite) ↔
        (b2.Peek + searchCRLF b2.readable = b2.BeginWrite) := by
      unfold Buffer.CursorInv at i1 i2
      simp only [Buffer.Peek, Buffer.BeginWrite, Buffer.ReadableBytes] at *
      omega
    rw [parseLoop_succ, parseLoop_succ, h, hlen, parseSwitch_congr db r b1 b2 _ hlen]
    by_cases hc : b2.ReadableBytes ≠ 0 ∧ r.state_ ≠ .FINISH
    · rw [if_pos hc, if_pos hc]
      cases parseSwitch past db r b2 (b2.readable.take (searchCRLF b2.readable)) with
      | none => exact ⟨rfl, rfl, rfl, h⟩
      | some p =>
        obtain ⟨r1, db1⟩ := p
        simp only
        by_cases he : b2.Peek + searchCRLF b2.readable = b2.BeginWrite
        · rw [if_pos he, if_pos (hend.2 he)]
          exact ⟨rfl, rfl, rfl, h⟩
        · rw [if_neg he, if_neg (fun x => he (hend.1 x))]
          apply ih
          · exact Buffer.Retrieve_cursorInv b1 _ i1
          · exact Buffer.Retrieve_cursorInv b2 _ i2
          · rw [Buffer.Retrieve_readable b1 _ i1, Buffer.Retrieve_readable b2 _ i2, h]
    · rw [if_neg hc, if_neg hc]
      exact ⟨rfl, rfl, rfl, h⟩

/-- The same for `parse`. -/
theorem parse_congr {past : Byte}
    (db : UserTable) (r : HttpRequest) (b1 b2 : Buffer) (i1 : b1.CursorInv)
    (i2 : b2.CursorInv) (h : b1.readable = b2.readable) :
    (parse past db r b1).1 = (parse past db r b2).1 ∧ (parse past db r b1).2.1 = (parse past db r b2).2.1 ∧
    (parse past db r b1).2.2.2 = (parse past db r b2).2.2.2 := by
  have hlen : b1.ReadableBytes = b2.ReadableBytes := by
    rw [← Buffer.readable_length b1 i1, ← Buffer.readable_length b2 i2, h]
  unfold parse
  rw [hlen]
  split
  · exact ⟨rfl, rfl, rfl⟩
  · obtain ⟨h1, h2, h3, _⟩ := parseLoop_congr (b2.ReadableBytes + 1) db r b1 b2 i1 i2 h
    exact ⟨h1, h2, h3⟩

end HttpRequest

/-! ### `ParseFormUrlencoded_` -/

theorem charAt_eq_getElem {past : Byte} (s : List Byte) (i : Nat) (h : i < s.length) :
    charAt past s i = s[i] := by
  simp [charAt, h]

theorem substr_succ (s : List Byte) (j i : Nat) (hji : j ≤ i) (h : i < s.length) :
    substr s j (i + 1 - j) = substr s j (i - j) ++ [s[i]] := by
  unfold substr
  have e : i + 1 - j = (i - j) + 1 := by omega
  rw [e, List.take_succ]
  congr 1
  have : (List.drop j s)[i - j]? = some s[i] := by
    rw [List.getElem?_drop]
    have e2 : j + (i - j) = i := by omega
    rw [e2, List.getElem?_eq_getElem h]
  rw [this]; rfl

theorem substr_zero (s : List Byte) (j : Nat) : substr s j (j - j) = [] := by
  simp [substr]

/-- The loop of `ParseFormUrlencoded_` leaves `j ≤ i`: the assert of line 205. -/
theorem formLoop_j_le_i {past : Byte} (n fuel : Nat) :
    ∀ s : FormLoopState, s.j ≤ s.i → (formLoop past n fuel s).j ≤ (formLoop past n fuel s).i := by
  induction fuel with
  | zero => intro s h; exact h
  | succ fuel ih =>
    intro s h
    unfold formLoop
    split
    · apply ih
      simp only
      repeat' split
      all_goals (first | omega | (simp; omega) | simp)
    · exact h

/-- More than `n - i` iterations are never used by the loop of
`ParseFormUrlencoded_`. -/
theorem formLoop_fuel {past : Byte} (n fuel : Nat) :
    ∀ s : FormLoopState, n - s.i ≤ fuel → formLoop past n (fuel + 1) s = formLoop past n fuel s := by
  induction fuel with
  | zero =>
    intro s h
    have : ¬ s.i < n := by omega
    simp [formLoop, this]
  | succ fuel ih =>
    intro s h
    rw [formLoop]
    conv_rhs => rw [formLoop]
    split
    · apply ih
      simp only
      repeat' split
      all_goals (first | omega | (simp; omega))
    · rfl

/-- On a body without `+` and `%` the loop of `ParseFormUrlencoded_` computes
`formGo` of the bytes from `i` on. -/
theorem formLoop_eq_formGo {past : Byte}
    (body : List Byte) (h43 : 43 ∉ body) (h37 : 37 ∉ body) (fuel : Nat) :
    ∀ s : FormLoopState, s.body_ = body → s.j ≤ s.i → s.i ≤ body.length →
      body.length - s.i ≤ fuel →
      (formLoop past body.length fuel s).body_ = body ∧
      (formLoop past body.length fuel s).i = body.length ∧
      (formLoop past body.length fuel s).j ≤ body.length ∧
      (substr body (formLoop past body.length fuel s).j (body.length - (formLoop past body.length fuel s).j),
        (formLoop past body.length fuel s).key, (formLoop past body.length fuel s).post_)
        = formGo (body.drop s.i) (substr body s.j (s.i - s.j)) s.key s.post_ := by
  induction fuel with
  | zero =>
    intro s hb hji hin hf
    have hi : s.i = body.length := by omega
    simp only [formLoop]
    refine ⟨hb, hi, by omega, ?_⟩
    rw [hi, List.drop_length, formGo]
  | succ fuel ih =>
    intro s hb hji hin hf
    rw [formLoop]
    by_cases hlt : s.i < body.length
    · rw [if_pos hlt]
      have hch : charAt past s.body_ s.i = body[s.i] := by rw [hb]; exact charAt_eq_getElem body s.i hlt
      have hmem : body[s.i] ∈ body := List.getElem_mem hlt
      have hdrop : body.drop s.i = body[s.i] :: body.drop (s.i + 1) :=
        List.drop_eq_getElem_cons hlt
      have hne43 : body[s.i] ≠ 43 := fun e => h43 (e ▸ hmem)
      have hne37 : body[s.i] ≠ 37 := fun e => h37 (e ▸ hmem)
      simp only [hch]
      rw [hdrop, formGo]
      by_cases h61 : body[s.i] = 61
      · simp only [h61, if_true]
        have := ih { s with key := substr s.body_ s.j (s.i - s.j), j := s.i + 1, i := s.i + 1 }
          hb (Nat.le_refl _) hlt (by simp only; omega)
        simp only [substr_zero] at this
        rw [hb] at this ⊢
        exact this
      · simp only [h61, if_false, hne43, hne37]
        by_cases h38 : body[s.i] = 38
        · simp only [h38, if_true]
          have := ih { s with value := substr s.body_ s.j (s.i - s.j), j := s.i + 1,
                              post_ := StrMap.assign s.post_ s.key (substr s.body_ s.j (s.i - s.j)),
                              i := s.i + 1 }
            hb (Nat.le_refl _) hlt (by simp only; omega)
          simp only [substr_zero] at this
          rw [hb] at this ⊢
          exact this
        · simp only [h38, if_false]
          have := ih { s with i := s.i + 1 } hb (by simp only; omega) hlt (by simp only; omega)
          simp only [substr_succ body s.j s.i hji hlt] at this
          exact this
    · rw [if_neg hlt]
      have hi : s.i = body.length := by omega
      refine ⟨hb, hi, by omega, ?_⟩
      rw [hi, List.drop_length, formGo]

namespace HttpRequest

theorem ParseFormUrlencoded_path {past : Byte}
    (r : HttpRequest) : (r.ParseFormUrlencoded_ past).path_ = r.path_ := by
  unfold ParseFormUrlencoded_
  split
  · rfl
  · simp only
    split <;> rfl

/-- On a body without `+` and `%`, `ParseFormUrlencoded_` leaves the form map that
`formGo` and `formFinish` compute. -/
theorem ParseFormUrlencoded_eq {past : Byte}
    (r : HttpRequest) (h43 : 43 ∉ r.body_) (h37 : 37 ∉ r.body_)
    (hne : r.body_ ≠ []) :
    (r.ParseFormUrlencoded_ past).post_ = formFinish (formGo r.body_ [] [] r.post_) := by
  have hlen : r.body_.length ≠ 0 := fun e => hne (List.eq_nil_of_length_eq_zero e)
  obtain ⟨hb, hi, hj, hgo⟩ := formLoop_eq_formGo r.body_ h43 h37 r.body_.length
    { body_ := r.body_, post_ := r.post_, key := [], value := [], i := 0, j := 0 }
    rfl (Nat.le_refl _) (Nat.zero_le _) (by simp)
  simp only [List.drop_zero, Nat.sub_self, substr, List.take_zero] at hgo
  unfold ParseFormUrlencoded_
  rw [if_neg hlen]
  simp only
  rw [← hgo]
  unfold formFinish
  simp only
  generalize formLoop past r.body_.length r.body_.length
    { body_ := r.body_, post_ := r.post_, key := [], value := [], i := 0, j := 0 } = s at *
  have htok : (List.take (r.body_.length - s.j) (List.drop s.j r.body_) ≠ []) ↔ s.j < s.i := by
    rw [hi]
    constructor
    · intro h
      by_contra hc
      apply h
      have : r.body_.length - s.j = 0 := by omega
      rw [this]; rfl
    · intro h e
      have := congrArg List.length e
      simp only [List.length_take, List.length_drop, List.length_nil] at this
      omega
  by_cases hc : StrMap.count s.post_ s.key = 0 ∧ s.j < s.i
  · rw [if_pos hc, if_pos ⟨hc.1, htok.2 hc.2⟩]
    simp only [substr, hi, hb]
  · rw [if_neg hc, if_neg (fun h => hc ⟨h.1, htok.1 h.2⟩)]

end HttpRequest

/-! ### The form map of a body `k1=v1&...&kn=vn` -/

theorem formGo_token (w : List Byte) (h61 : 61 ∉ w) (h38 : 38 ∉ w) :
    ∀ (rest tok key : List Byte) (post : StrMap),
      formGo (w ++ rest) tok key post = formGo rest (tok ++ w) key post := by
  induction w with
  | nil => intro rest tok key post; simp
  | cons c t ih =>
    intro rest tok key post
    have hc61 : c ≠ 61 := fun e => h61 (by simp [e])
    have hc38 : c ≠ 38 := fun e => h38 (by simp [e])
    have ht61 : 61 ∉ t := fun e => h61 (List.mem_cons_of_mem _ e)
    have ht38 : 38 ∉ t := fun e => h38 (List.mem_cons_of_mem _ e)
    rw [List.cons_append, formGo, if_neg hc61, if_neg hc38, ih ht61 ht38]
    simp

theorem assignAll_cons (m : StrMap) (kv : List Byte × List Byte)
    (ps : List (List Byte × List Byte)) :
    assignAll m (kv :: ps) = assignAll (StrMap.assign m kv.1 kv.2) ps := rfl

theorem assignAll_not_mem (ps : List (List Byte × List Byte)) :
    ∀ (m : StrMap) (x : List Byte), x ∉ ps.map Prod.fst → assignAll m ps x = m x := by
  induction ps with
  | nil => intro m x _; rfl
  | cons kv t ih =>
    intro m x hx
    simp only [List.map_cons, List.mem_cons, not_or] at hx
    rw [assignAll_cons, ih _ _ hx.2]
    simp [StrMap.assign, hx.1]

theorem assignAll_mem (ps : List (List Byte × List Byte)) :
    ∀ (m : StrMap) (x y : List Byte), (ps.map Prod.fst).Nodup → (x, y) ∈ ps →
      assignAll m ps x = some y := by
  induction ps with
  | nil => intro m x y _ h; exact absurd h (List.not_mem_nil _)
  | cons kv t ih =>
    intro m x y hnd hmem
    simp only [List.map_cons, List.nodup_cons] at hnd
    rw [assignAll_cons]
    rcases List.mem_cons.1 hmem with e | hin
    · rw [← e] at hnd ⊢
      rw [assignAll_not_mem t _ _ hnd.1]
      simp [StrMap.assign]
    · exact ih _ x y hnd.2 hin

/-- With pairwise distinct keys, the map assigned from a list of pairs holds
exactly these pairs. -/
theorem assignAll_empty_iff (ps : List (List Byte × List Byte))
    (hnd : (ps.map Prod.fst).Nodup) (x y : List Byte) :
    assignAll StrMap.empty ps x = some y ↔ (x, y) ∈ ps := by
  constructor
  · intro h
    by_cases hx : x ∈ ps.map Prod.fst
    · obtain ⟨kv, hkv, e⟩ := List.mem_map.1 hx
      have h2 := assignAll_mem ps StrMap.empty kv.1 kv.2 hnd hkv
      rw [e, h] at h2
      have : y = kv.2 := Option.some.inj h2
      rw [this, ← e]; exact hkv
    · rw [assignAll_not_mem ps _ _ hx] at h
      exact absurd h (by simp [StrMap.empty])
  · exact assignAll_mem ps StrMap.empty x y hnd

theorem encodePairs_cons_cons (kv kv2 : List Byte × List Byte)
    (t : List (List Byte × List Byte)) :
    encodePairs (kv :: kv2 :: t) = kv.1 ++ 61 :: (kv.2 ++ 38 :: encodePairs (kv2 :: t)) := by
  rw [encodePairs]
  simp

theorem encodePairs_single (kv : List Byte × List Byte) :
    encodePairs [kv] = kv.1 ++ 61 :: (kv.2 ++ []) := by
  rw [encodePairs]
  simp

theorem mem_encodePairs (c : Byte) (ps : List (List Byte × List Byte)) :
    c ∈ encodePairs ps → c = 61 ∨ c = 38 ∨ ∃ kv ∈ ps, c ∈ kv.1 ∨ c ∈ kv.2 := by
  induction ps with
  | nil => intro h; exact absurd h (by simp [encodePairs])
  | cons kv t ih =>
    intro h
    cases t with
    | nil =>
      rw [encodePairs_single] at h
      simp only [List.append_nil, List.mem_append, List.mem_cons] at h
      rcases h with h | h | h
      · exact Or.inr (Or.inr ⟨kv, by simp, Or.inl h⟩)
      · exact Or.inl h
      · exact Or.inr (Or.inr ⟨kv, by simp, Or.inr h⟩)
    | cons kv2 t2 =>
      rw [encodePairs_cons_cons] at h
      simp only [List.mem_append, List.mem_cons] at h
      rcases h with h | h | h | h | h
      · exact Or.inr (Or.inr ⟨kv, by simp, Or.inl h⟩)
      · exact Or.inl h
      · exact Or.inr (Or.inr ⟨kv, by simp, Or.inr h⟩)
      · exact Or.inr (Or.inl h)
      · rcases ih h with h | h | ⟨kv3, hk, h⟩
        · exact Or.inl h
        · exact Or.inr (Or.inl h)
        · exact Or.inr (Or.inr ⟨kv3, List.mem_cons_of_mem _ hk, h⟩)

/-- The scan of `k1=v1&...&kn=vn` followed by the statement after the loop assigns
every pair. -/
theorem formFinish_formGo_encodePairs (ps : List (List Byte × List Byte)) :
    ∀ (key : List Byte) (post : StrMap), ps ≠ [] →
      (∀ kv ∈ ps, kv.2 ≠ [] ∧ formPlain kv.1 ∧ formPlain kv.2) →
      (ps.map Prod.fst).Nodup → (∀ kv ∈ ps, post kv.1 = none) →
      formFinish (formGo (encodePairs ps) [] key post) = assignAll post ps := by
  induction ps with
  | nil => intro key post h; exact absurd rfl h
  | cons kv t ih =>
    intro key post _ hall hnd hpost
    obtain ⟨hv, hk1, hk2⟩ := hall kv (by simp)
    cases t with
    | nil =>
      rw [encodePairs_single, formGo_token kv.1 hk1.2.1 hk1.1, formGo, if_pos rfl,
        formGo_token kv.2 hk2.2.1 hk2.1, formGo]
      simp only [List.nil_append]
      unfold formFinish
      have hc : StrMap.count post kv.1 = 0 := by
        simp [StrMap.count, hpost kv (by simp)]
      rw [if_pos ⟨hc, hv⟩]
      rfl
    | cons kv2 t2 =>
      rw [encodePairs_cons_cons, formGo_token kv.1 hk1.2.1 hk1.1, formGo, if_pos rfl,
        formGo_token kv.2 hk2.2.1 hk2.1, formGo, if_neg (by decide), if_pos rfl]
      simp only [List.nil_append]
      simp only [List.map_cons, List.nodup_cons] at hnd
      rw [ih kv.1 (StrMap.assign post kv.1 kv.2) (by simp)
        (fun x hx => hall x (List.mem_cons_of_mem _ hx)) (by simpa using hnd.2)]
      · rfl
      · intro x hx
        have hne : x.1 ≠ kv.1 := by
          intro e
          apply hnd.1
          rw [← e]
          exact List.mem_map_of_mem Prod.fst hx
        simp [StrMap.assign, hne, hpost x (List.mem_cons_of_mem _ hx)]

/-! ### The claims on the form -/

/-- C12, the code at the failing input: for the body `k=a+b%20c` the loop of
`ParseFormUrlencoded_` overwrites the `%` with the decoded byte and leaves the two
hexadecimal digits in place, so the key `k` gets `a b 20c`, while the standard
decoding of `a+b%20c` is `a b c`. -/
theorem form_percent_keeps_hex_digits :
    (HttpRequest.ParseFormUrlencoded_ 0
      { HttpRequest.new with body_ := cstr "k=a+b%20c" }).post_ (cstr "k")
      = some (cstr "a b 20c") ∧
    urlDecodeSpec (cstr "a+b%20c") = cstr "a b c" ∧
    cstr "a b 20c" ≠ cstr "a b c" := by
  decide

/-- C13. For a body `k1=v1&...&kn=vn` (`n ≥ 1`) with pairwise distinct non-empty
keys, non-empty values, and none of `&`, `=`, `+`, `%` in a key or value,
`ParseFormUrlencoded_` on an empty form map leaves exactly the map
`{k1 -> v1, ..., kn -> vn}`. -/
theorem form_map_population (past : Byte) (r : HttpRequest) (pairs : List (List Byte × List Byte))
    (k v : List Byte) (hn : pairs ≠ [])
    (hkeys : (pairs.map Prod.fst).Nodup)
    (hall : ∀ kv ∈ pairs, kv.1 ≠ [] ∧ kv.2 ≠ [] ∧ formPlain kv.1 ∧ formPlain kv.2)
    (hbody : r.body_ = encodePairs pairs) (hpost : r.post_ = StrMap.empty) :
    (r.ParseFormUrlencoded_ past).post_ k = some v ↔ (k, v) ∈ pairs := by
  have hplain : ∀ c, c ∈ r.body_ → c = 43 ∨ c = 37 → False := by
    intro c hc h
    rw [hbody] at hc
    rcases mem_encodePairs c pairs hc with e | e | ⟨kv, hkv, hin⟩
    · rcases h with h | h <;> rw [h] at e <;> exact absurd e (by decide)
    · rcases h with h | h <;> rw [h] at e <;> exact absurd e (by decide)
    · obtain ⟨_, _, p1, p2⟩ := hall kv hkv
      rcases hin with hin | hin <;> rcases h with h | h <;> rw [h] at hin
      · exact p1.2.2.1 hin
      · exact p1.2.2.2 hin
      · exact p2.2.2.1 hin
      · exact p2.2.2.2 hin
  have hne : r.body_ ≠ [] := by
    rw [hbody]
    cases pairs with
    | nil => exact absurd rfl hn
    | cons kv t => rw [encodePairs]; simp
  rw [HttpRequest.ParseFormUrlencoded_eq r (fun h => hplain 43 h (Or.inl rfl))
    (fun h => hplain 37 h (Or.inr rfl)) hne, hbody, hpost,
    formFinish_formGo_encodePairs pairs [] StrMap.empty hn
      (fun kv hkv => (hall kv hkv).2) hkeys (fun _ _ => rfl)]
  exact assignAll_empty_iff pairs hkeys k v

/-- Witness of C13: the body `a=1&b=2`. -/
theorem form_map_population_witness :
    ([(cstr "a", cstr "1"), (cstr "b", cstr "2")] : List (List Byte × List Byte)) ≠ [] ∧
    (HttpRequest.ParseFormUrlencoded_ 0
      { HttpRequest.new with body_ := cstr "a=1&b=2" }).post_ (cstr "b") = some (cstr "2") :=
  ⟨by simp,
    (form_map_population 0 { HttpRequest.new with body_ := cstr "a=1&b=2" }
      [(cstr "a", cstr "1"), (cstr "b", cstr "2")] (cstr "b") (cstr "2") (by simp) (by decide)
      (by
        intro kv hkv
        simp only [List.mem_cons, List.mem_singleton, List.not_mem_nil, or_false] at hkv
        rcases hkv with e | e <;> subst e <;> exact by unfold formPlain; decide)
      (by decide) rfl).2 (by simp)⟩

/-! ### The claim on the login and registration decision -/

/-- Without a zero byte, `%s` prints the whole string. -/
theorem cArg_eq (s : List Byte) (h : 0 ∉ s) : cArg s = s := by
  unfold cArg
  rw [List.takeWhile_eq_self_iff]
  intro x hx
  have : x ≠ 0 := fun e => h (e ▸ hx)
  simpa using this

/-- A literal without quote and backslash is read up to the quote that closes
it. -/
theorem sqlLiteral_append (lit rest : List Byte) (h39 : 39 ∉ lit) (h92 : 92 ∉ lit) :
    sqlLiteral (lit ++ 39 :: rest) = some (lit, rest) := by
  have h1 : (lit ++ 39 :: rest).takeWhile (fun b => b != 39) = lit := by
    rw [List.takeWhile_append_of_pos]
    · simp
    · intro x hx
      have : x ≠ 39 := fun e => h39 (e ▸ hx)
      simpa using this
  unfold sqlLiteral
  simp only [h1, List.drop_left, h92, if_false]

/-- A text that fits the array is whole in it. -/
theorem cString_eq (size : Nat) (s : List Byte) (h : s.length ≤ size - 1) :
    cString size s = s := by
  unfold cString
  exact List.take_of_length_le h

/-- A name of at most 194 bytes without zero, quote and backslash: the `SELECT`
is whole in `order`, and the server returns the row of the name. -/
theorem mysqlSelect_plain (db : UserTable) (name : List Byte) (h0 : 0 ∉ name) (h39 : 39 ∉ name)
    (h92 : 92 ∉ name) (hlen : name.length ≤ 194) :
    mysqlSelect db (selectOrder name) = some (db name) := by
  have hh : (cstr "SELECT username, password FROM user WHERE username='").length = 52 := by decide
  have ht : cstr "' LIMIT 1" = 39 :: cstr " LIMIT 1" := by decide
  have h8 : (cstr " LIMIT 1").length = 8 := by decide
  unfold selectOrder
  rw [cArg_eq name h0, cString_eq _ _ (by
    simp only [List.length_append, hh, ht, List.length_cons, h8]; omega)]
  unfold mysqlSelect
  simp only [List.append_assoc, List.take_left, List.drop_left, if_true, ht,
    sqlLiteral_append name _ h39 h92, true_or]

/-- A name and a password without zero, quote and backslash, of at most 205 bytes
together: the `INSERT` is whole in `order`, and the server adds the row. -/
theorem mysqlInsert_plain (db : UserTable) (name pwd : List Byte) (h0 : 0 ∉ name)
    (h39 : 39 ∉ name) (h92 : 92 ∉ name) (p0 : 0 ∉ pwd) (p39 : 39 ∉ pwd) (p92 : 92 ∉ pwd)
    (hlen : name.length + pwd.length ≤ 205) :
    mysqlInsert db (insertOrder name pwd) = some (StrMap.assign db name pwd) := by
  have hh : (cstr "INSERT INTO user(username, password) VALUES('").length = 45 := by decide
  have hm : cstr "','" = 39 :: (cstr ",'") := by decide
  have hm2 : (cstr ",'").length = 2 := by decide
  have ht : cstr "')" = 39 :: cstr ")" := by decide
  have h1 : (cstr ")").length = 1 := by decide
  unfold insertOrder
  rw [cArg_eq name h0, cArg_eq pwd p0, cString_eq _ _ (by
    simp only [List.length_append, hh, hm, ht, List.length_cons, hm2, h1]; omega)]
  unfold mysqlInsert
  simp only [List.append_assoc, List.take_left, List.drop_left, if_true, hm, ht, List.cons_append,
    sqlLiteral_append name _ h39 h92]
  rw [List.take_left' hm2, List.drop_left' hm2]
  simp only [if_true, sqlLiteral_append pwd _ p39 p92]

/-- The login where the `SELECT` is whole in `order`: true exactly when the table
holds the row `(name, pwd)`. -/
theorem HttpRequest.UserVerify_login (db : UserTable) (name pwd : List Byte)
    (hname : name ≠ []) (hpwd : pwd ≠ [])
    (h0 : 0 ∉ name) (h39 : 39 ∉ name) (h92 : 92 ∉ name) (hlen : name.length ≤ 194)
    (hrow : ∀ p, db name = some p → 0 ∉ p) :
    HttpRequest.UserVerify db name pwd true = (decide (db name = some pwd), db) := by
  unfold HttpRequest.UserVerify
  rw [if_neg (by simp [hname, hpwd])]
  simp only [mysqlSelect_plain db name h0 h39 h92 hlen]
  cases h : db name with
  | none => simp
  | some p =>
    simp only [cArg_eq p (hrow p h)]
    by_cases e : pwd = p
    · simp [e]
    · have e1 : ¬ p = pwd := fun h1 => e h1.symm
      simp [e, e1]

/-- The registration where both statements are whole in `order`: the row is
inserted when the name has none. -/
theorem HttpRequest.UserVerify_register (db : UserTable) (name pwd : List Byte)
    (hname : name ≠ []) (hpwd : pwd ≠ [])
    (h0 : 0 ∉ name) (h39 : 39 ∉ name) (h92 : 92 ∉ name)
    (p0 : 0 ∉ pwd) (p39 : 39 ∉ pwd) (p92 : 92 ∉ pwd)
    (hn : name.length ≤ 194) (hlen : name.length + pwd.length ≤ 205) :
    HttpRequest.UserVerify db name pwd false =
      (if db name = none then (true, StrMap.assign db name pwd) else (false, db)) := by
  unfold HttpRequest.UserVerify
  rw [if_neg (by simp [hname, hpwd])]
  simp only [mysqlSelect_plain db name h0 h39 h92 hn,
    mysqlInsert_plain db name pwd h0 h39 h92 p0 p39 p92 hlen]
  cases h : db name with
  | none => simp
  | some p => simp

/-- The decision of `ParsePost_` where both statements are whole in `order` and
say what the code means them to say.  For a POST with the content type
`application/x-www-form-urlencoded` whose decoded form holds the non-empty
fields `username = name` and `password = pwd`, the name of at most 194 bytes
and without zero byte, quote and backslash: at `/login.html`, on a table whose
password for `name` has no zero byte, the path ends as `/welcome.html` iff the
table holds the row `(name, pwd)`, as `/error.html` otherwise, and the table is
unchanged; at `/register.html`, with a password without zero byte, quote and
backslash and at most 205 bytes of name and password together, the path ends as
`/error.html` with the table unchanged when `name` has a row, and as
`/welcome.html` with the row `(name, pwd)` inserted when it has none. -/
theorem HttpRequest.ParsePost_decision (past : Byte) (db : UserTable) (r : HttpRequest)
    (name pwd : List Byte)
    (hm : r.method_ = cstr "POST")
    (hct : r.header_ (cstr "Content-Type") = some (cstr "application/x-www-form-urlencoded"))
    (hu : (r.ParseFormUrlencoded_ past).post_ (cstr "username") = some name)
    (hp : (r.ParseFormUrlencoded_ past).post_ (cstr "password") = some pwd)
    (hname : name ≠ []) (hpwd : pwd ≠ [])
    (h0 : 0 ∉ name) (h39 : 39 ∉ name) (h92 : 92 ∉ name) (hn : name.length ≤ 194) :
    (r.path_ = cstr "/login.html" → (∀ p, db name = some p → 0 ∉ p) →
      ((HttpRequest.ParsePost_ past db r).1.path_ = cstr "/welcome.html" ↔ db name = some pwd) ∧
      (db name ≠ some pwd → (HttpRequest.ParsePost_ past db r).1.path_ = cstr "/error.html") ∧
      (HttpRequest.ParsePost_ past db r).2 = db) ∧
    (r.path_ = cstr "/register.html" → 0 ∉ pwd → 39 ∉ pwd → 92 ∉ pwd →
      name.length + pwd.length ≤ 205 →
      (db name ≠ none → (HttpRequest.ParsePost_ past db r).1.path_ = cstr "/error.html" ∧
        (HttpRequest.ParsePost_ past db r).2 = db) ∧
      (db name = none → (HttpRequest.ParsePost_ past db r).1.path_ = cstr "/welcome.html" ∧
        (HttpRequest.ParsePost_ past db r).2 = StrMap.assign db name pwd)) := by
  have hidx : StrMap.index r.header_ (cstr "Content-Type") =
      (cstr "application/x-www-form-urlencoded", r.header_) := by
    unfold StrMap.index; rw [hct]
  have hpath : (r.ParseFormUrlencoded_ past).path_ = r.path_ :=
    HttpRequest.ParseFormUrlencoded_path r
  have hname1 : StrMap.index (r.ParseFormUrlencoded_ past).post_ (cstr "username") =
      (name, (r.ParseFormUrlencoded_ past).post_) := by
    unfold StrMap.index; rw [hu]
  have hpwd1 : StrMap.index (r.ParseFormUrlencoded_ past).post_ (cstr "password") =
      (pwd, (r.ParseFormUrlencoded_ past).post_) := by
    unfold StrMap.index; rw [hp]
  have hr : ({ r with header_ := r.header_ } : HttpRequest) = r := rfl
  constructor
  · intro hpa hrow
    have htag : DEFAULT_HTML_TAG (r.ParseFormUrlencoded_ past).path_ = some 1 := by
      rw [hpath, hpa]; decide
    have key : HttpRequest.ParsePost_ past db r =
        (if db name = some pwd then
          ({ (r.ParseFormUrlencoded_ past) with path_ := cstr "/welcome.html" }, db)
         else ({ (r.ParseFormUrlencoded_ past) with path_ := cstr "/error.html" }, db)) := by
      unfold HttpRequest.ParsePost_
      rw [if_pos hm]
      simp only [hidx, if_true, hr, htag, hname1, hpwd1, decide_True, or_true]
      rw [HttpRequest.UserVerify_login db name pwd hname hpwd h0 h39 h92 hn hrow]
      by_cases e : db name = some pwd <;> simp [e]
    rw [key]
    by_cases e : db name = some pwd
    · simp [e]
    · simp only [e, if_false, not_false_eq_true, true_implies, and_true, iff_false]
      exact ⟨by decide, fun _ => trivial⟩
  · intro hpa p0 p39 p92 hlen
    have htag : DEFAULT_HTML_TAG (r.ParseFormUrlencoded_ past).path_ = some 0 := by
      rw [hpath, hpa]; decide
    have key : HttpRequest.ParsePost_ past db r =
        (if db name = none then
          ({ (r.ParseFormUrlencoded_ past) with path_ := cstr "/welcome.html" },
            StrMap.assign db name pwd)
         else ({ (r.ParseFormUrlencoded_ past) with path_ := cstr "/error.html" }, db)) := by
      unfold HttpRequest.ParsePost_
      rw [if_pos hm]
      simp only [hidx, if_true, hr, htag, hname1, hpwd1, true_or, zero_ne_one, decide_False]
      rw [HttpRequest.UserVerify_register db name pwd hname hpwd h0 h39 h92 p0 p39 p92 hn hlen]
      by_cases e : db name = none <;> simp [e]
    rw [key]
    by_cases e : db name = none <;> simp [e]

/-- The body `username=alice&password=se+cr` against the row `(alice, "se cr")`
logs in. -/
theorem ParsePost_decision_alice :
    ((loginRequest (cstr "username=alice&password=se+cr")).ParseFormUrlencoded_ 0).post_
        (cstr "password") = some (cstr "se cr") ∧
    (HttpRequest.ParsePost_ 0 (StrMap.assign StrMap.empty (cstr "alice") (cstr "se cr"))
      (loginRequest (cstr "username=alice&password=se+cr"))).1.path_ = cstr "/welcome.html" :=
  ⟨by decide,
    ((HttpRequest.ParsePost_decision 0 (StrMap.assign StrMap.empty (cstr "alice") (cstr "se cr"))
      (loginRequest (cstr "username=alice&password=se+cr")) (cstr "alice") (cstr "se cr")
      (by decide) (by decide) (by decide) (by decide) (by decide) (by decide)
      (by decide) (by decide) (by decide) (by decide)).1
      (by decide) (by
        intro p hp
        have e : p = cstr "se cr" := by
          simpa [StrMap.assign] using hp.symm
        rw [e]; decide)).1.mpr (by decide)⟩

/-- A login whose `SELECT` does not fit `order`: the name has 200 bytes `a`, the
statement in `order` ends inside ` LIMIT 1`, the query fails, and `UserVerify`
returns false (line 237) although the table holds the row. -/
theorem UserVerify_cut_select_returns_false :
    (selectOrder (List.replicate 200 97)).length = 255 ∧
    (mysqlSelect (StrMap.assign StrMap.empty (List.replicate 200 97) (cstr "pw"))
      (selectOrder (List.replicate 200 97))).isSome = false ∧
    (HttpRequest.UserVerify (StrMap.assign StrMap.empty (List.replicate 200 97) (cstr "pw"))
      (List.replicate 200 97) (cstr "pw") true).1 = false := by
  decide

/-- C17, the code at the failing input: a POST to `/register.html` with the
content type `application/x-www-form-urlencoded` whose body gives a user name
of 100 bytes `a` and a password of 150 bytes `b`, on a table without any row.
The decoded fields are that name and that password.  The text of the `INSERT`
has 300 bytes, of which `snprintf(order, 256, ...)` keeps 255: the statement in
`order` ends inside the literal of the password, and the query fails.  The path
still ends as `/welcome.html`, and the table has no row of that name afterwards:
line 272 sets `flag = false` for the failed query, and line 274, outside the
braces of that `if`, sets `flag = true`.  With the password `pw` in place of the
long one the row is inserted. -/
theorem register_long_fields_inserts_no_row :
    (((registerRequest (cstr "username=" ++ longName ++ cstr "&password=" ++ longPwd)
        ).ParseFormUrlencoded_ 0).post_ (cstr "username") = some longName ∧
      ((registerRequest (cstr "username=" ++ longName ++ cstr "&password=" ++ longPwd)
        ).ParseFormUrlencoded_ 0).post_ (cstr "password") = some longPwd) ∧
    ((cstr "INSERT INTO user(username, password) VALUES('" ++ cArg longName ++ cstr "','"
        ++ cArg longPwd ++ cstr "')").length = 300 ∧
      (insertOrder longName longPwd).length = 255 ∧
      (mysqlInsert StrMap.empty (insertOrder longName longPwd)).isSome = false) ∧
    ((HttpRequest.ParsePost_ 0 StrMap.empty
        (registerRequest (cstr "username=" ++ longName ++ cstr "&password=" ++ longPwd))).1.path_
        = cstr "/welcome.html" ∧
      (HttpRequest.ParsePost_ 0 StrMap.empty
        (registerRequest (cstr "username=" ++ longName ++ cstr "&password=" ++ longPwd))).2
        longName = none) ∧
    ((HttpRequest.ParsePost_ 0 StrMap.empty
        (registerRequest (cstr "username=" ++ longName ++ cstr "&password=pw"))).1.path_
        = cstr "/welcome.html" ∧
      (HttpRequest.ParsePost_ 0 StrMap.empty
        (registerRequest (cstr "username=" ++ longName ++ cstr "&password=pw"))).2
        longName = some (cstr "pw")) := by
  decide

/-! ## Part XIV: proofs about `HttpResponse` -/

namespace HttpResponse

theorem AddStateLine_eq (r : HttpResponse) (buff : Buffer) :
    AddStateLine_ r buff =
      ({ r with code_ := emittedCode r.code_ }, buff.Append (statusLine (emittedCode r.code_))) := by
  unfold AddStateLine_ emittedCode statusLine
  cases h : CODE_STATUS r.code_ with
  | none => simp; rfl
  | some s => simp [h]

theorem AddHeader_spec (r : HttpResponse) (buff : Buffer) (hinv : buff.CursorInv) :
    (AddHeader_ r buff).CursorInv ∧
    (AddHeader_ r buff).readable = buff.readable ++ headerBytes r := by
  unfold AddHeader_ headerBytes
  obtain ⟨i1, r1⟩ := Buffer.Append_spec buff (cstr "Connection: ") hinv
  cases hk : r.isKeepAlive_ with
  | true =>
    obtain ⟨i2, r2⟩ := Buffer.Append_spec _ (cstr "keep-alive\r\n") i1
    obtain ⟨i3, r3⟩ := Buffer.Append_spec _ (cstr "Keep-Alive: max=6, timeout=120\r\n") i2
    obtain ⟨i4, r4⟩ := Buffer.Append_spec _
      (cstr "Content-type: " ++ r.GetFileType_ ++ cstr "\r\n") i3
    refine ⟨i4, ?_⟩
    simp only [if_true]
    rw [r4, r3, r2, r1]
    simp [List.append_assoc]
  | false =>
    obtain ⟨i2, r2⟩ := Buffer.Append_spec _ (cstr "close\r\n") i1
    obtain ⟨i4, r4⟩ := Buffer.Append_spec _
      (cstr "Content-type: " ++ r.GetFileType_ ++ cstr "\r\n") i2
    refine ⟨i4, ?_⟩
    simp only [Bool.false_eq_true, if_false]
    rw [r4, r2, r1]
    simp [List.append_assoc]

theorem ErrorContent_spec (r : HttpResponse) (buff : Buffer) (message : List Byte)
    (hinv : buff.CursorInv) :
    (ErrorContent r buff message).CursorInv ∧
    ∃ tail, (ErrorContent r buff message).readable = buff.readable ++ tail := by
  unfold ErrorContent
  simp only
  obtain ⟨i1, r1⟩ := Buffer.Append_spec buff _ hinv
  obtain ⟨i2, r2⟩ := Buffer.Append_spec _ _ i1
  exact ⟨i2, ⟨_, by rw [r2, r1, List.append_assoc]⟩⟩

theorem AddContent_spec (fs : FileSystem) (r : HttpResponse) (buff : Buffer)
    (hinv : buff.CursorInv) :
    (AddContent_ fs r buff).2.CursorInv ∧
    (AddContent_ fs r buff).1.path_ = r.path_ ∧
    ∃ tail, (AddContent_ fs r buff).2.readable = buff.readable ++ tail := by
  unfold AddContent_
  simp only
  split
  · obtain ⟨i1, t, r1⟩ := ErrorContent_spec r buff (cstr "File NotFound!") hinv
    exact ⟨i1, rfl, t, r1⟩
  · split
    · split
      · obtain ⟨i1, t, r1⟩ := ErrorContent_spec { r with code_ := 404 } buff
          (cstr "File NotFound!") hinv
        exact ⟨i1, rfl, t, r1⟩
      · obtain ⟨i1, r1⟩ := Buffer.Append_spec buff
          (cstr "Content-length: " ++ to_string r.mmFileStat_.st_size ++ cstr "\r\n\r\n") hinv
        exact ⟨i1, rfl, _, r1⟩
    · obtain ⟨i1, r1⟩ := Buffer.Append_spec buff
        (cstr "Content-length: " ++ to_string r.mmFileStat_.st_size ++ cstr "\r\n\r\n") hinv
      exact ⟨i1, rfl, _, r1⟩

theorem statCode_spec (fs : FileSystem) (r : HttpResponse) :
    (statCode fs r).code_ = resolveCode (fs (r.srcDir_ ++ r.path_)) r.code_ ∧
    (statCode fs r).path_ = r.path_ ∧ (statCode fs r).srcDir_ = r.srcDir_ ∧
    (statCode fs r).isKeepAlive_ = r.isKeepAlive_ := by
  unfold statCode resolveCode sysStat
  cases h : fs (r.srcDir_ ++ r.path_) with
  | missing => simp [h]
  | directory o s => simp [h]
  | regular o c =>
    cases o with
    | true =>
      by_cases hc : r.code_ = -1 <;> simp [h, hc]
    | false => simp [h]

theorem ErrorHtml_spec (fs : FileSystem) (r : HttpResponse) :
    (ErrorHtml_ fs r).path_ = (CODE_PATH r.code_).getD r.path_ ∧
    (ErrorHtml_ fs r).code_ = r.code_ ∧ (ErrorHtml_ fs r).isKeepAlive_ = r.isKeepAlive_ := by
  unfold ErrorHtml_
  cases h : CODE_PATH r.code_ with
  | none => simp
  | some p =>
    simp only [Option.getD_some]
    split <;> simp

/-- Everything about `MakeResponse` up to the status line: the line emitted, and
the path the headers are built from. -/
theorem MakeResponse_status (fs : FileSystem) (r : HttpResponse) (buff : Buffer)
    (hinv : buff.CursorInv) :
    (∃ rest, (MakeResponse fs r buff).2.readable = buff.readable ++
      statusLine (emittedCode (resolveCode (fs (r.srcDir_ ++ r.path_)) r.code_)) ++ rest) ∧
    (MakeResponse fs r buff).1.path_ =
      (CODE_PATH (resolveCode (fs (r.srcDir_ ++ r.path_)) r.code_)).getD r.path_ := by
  obtain ⟨hc, hp, _, _⟩ := statCode_spec fs r
  obtain ⟨ep, ec, _⟩ := ErrorHtml_spec fs (statCode fs r)
  unfold MakeResponse
  simp only [AddStateLine_eq]
  obtain ⟨i1, r1⟩ := Buffer.Append_spec buff
    (statusLine (emittedCode (ErrorHtml_ fs (statCode fs r)).code_)) hinv
  obtain ⟨i2, r2⟩ := AddHeader_spec
    { ErrorHtml_ fs (statCode fs r) with code_ := emittedCode (ErrorHtml_ fs (statCode fs r)).code_ }
    _ i1
  obtain ⟨_, p3, t, r3⟩ := AddContent_spec fs
    { ErrorHtml_ fs (statCode fs r) with code_ := emittedCode (ErrorHtml_ fs (statCode fs r)).code_ }
    _ i2
  constructor
  · refine ⟨headerBytes { ErrorHtml_ fs (statCode fs r) with
        code_ := emittedCode (ErrorHtml_ fs (statCode fs r)).code_ } ++ t, ?_⟩
    rw [r3, r2, r1, ec, hc]
    simp only [List.append_assoc]
  · rw [p3]
    show (ErrorHtml_ fs (statCode fs r)).path_ = _
    rw [ep, hc, hp]

end HttpResponse

/-! ### The claims on the response code -/

/-- C14, the code at the failing input: for the read buffer `XYZ\r\n\r\n` and the
resource root `/www`, an existing directory, `process` leaves `path_` empty after
the failed parse, `stat` then finds the root itself, a directory, and the
response is a 404 (with `Connection: close`) and not a 400. -/
theorem garbage_request_line_yields_404 :
    (HttpConn.process 0 sampleFs StrMap.empty (cstr "/www") (connWith (cstr "XYZ\r\n\r\n"))).map
      (fun x => x.2.1.writeBuff_.readable)
      = some (cstr "HTTP/1.1 404 Not Found\r\n" ++ cstr "Connection: close\r\n" ++
          cstr "Content-type: text/html\r\n" ++ cstr "Content-length: 9\r\n\r\n") := by
  decide

/-- C16, counterexample: with the initial code 500 and the world-readable file
`/www/index.html`, the status line carries the code 400, not the initial code,
and the path is left as it was. -/
theorem unknown_code_degrades_to_400 :
    (((HttpResponse.new.Init (cstr "/www") (cstr "/index.html") false 500).map
      (fun r => HttpResponse.MakeResponse sampleFs r (Buffer.new 0))).map
      (fun x => (x.2.readable.take 26, x.1.path_)))
      = some (cstr "HTTP/1.1 400 Bad Request\r\n", cstr "/index.html") := by
  decide

/-- C16, amended. The code resolved by `MakeResponse` is 404 when
`src_dir + path` is missing or a directory, 403 when it is not world-readable,
200 when it is readable and the initial code was -1, else the initial code
(`resolveCode`).  The status line carries this code when it is 200, 400, 403 or
404, and 400 for any other code; when the resolved code is 400, 403 or 404 the
path is rewritten to the matching error page before the headers are built, and
otherwise the path is kept. -/
theorem response_code_resolution (fs : FileSystem) (r : HttpResponse) (buff : Buffer)
    (hinv : buff.CursorInv) :
    (∃ rest, (HttpResponse.MakeResponse fs r buff).2.readable = buff.readable ++
      statusLine (emittedCode (resolveCode (fs (r.srcDir_ ++ r.path_)) r.code_)) ++ rest) ∧
    emittedCode (resolveCode (fs (r.srcDir_ ++ r.path_)) r.code_) =
      (if resolveCode (fs (r.srcDir_ ++ r.path_)) r.code_ = 200 ∨
          resolveCode (fs (r.srcDir_ ++ r.path_)) r.code_ = 400 ∨
          resolveCode (fs (r.srcDir_ ++ r.path_)) r.code_ = 403 ∨
          resolveCode (fs (r.srcDir_ ++ r.path_)) r.code_ = 404
        then resolveCode (fs (r.srcDir_ ++ r.path_)) r.code_ else 400) ∧
    (HttpResponse.MakeResponse fs r buff).1.path_ =
      (if resolveCode (fs (r.srcDir_ ++ r.path_)) r.code_ = 400 then cstr "/400.html"
        else if resolveCode (fs (r.srcDir_ ++ r.path_)) r.code_ = 403 then cstr "/403.html"
        else if resolveCode (fs (r.srcDir_ ++ r.path_)) r.code_ = 404 then cstr "/404.html"
        else r.path_) := by
  obtain ⟨h1, h2⟩ := HttpResponse.MakeResponse_status fs r buff hinv
  refine ⟨h1, ?_, ?_⟩
  · generalize resolveCode (fs (r.srcDir_ ++ r.path_)) r.code_ = c
    unfold emittedCode CODE_STATUS
    by_cases e1 : c = 200
    · simp [e1]
    · by_cases e2 : c = 400
      · simp [e2]
      · by_cases e3 : c = 403
        · simp [e3]
        · by_cases e4 : c = 404
          · simp [e4]
          · simp [e1, e2, e3, e4]
  · rw [h2]
    generalize resolveCode (fs (r.srcDir_ ++ r.path_)) r.code_ = c
    unfold CODE_PATH
    by_cases e2 : c = 400
    · simp [e2]
    · by_cases e3 : c = 403
      · simp [e3]
      · by_cases e4 : c = 404
        · simp [e4]
        · simp [e2, e3, e4]

/-- Witness of C16, amended: the missing path `/missing` under the sample root
resolves to 404 and the path becomes `/404.html`. -/
theorem response_code_resolution_witness :
    (Buffer.new 0).CursorInv ∧
    (HttpResponse.MakeResponse sampleFs
      { HttpResponse.new with srcDir_ := cstr "/www", path_ := cstr "/missing", code_ := 200 }
      (Buffer.new 0)).1.path_ = cstr "/404.html" :=
  ⟨by decide,
    ((response_code_resolution sampleFs
      { HttpResponse.new with srcDir_ := cstr "/www", path_ := cstr "/missing", code_ := 200 }
      (Buffer.new 0) (by decide)).2.2).trans (by decide)⟩

/-! ## Part XV: proofs about `HttpConn` and the reactor -/

/-- C18. For a pending state, `iov_[0]` of length `a` over the readable region of
the write buffer and `iov_[1]` of length `b`, and a result `0 < len ≤ a + b` of
`writev`, one iteration of the loop of `write` leaves `ToWriteBytes() = a + b - len`
and the bytes described by `iov_[0]` then `iov_[1]` are the former ones without
their first `len`; when `len > a`, `iov_[0]` is empty and `iov_[1]` has advanced
by `len - a`; when `len = a`, `iov_[0]` is empty and `iov_[1]` is untouched; and
the state is pending again. -/
theorem write_advances_cursor (c : HttpConn) (len errno saveErrno : Int)
    (hinv : c.writeBuff_.CursorInv)
    (hlen : c.iov0.iov_len = c.writeBuff_.ReadableBytes)
    (hbase : c.iov0.iov_len ≠ 0 → c.iov0.iov_base = c.writeBuff_.Peek)
    (hpos : 0 < len) (hle : len.toNat ≤ c.iov0.iov_len + c.iov1.iov_len) :
    (c.writeIteration len errno saveErrno).1.ToWriteBytes =
      c.iov0.iov_len + c.iov1.iov_len - len.toNat ∧
    (c.writeIteration len errno saveErrno).1.iov0Bytes ++
      (c.writeIteration len errno saveErrno).1.iov1Bytes =
      (c.iov0Bytes ++ c.iov1Bytes).drop len.toNat ∧
    (c.iov0.iov_len < len.toNat →
      (c.writeIteration len errno saveErrno).1.iov0.iov_len = 0 ∧
      (c.writeIteration len errno saveErrno).1.iov1 =
        IoVec.mk (c.iov1.iov_base + (len.toNat - c.iov0.iov_len))
          (c.iov1.iov_len - (len.toNat - c.iov0.iov_len))) ∧
    (len.toNat = c.iov0.iov_len →
      (c.writeIteration len errno saveErrno).1.iov0.iov_len = 0 ∧
      (c.writeIteration len errno saveErrno).1.iov1 = c.iov1) ∧
    (c.writeIteration len errno saveErrno).1.writeBuff_.CursorInv ∧
    (c.writeIteration len errno saveErrno).1.iov0.iov_len =
      (c.writeIteration len errno saveErrno).1.writeBuff_.ReadableBytes ∧
    ((c.writeIteration len errno saveErrno).1.iov0.iov_len ≠ 0 →
      (c.writeIteration len errno saveErrno).1.iov0.iov_base =
        (c.writeIteration len errno saveErrno).1.writeBuff_.Peek) := by
  obtain ⟨n, rfl⟩ := Int.eq_ofNat_of_zero_le (le_of_lt hpos)
  have hn : 0 < n := by exact_mod_cast hpos
  simp only [Int.toNat_ofNat] at hle ⊢
  obtain ⟨fd, cl, cnt, ⟨base0, a⟩, ⟨base1, b⟩, rb, wb, rq, rs⟩ := c
  simp only at hlen hbase hle hinv
  have hl0 : ((wb.buffer_.drop base0).take a).length = a := by
    by_cases ha : a = 0
    · subst ha; simp
    · have hb := hbase ha
      unfold Buffer.CursorInv at hinv
      unfold Buffer.ReadableBytes at hlen
      unfold Buffer.Peek at hb
      simp only [List.length_take, List.length_drop]
      omega
  have h1 : ¬ ((n : Int) ≤ 0) := by omega
  have h2 : ¬ (a + b = 0) := by omega
  by_cases hgt : n > a
  · have hw : (HttpConn.writeIteration ⟨fd, cl, cnt, ⟨base0, a⟩, ⟨base1, b⟩, rb, wb, rq, rs⟩
        (n : Int) errno saveErrno).1 =
        ⟨fd, cl, cnt, ⟨base0, 0⟩, ⟨base1 + (n - a), b - (n - a)⟩, rb,
          (if a ≠ 0 then wb.RetrieveAll else wb), rq, rs⟩ := by
      unfold HttpConn.writeIteration
      simp only [h1, h2, if_false, Int.toNat_ofNat, hgt, if_true]
      by_cases ha : a = 0
      · subst ha; simp
      · simp [ha]
    rw [hw]
    refine ⟨?_, ?_, fun _ => ⟨rfl, rfl⟩, fun h => absurd h (by simp only; omega), ?_, ?_,
      fun h => absurd rfl h⟩
    · simp only [HttpConn.ToWriteBytes]; omega
    · simp only [HttpConn.iov0Bytes, HttpConn.iov1Bytes, List.take_zero, List.nil_append]
      have hd : ((wb.buffer_.drop base0).take a).drop n = [] :=
        List.drop_eq_nil_of_le (by rw [hl0]; omega)
      rw [List.drop_append_eq_append_drop, hl0, hd, List.nil_append, List.drop_take,
        List.drop_drop]
    · show (if a ≠ 0 then wb.RetrieveAll else wb).CursorInv
      split
      · exact Buffer.RetrieveAll_cursorInv wb
      · exact hinv
    · show 0 = (if a ≠ 0 then wb.RetrieveAll else wb).ReadableBytes
      split
      · rfl
      · rw [← hlen]; omega
  · have hna : n ≤ a := by omega
    have hw : (HttpConn.writeIteration ⟨fd, cl, cnt, ⟨base0, a⟩, ⟨base1, b⟩, rb, wb, rq, rs⟩
        (n : Int) errno saveErrno).1 =
        ⟨fd, cl, cnt, ⟨base0 + n, a - n⟩, ⟨base1, b⟩, rb, wb.Retrieve n, rq, rs⟩ := by
      unfold HttpConn.writeIteration
      simp only [h1, h2, if_false, Int.toNat_ofNat, hgt]
    rw [hw]
    refine ⟨?_, ?_, fun h => absurd h (by simp only; omega), ?_, ?_, ?_, ?_⟩
    · simp only [HttpConn.ToWriteBytes]; omega
    · simp only [HttpConn.iov0Bytes, HttpConn.iov1Bytes]
      have hbuf : (wb.Retrieve n).buffer_ = wb.buffer_ := by
        unfold Buffer.Retrieve Buffer.RetrieveAll; split <;> rfl
      rw [hbuf, List.drop_append_eq_append_drop, hl0, Nat.sub_eq_zero_of_le hna, List.drop_zero,
        List.drop_take, List.drop_drop]
    · intro h
      have h3 : n = a := h
      subst h3
      exact ⟨Nat.sub_self _, rfl⟩
    · exact Buffer.Retrieve_cursorInv wb n hinv
    · show a - n = (wb.Retrieve n).ReadableBytes
      unfold Buffer.Retrieve Buffer.RetrieveAll
      split
      · simp only [Buffer.ReadableBytes] at *; omega
      · simp only [Buffer.ReadableBytes] at *; omega
    · intro h
      have h3 : a - n ≠ 0 := h
      have hb := hbase (by omega)
      show base0 + n = (wb.Retrieve n).Peek
      unfold Buffer.Retrieve Buffer.RetrieveAll
      rw [if_pos (by omega)]
      simp only [Buffer.Peek] at *
      omega

/-- Witness of C18: five header bytes and four file bytes pending, and `writev`
returns 7, two bytes more than `iov_[0]` holds. -/
theorem write_advances_cursor_witness :
    ({ HttpConn.new with
        writeBuff_ := ⟨cstr "HELLO", 0, 5⟩, iov0 := ⟨0, 5⟩, iov1 := ⟨0, 4⟩,
        response_ := { HttpResponse.new with mmFile_ := some (cstr "body") } }
      : HttpConn).writeBuff_.CursorInv ∧
    (({ HttpConn.new with
        writeBuff_ := ⟨cstr "HELLO", 0, 5⟩, iov0 := ⟨0, 5⟩, iov1 := ⟨0, 4⟩,
        response_ := { HttpResponse.new with mmFile_ := some (cstr "body") } }
      : HttpConn).writeIteration 7 0 0).1.ToWriteBytes = 2 :=
  ⟨by decide,
    (write_advances_cursor
      { HttpConn.new with
        writeBuff_ := ⟨cstr "HELLO", 0, 5⟩, iov0 := ⟨0, 5⟩, iov1 := ⟨0, 4⟩,
        response_ := { HttpResponse.new with mmFile_ := some (cstr "body") } }
      7 0 0 (by decide) (by decide) (by decide) (by decide) (by decide)).1⟩

/-! ### The claim on closed connections -/

/-- C20, the code at the failing input: after `AddClient_` and then `CloseConn_`
of the fd 5, with the timeout 1000 ms, the connection is out of the table and of
the registrations, and the timer heap still holds the node of id 5, although
webserver.h declares `CloseConn_` as removing the connection from the Epoller and
from the timer.  `HeapTimer::doWork`, which heaptimer.cpp provides for a
connection that is closed before its deadline, is called nowhere. -/
theorem closed_connection_keeps_timer :
    (((sampleServer.AddClient_ 0 5).bind (fun s => s.CloseConn_ 5)).map
      (fun s => (s.timer_.heap_, (s.users_ 5).isSome, s.epoller_ 5)))
      = some ([⟨5, 1000000000, 5⟩], false, none) := by
  decide

/-- The three statements of `CloseConn_` (webserver.cpp lines 189-197) on a
connection stored under its fd `f > 0`: `f` leaves the table and the
registrations of the multiplexer, and no statement reaches `timer_`. -/
theorem CloseConn_clears_table_and_epoll (s : WebServer) (f : Int) (c : HttpConn)
    (hu : s.users_ f = some c) (hfd : c.fd_ = f) (hpos : 0 < f) :
    ∃ s1, s.CloseConn_ f = some s1 ∧ s1.users_ f = none ∧ s1.epoller_ f = none ∧
      s1.timer_ = s.timer_ := by
  unfold WebServer.CloseConn_
  rw [hu]
  refine ⟨_, rfl, ?_, ?_, rfl⟩
  · simp [HttpConn.GetFd, hfd]
  · simp only [HttpConn.GetFd, hfd, Epoller_DelFd]
    rw [if_neg (by omega)]
    cases h : s.epoller_ f with
    | none => simpa using h
    | some e => simp

/-! ### The end-to-end claims on `process` and `parse` -/

theorem HttpResponse.Init_eq (r : HttpResponse) (srcDir path : List Byte) (k : Bool) (code : Int)
    (h : srcDir ≠ []) :
    r.Init srcDir path k code = some ⟨code, k, path, srcDir, none, ⟨false, false, 0⟩⟩ := by
  unfold HttpResponse.Init HttpResponse.UnmapFile
  rw [if_pos h]

/-- The response `MakeResponse` builds with the code 200 for a world-readable
regular file that is not empty. -/
theorem HttpResponse.MakeResponse_ok (fs : FileSystem) (srcDir path : List Byte) (k : Bool)
    (content : List Byte) (buff : Buffer)
    (hf : fs (srcDir ++ path) = .regular true content) (hn : 0 < content.length)
    (hinv : buff.CursorInv) :
    (MakeResponse fs ⟨200, k, path, srcDir, none, ⟨false, false, 0⟩⟩ buff).2.CursorInv ∧
    (MakeResponse fs ⟨200, k, path, srcDir, none, ⟨false, false, 0⟩⟩ buff).2.readable =
      buff.readable ++ statusLine 200 ++
        headerBytes ⟨200, k, path, srcDir, none, ⟨false, true, content.length⟩⟩ ++
        (cstr "Content-length: " ++ to_string content.length ++ cstr "\r\n\r\n") ∧
    (MakeResponse fs ⟨200, k, path, srcDir, none, ⟨false, false, 0⟩⟩ buff).1.mmFile_
      = some content ∧
    (MakeResponse fs ⟨200, k, path, srcDir, none, ⟨false, false, 0⟩⟩ buff).1.mmFileStat_.st_size
      = content.length := by
  have h1 : statCode fs ⟨200, k, path, srcDir, none, ⟨false, false, 0⟩⟩ =
      ⟨200, k, path, srcDir, none, ⟨false, true, content.length⟩⟩ := by
    unfold statCode sysStat
    simp only [hf]
    rfl
  have h2 : ErrorHtml_ fs ⟨200, k, path, srcDir, none, ⟨false, true, content.length⟩⟩ =
      ⟨200, k, path, srcDir, none, ⟨false, true, content.length⟩⟩ := rfl
  have h3 : emittedCode 200 = 200 := by decide
  have hopen : sysOpen fs (srcDir ++ path) = true := by unfold sysOpen; rw [hf]
  have hmap : sysMmap fs (srcDir ++ path) content.length = some content := by
    unfold sysMmap; rw [hf]; simp
  obtain ⟨i1, r1⟩ := Buffer.Append_spec buff (statusLine 200) hinv
  obtain ⟨i2, r2⟩ := AddHeader_spec ⟨200, k, path, srcDir, none, ⟨false, true, content.length⟩⟩
    _ i1
  obtain ⟨i3, r3⟩ := Buffer.Append_spec _
    (cstr "Content-length: " ++ to_string content.length ++ cstr "\r\n\r\n") i2
  have key : MakeResponse fs ⟨200, k, path, srcDir, none, ⟨false, false, 0⟩⟩ buff =
      (⟨200, k, path, srcDir, some content, ⟨false, true, content.length⟩⟩,
        (AddHeader_ ⟨200, k, path, srcDir, none, ⟨false, true, content.length⟩⟩
          (buff.Append (statusLine 200))).Append
          (cstr "Content-length: " ++ to_string content.length ++ cstr "\r\n\r\n")) := by
    unfold MakeResponse
    simp only [h1, h2, AddStateLine_eq, h3]
    unfold AddContent_
    simp only [hopen, hmap, Bool.not_true, Bool.false_eq_true, if_false, gt_iff_lt, hn, if_true]
  rw [key]
  refine ⟨i3, ?_, rfl, rfl⟩
  rw [r3, r2, r1]

/-- What `parse` makes of the request `GET / HTTP/1.1\r\nHost: x\r\n\r\n`. -/
theorem HttpRequest.parse_get_root {past : Byte}
    (db : UserTable) (buff : Buffer) (hinv : buff.CursorInv)
    (hreq : buff.readable = cstr "GET / HTTP/1.1\r\nHost: x\r\n\r\n") :
    (parse past db HttpRequest.new buff).1 = true ∧
    (parse past db HttpRequest.new buff).2.1.path_ = cstr "/index.html" ∧
    (parse past db HttpRequest.new buff).2.1.IsKeepAlive = false ∧
    (parse past db HttpRequest.new buff).2.2.2 = db := by
  have i2 : (Buffer.mk (cstr "GET / HTTP/1.1\r\nHost: x\r\n\r\n") 0 27).CursorInv := by decide
  have h2 : (Buffer.mk (cstr "GET / HTTP/1.1\r\nHost: x\r\n\r\n") 0 27).readable =
      cstr "GET / HTTP/1.1\r\nHost: x\r\n\r\n" := by decide
  obtain ⟨e1, e2, e3⟩ := parse_congr db HttpRequest.new buff _ hinv i2 (hreq.trans h2.symm)
  rw [e1, e2, e3]
  exact ⟨rfl, rfl, rfl, rfl⟩

/-- C15. For the request `GET / HTTP/1.1\r\nHost: x\r\n\r\n` in the read buffer, an
empty write buffer and a world-readable regular file `/index.html` of `n > 0`
bytes under the resource root, `process` returns true and leaves in the write
buffer exactly the status line `200 OK`, `Connection: close`,
`Content-type: text/html`, `Content-length: n` and the blank line; `iov_[0]` is
that region, `iov_[1]` the `n` mapped bytes of the file, and `iovCnt_` is 2. -/
theorem get_root_end_to_end (past : Byte) (fs : FileSystem) (db : UserTable) (srcDir : List Byte)
    (c : HttpConn) (content : List Byte)
    (hsrc : srcDir ≠ [])
    (hr : c.readBuff_.CursorInv)
    (hreq : c.readBuff_.readable = cstr "GET / HTTP/1.1\r\nHost: x\r\n\r\n")
    (hw : c.writeBuff_.CursorInv) (hwe : c.writeBuff_.readable = [])
    (hfile : fs (srcDir ++ cstr "/index.html") = .regular true content)
    (hn : 0 < content.length) :
    ∃ c1, HttpConn.process past fs db srcDir c = some (true, c1, db) ∧
      c1.writeBuff_.readable =
        cstr "HTTP/1.1 200 OK\r\n" ++ cstr "Connection: close\r\n" ++
          cstr "Content-type: text/html\r\n" ++
          (cstr "Content-length: " ++ to_string content.length ++ cstr "\r\n\r\n") ∧
      c1.iov0 = ⟨c1.writeBuff_.Peek, c1.writeBuff_.ReadableBytes⟩ ∧
      c1.iov0Bytes = c1.writeBuff_.readable ∧
      c1.iov1 = ⟨0, content.length⟩ ∧ c1.iov1Bytes = content ∧ c1.iovCnt_ = 2 := by
  obtain ⟨p1, p2, p3, p4⟩ := @HttpRequest.parse_get_root past db c.readBuff_ hr hreq
  obtain ⟨m1, m2, m3, m4⟩ := HttpResponse.MakeResponse_ok fs srcDir (cstr "/index.html") false
    content c.writeBuff_ hfile hn hw
  have hne : ¬ c.readBuff_.ReadableBytes ≤ 0 := by
    rw [← Buffer.readable_length _ hr, hreq]; decide
  have hinit : c.request_.Init = HttpRequest.new := rfl
  unfold HttpConn.process
  simp only [hne, if_false, hinit, p1, p2, p3, p4, if_true, HttpResponse.Init_eq _ _ _ _ _ hsrc,
    HttpResponse.FileLen, HttpResponse.File, m3, m4, hn, Option.isSome_some, and_self]
  refine ⟨_, rfl, ?_, rfl, rfl, rfl, ?_, rfl⟩
  · show (HttpResponse.MakeResponse fs _ c.writeBuff_).2.readable = _
    rw [m2, hwe]
    rfl
  · simp only [HttpConn.iov1Bytes, m3]
    simp

/-- Witness of C15: the sample root, whose `index.html` holds 12 bytes. -/
theorem get_root_end_to_end_witness :
    (connWith (cstr "GET / HTTP/1.1\r\nHost: x\r\n\r\n")).readBuff_.readable =
      cstr "GET / HTTP/1.1\r\nHost: x\r\n\r\n" ∧
    ∃ c1, HttpConn.process 0 sampleFs StrMap.empty (cstr "/www")
        (connWith (cstr "GET / HTTP/1.1\r\nHost: x\r\n\r\n")) = some (true, c1, StrMap.empty) ∧
      c1.writeBuff_.readable = cstr "HTTP/1.1 200 OK\r\n" ++ cstr "Connection: close\r\n" ++
        cstr "Content-type: text/html\r\n" ++ cstr "Content-length: 12\r\n\r\n" ∧
      c1.iov1Bytes = cstr "hello world!" ∧ c1.iovCnt_ = 2 :=
  ⟨by decide,
    (get_root_end_to_end 0 sampleFs StrMap.empty (cstr "/www")
      (connWith (cstr "GET / HTTP/1.1\r\nHost: x\r\n\r\n")) (cstr "hello world!")
      (by decide) (by decide) (by decide) (by decide) (by decide) rfl (by decide)).imp
      (fun _ h => ⟨h.1, h.2.1.trans (by decide), h.2.2.2.2.2.1, h.2.2.2.2.2.2⟩)⟩

/-- C19, the code at the failing input: the request
`GET / HTTP/1.1\r\nHost: x\r\n\r\n` parsed at once ends in the state `FINISH`
with the header `Host: x`; split after `GET / HTTP/1.1\r\nHos`, the first call
takes the partial line `Hos` for the end of the headers, and the second call
ends in `FINISH` with no header `Host` and the line `Host: x` as the body. -/
theorem split_header_line_loses_header :
    ((parseTwice 0 StrMap.empty (cstr "GET / HTTP/1.1\r\nHos") (cstr "t: x\r\n\r\n")).2.1.state_,
      (parseTwice 0 StrMap.empty (cstr "GET / HTTP/1.1\r\nHos") (cstr "t: x\r\n\r\n")).2.1.header_
        (cstr "Host"),
      (parseTwice 0 StrMap.empty (cstr "GET / HTTP/1.1\r\nHos") (cstr "t: x\r\n\r\n")).2.1.body_)
      = (PARSE_STATE.FINISH, none, cstr "Host: x") ∧
    ((HttpRequest.parse 0 StrMap.empty HttpRequest.new
        ((Buffer.new 1024).Append (cstr "GET / HTTP/1.1\r\nHost: x\r\n\r\n"))).2.1.state_,
      (HttpRequest.parse 0 StrMap.empty HttpRequest.new
        ((Buffer.new 1024).Append (cstr "GET / HTTP/1.1\r\nHost: x\r\n\r\n"))).2.1.header_
        (cstr "Host"))
      = (PARSE_STATE.FINISH, some (cstr "x")) := by
  decide

/-! ### More claims on `HttpRequest` -/

/-- C27, the code at the failing inputs: for the body `k=%`, of length 3, the
`%` case reads `body_[3]` and `body_[4]`, and for the body `k=%4`, of length 4,
it reads `body_[3]` and `body_[4]`; the index 4 is not below the length in
either, nor is the index 3 in the first.  This holds whatever byte `past` the
memory behind the terminator holds. -/
theorem form_percent_reads_past_end (past : Byte) :
    formReadsOf past (cstr "k=%") = [3, 4] ∧ (cstr "k=%").length = 3 ∧
    formReadsOf past (cstr "k=%4") = [3, 4] ∧ (cstr "k=%4").length = 4 :=
  ⟨rfl, by decide, rfl, by decide⟩

/-- C28, the code at the failing input: a buffer holding exactly the request
`POST /login` with the body `username=alice&password=pw`.  `parse` returns true
in the state `FINISH`, and the 26 bytes of the body are still in the buffer:
the body line has no `\r\n` after it, so the loop leaves at the `break` of line
76 before `RetrieveUntil`.  A `GET` without body leaves the buffer empty. -/
theorem post_body_left_in_buffer :
    ((HttpRequest.parse 0 StrMap.empty HttpRequest.new ((Buffer.new 1024).Append postRequest)).1,
      (HttpRequest.parse 0 StrMap.empty HttpRequest.new
        ((Buffer.new 1024).Append postRequest)).2.1.state_,
      (HttpRequest.parse 0 StrMap.empty HttpRequest.new
        ((Buffer.new 1024).Append postRequest)).2.2.1.readable)
      = (true, PARSE_STATE.FINISH, cstr "username=alice&password=pw") ∧
    ((HttpRequest.parse 0 StrMap.empty HttpRequest.new
        ((Buffer.new 1024).Append (cstr "GET / HTTP/1.1\r\nHost: x\r\n\r\n"))).2.1.state_,
      (HttpRequest.parse 0 StrMap.empty HttpRequest.new
        ((Buffer.new 1024).Append (cstr "GET / HTTP/1.1\r\nHost: x\r\n\r\n"))).2.2.1.readable)
      = (PARSE_STATE.FINISH, []) := by
  decide

namespace HttpRequest

theorem ParsePath_idem (r : HttpRequest) : r.ParsePath_.ParsePath_ = r.ParsePath_ := by
  unfold ParsePath_
  by_cases h1 : r.path_ = cstr "/"
  · simp only [h1, if_true]
    rfl
  · simp only [h1, if_false]
    by_cases h2 : r.path_ ∈ DEFAULT_HTML
    · simp only [h2, if_true]
      have h3 : r.path_ ++ cstr ".html" ≠ cstr "/" := by
        intro h
        have := congrArg List.length h
        simp only [List.length_append] at this
        have h4 : (cstr ".html").length = 5 := by decide
        have h5 : (cstr "/").length = 1 := by decide
        omega
      have h4 : r.path_ ++ cstr ".html" ∉ DEFAULT_HTML := by
        unfold DEFAULT_HTML at h2 ⊢
        simp only [List.mem_cons, List.mem_singleton, List.not_mem_nil, or_false] at h2
        rcases h2 with h | h | h | h | h | h <;> rw [h] <;> decide
      simp only [h3, h4, if_false]
    · simp only [h2, if_false, h1]

end HttpRequest

/-- C25. `ParsePath_` maps the path `/` to `/index.html`, appends `.html` to each
of `/index`, `/register`, `/login`, `/welcome`, `/video`, `/picture`, leaves a
request with any other path as it is, and changes nothing but the path; a
second application changes nothing; and the `switch` of `parse` applies it to
the request that `ParseRequestLine_` accepted. -/
theorem ParsePath_normalises (past : Byte) (db : UserTable) (r : HttpRequest) (buff : Buffer)
    (line : List Byte) :
    (r.path_ = cstr "/" → r.ParsePath_ = { r with path_ := cstr "/index.html" }) ∧
    (r.path_ = cstr "/index" ∨ r.path_ = cstr "/register" ∨ r.path_ = cstr "/login" ∨
      r.path_ = cstr "/welcome" ∨ r.path_ = cstr "/video" ∨ r.path_ = cstr "/picture" →
        r.ParsePath_ = { r with path_ := r.path_ ++ cstr ".html" }) ∧
    (r.path_ ≠ cstr "/" ∧ r.path_ ≠ cstr "/index" ∧ r.path_ ≠ cstr "/register" ∧
      r.path_ ≠ cstr "/login" ∧ r.path_ ≠ cstr "/welcome" ∧ r.path_ ≠ cstr "/video" ∧
      r.path_ ≠ cstr "/picture" → r.ParsePath_ = r) ∧
    r.ParsePath_.ParsePath_ = r.ParsePath_ ∧
    (r.state_ = .REQUEST_LINE → (r.ParseRequestLine_ line).1 = true →
      HttpRequest.parseSwitch past db r buff line = some ((r.ParseRequestLine_ line).2.ParsePath_, db)) := by
  refine ⟨?_, ?_, ?_, HttpRequest.ParsePath_idem r, ?_⟩
  · intro h
    unfold HttpRequest.ParsePath_
    rw [if_pos h]
  · intro h
    have h1 : r.path_ ≠ cstr "/" := by
      rcases h with h | h | h | h | h | h <;> rw [h] <;> decide
    have h2 : r.path_ ∈ DEFAULT_HTML := by
      unfold DEFAULT_HTML
      simp only [List.mem_cons, List.mem_singleton, List.not_mem_nil, or_false]
      exact h
    unfold HttpRequest.ParsePath_
    rw [if_neg h1, if_pos h2]
  · intro h
    have h2 : r.path_ ∉ DEFAULT_HTML := by
      unfold DEFAULT_HTML
      simp only [List.mem_cons, List.mem_singleton, List.not_mem_nil, or_false]
      tauto
    unfold HttpRequest.ParsePath_
    rw [if_neg h.1, if_neg h2]
  · intro hst hacc
    unfold HttpRequest.parseSwitch
    rw [hst]
    simp only [hacc, Bool.not_true, Bool.false_eq_true, if_false]

/-- Witness of C25: the path `/login`. -/
theorem ParsePath_normalises_witness :
    ({ HttpRequest.new with path_ := cstr "/login" } : HttpRequest).ParsePath_.path_
      = cstr "/login.html" :=
  (congrArg HttpRequest.path_
    ((ParsePath_normalises 0 StrMap.empty { HttpRequest.new with path_ := cstr "/login" }
      (Buffer.new 0) []).2.1 (by decide))).trans (by decide)

/-! ### `adjust` where sifting down is enough -/

namespace HeapTimer

/-- The `(id, callback)` pairs of a heap vector do not change when a node is
overwritten by one with the same id and callback. -/
theorem map_set_same (h : List TimerNode) (i : Nat) (node : TimerNode)
    (hn : (node.id, node.cb) = ((heapAt h i).id, (heapAt h i).cb)) :
    (h.set i node).map (fun n => (n.id, n.cb)) = h.map (fun n => (n.id, n.cb)) := by
  apply List.ext_getElem
  · simp
  · intro k h1 h2
    simp only [List.getElem_map, List.getElem_set]
    by_cases hik : i = k
    · subst hik
      simp only [if_true]
      rw [hn, heapAt_eq_getElem h i (by simpa using h2)]
    · simp only [hik, if_false]

/-- Everything about `adjust` on the root or toward a later deadline. -/
theorem adjust_spec (t : HeapTimer) (now id newExpires : Int) (i : Nat)
    (hinv : t.IndexInv) (hord : HeapOrdered t.heap_ t.heap_.length) (hi : t.ref_ id = some i)
    (hcase : i = 0 ∨ (heapAt t.heap_ i).expires ≤ now + MS newExpires) :
    ∃ t1, t.adjust now id newExpires = some t1 ∧ t1.IndexInv ∧
      HeapOrdered t1.heap_ t1.heap_.length ∧
      (t1.heap_.map (fun n => (n.id, n.cb))).Perm (t.heap_.map (fun n => (n.id, n.cb))) := by
  obtain ⟨hil, _⟩ := hinv.2 id i hi
  have hget : mapGet t.ref_ id = i := by unfold mapGet; rw [hi]; rfl
  have hcount : mapCount t.ref_ id = true := by unfold mapCount; rw [hi]; rfl
  have hne : t.heap_.isEmpty = false := by
    cases hh : t.heap_ with
    | nil => rw [hh] at hil; exact absurd hil (by simp)
    | cons a l => rfl
  have hadj : t.adjust now id newExpires = some
      ((HeapTimer.mk (t.heap_.set i { heapAt t.heap_ i with expires := now + MS newExpires })
        t.ref_).siftdown_ i t.heap_.length).1 := by
    unfold adjust
    simp only [hne, hcount, Bool.not_false, Bool.and_self, if_true, hget, List.length_set]
  refine ⟨_, hadj, adjust_indexInv t _ now id newExpires hinv hadj, ?_, ?_⟩
  · have hlen : ((HeapTimer.mk (t.heap_.set i
          { heapAt t.heap_ i with expires := now + MS newExpires }) t.ref_).siftdown_ i
          t.heap_.length).1.heap_.length = t.heap_.length := by
      rw [(siftdown_shuffled _ i t.heap_.length (by simp)).length]
      simp
    rw [hlen]
    apply siftdownLoop_heapOrdered (t.heap_.length - i) _ i t.heap_.length (Nat.le_refl _)
      (by simp)
    · intro k hk hk0 hpi
      show (heapAt (t.heap_.set i _) ((k - 1) / 2)).expires ≤ (heapAt (t.heap_.set i _) k).expires
      rw [heapAt_set_ne _ _ _ _ (Ne.symm hpi)]
      by_cases hki : k = i
      · subst hki
        rw [heapAt_set_eq _ _ _ hk]
        show (heapAt t.heap_ ((k - 1) / 2)).expires ≤ now + MS newExpires
        have h1 := hord k hk hk0
        rcases hcase with h | h
        · omega
        · omega
      · rw [heapAt_set_ne _ _ _ _ (Ne.symm hki)]
        exact hord k hk hk0
    · intro k hk hk0 hpi hi0
      show (heapAt (t.heap_.set i _) ((i - 1) / 2)).expires ≤ (heapAt (t.heap_.set i _) k).expires
      rw [heapAt_set_ne _ _ _ _ (by omega : i ≠ (i - 1) / 2),
        heapAt_set_ne _ _ _ _ (by omega : i ≠ k)]
      have h1 := hord k hk hk0
      have h2 := hord i hil hi0
      rw [hpi] at h1
      omega
  · have hp := (siftdown_shuffled (HeapTimer.mk (t.heap_.set i
        { heapAt t.heap_ i with expires := now + MS newExpires }) t.ref_) i t.heap_.length
        (by simp)).perm
    have hm := hp.map (fun n => (n.id, n.cb))
    have hs : (t.heap_.set i { heapAt t.heap_ i with expires := now + MS newExpires }).map
        (fun n => (n.id, n.cb)) = t.heap_.map (fun n => (n.id, n.cb)) :=
      map_set_same t.heap_ i _ rfl
    exact hs ▸ hm

end HeapTimer

/-- C26. On a timer with a right index map and an ordered heap, for an id that
is present: if its node is the root, or if the new deadline `now + newExpires`
is not earlier than the node's deadline, `adjust` returns, both invariants hold
afterwards, and the `(id, callback)` pairs of the heap are the same up to
order. -/
theorem adjust_siftdown_suffices (t : HeapTimer) (now id newExpires : Int) (i : Nat)
    (hinv : t.IndexInv) (hord : HeapOrdered t.heap_ t.heap_.length) (hi : t.ref_ id = some i)
    (hcase : i = 0 ∨ (heapAt t.heap_ i).expires ≤ now + MS newExpires) :
    ∃ t1, t.adjust now id newExpires = some t1 ∧ t1.IndexInv ∧
      HeapOrdered t1.heap_ t1.heap_.length ∧
      (t1.heap_.map (fun n => (n.id, n.cb))).Perm (t.heap_.map (fun n => (n.id, n.cb))) :=
  HeapTimer.adjust_spec t now id newExpires i hinv hord hi hcase

/-- Witness of C26: on the timer with the nodes of id 1 (100 ms, the root) and
id 2 (200 ms), `adjust(1, 300)` at the clock reading 0; the root goes down
below the node of id 2. -/
theorem adjust_siftdown_suffices_witness :
    sampleTimer.ref_ 1 = some 0 ∧
    ∃ t1, sampleTimer.adjust 0 1 300 = some t1 ∧ t1.IndexInv ∧
      HeapOrdered t1.heap_ t1.heap_.length ∧
      (t1.heap_.map (fun n => (n.id, n.cb))).Perm
        (sampleTimer.heap_.map (fun n => (n.id, n.cb))) :=
  ⟨by decide, adjust_siftdown_suffices sampleTimer 0 1 300 0 HeapTimer.sampleTimer_indexInv
    HeapTimer.sampleTimer_heapOrdered (by decide) (Or.inl rfl)⟩

/-! ## Part XVI: proofs about the tasks of the worker threads -/

namespace HttpConn

theorem read_fd (isET : Bool) (stack : List Byte) (outcomes : List ReadvOutcome) :
    ∀ (c : HttpConn) (saveErrno : Int) (r : HttpConn × Int × Int),
      c.read isET stack saveErrno outcomes = some r → r.1.fd_ = c.fd_ := by
  induction outcomes with
  | nil => intro c e r h; exact absurd h (by simp [read])
  | cons o rest ih =>
    intro c e r h
    rw [read] at h
    split at h
    · simp only [Option.some.injEq] at h
      rw [← h]
    · split at h
      · exact (ih _ _ r h).trans rfl
      · simp only [Option.some.injEq] at h
        rw [← h]

theorem writeIteration_fd (c : HttpConn) (len errno saveErrno : Int) :
    (c.writeIteration len errno saveErrno).1.fd_ = c.fd_ := by
  unfold writeIteration
  split
  · rfl
  · split
    · rfl
    · split
      · simp only
        split <;> rfl
      · rfl

theorem write_fd (isET : Bool) (results : List (Int × Int)) :
    ∀ (c : HttpConn) (saveErrno : Int) (r : HttpConn × Int × Int),
      c.write isET saveErrno results = some r → r.1.fd_ = c.fd_ := by
  induction results with
  | nil => intro c e r h; exact absurd h (by simp [write])
  | cons o rest ih =>
    intro c e r h
    obtain ⟨len, errno⟩ := o
    rw [write] at h
    split at h
    · simp only [Option.some.injEq] at h
      rw [← h]
      exact writeIteration_fd c len errno e
    · split at h
      · exact (ih _ _ r h).trans (writeIteration_fd c len errno e)
      · simp only [Option.some.injEq] at h
        rw [← h]
        exact writeIteration_fd c len errno e

end HttpConn

namespace WebServer

/-- `CloseConn_` of the connection a task has just worked on: it returns, the
timer is untouched, the entry of the connection is erased and no other is
changed. -/
theorem CloseConn_setClient (s : WebServer) (key : Int) (c : HttpConn) (hfd : c.fd_ = key) :
    ∃ s1, (s.setClient key c).CloseConn_ key = some s1 ∧ s1.timer_ = s.timer_ ∧
      s1.users_ key = none ∧ ∀ x, x ≠ key → s1.users_ x = s.users_ x := by
  unfold CloseConn_ setClient
  simp only [if_true]
  refine ⟨_, rfl, rfl, ?_, ?_⟩
  · simp [HttpConn.GetFd, hfd]
  · intro x hx
    simp [HttpConn.GetFd, hfd, hx]

theorem OnProcess_frame {past : Byte}
    (s : WebServer) (fs : FileSystem) (db : UserTable) (srcDir : List Byte)
    (key : Int) (r : WebServer × UserTable) (h : s.OnProcess past fs db srcDir key = some r) :
    r.1.timer_ = s.timer_ ∧ (r.1.users_ key).isSome ∧ ∀ x, x ≠ key → r.1.users_ x = s.users_ x := by
  unfold OnProcess at h
  cases hu : s.users_ key with
  | none => rw [hu] at h; exact absurd h (by simp)
  | some c =>
    rw [hu] at h
    simp only at h
    cases hp : c.process past fs db srcDir with
    | none => rw [hp] at h; exact absurd h (by simp)
    | some res =>
      obtain ⟨flag, c1, db1⟩ := res
      rw [hp] at h
      simp only at h
      split at h
      · simp only [Option.some.injEq] at h
        rw [← h]
        refine ⟨rfl, by simp [setClient], ?_⟩
        intro x hx
        simp [setClient, hx]
      · simp only [Option.some.injEq] at h
        rw [← h]
        refine ⟨rfl, by simp [setClient], ?_⟩
        intro x hx
        simp [setClient, hx]

theorem setClient_frame (s : WebServer) (key : Int) (c : HttpConn) :
    (s.setClient key c).timer_ = s.timer_ ∧ (s.setClient key c).users_ key = some c ∧
      ∀ x, x ≠ key → (s.setClient key c).users_ x = s.users_ x := by
  refine ⟨rfl, by simp [setClient], ?_⟩
  intro x hx
  simp [setClient, hx]

end WebServer

/-- C21, the code at the failing input: the task `OnRead_` on the connection of
the fd 5, whose `readv` fails with `ECONNRESET` (104).  The connection is in the
table before the task and is gone after it: the task, which the thread pool
runs on a worker thread, has reached `users_.erase(fd)` through `CloseConn_`.
`users_` is a `std::unordered_map` without a lock, which the reactor thread
reads and writes at the same time (`users_[fd]`, `users_.count`, `users_.find`). -/
theorem OnRead_erases_table_entry :
    (serverWithClient.users_ 5).isSome = true ∧
    (serverWithClient.OnRead_ 0 false (List.replicate stackBuffSize 0) [.fail 104] sampleFs
        StrMap.empty (cstr "/www") 5).map (fun r => (r.1.users_ 5).isSome) = some false := by
  decide

/-- The statements of the three tasks that reach the table and the timer heap,
for a connection stored in the table under its fd `key`.  None of them reaches
`timer_`, and the entries of the other fds are left as they were.  `OnProcess`
has no `CloseConn_`.  `OnRead_` reaches `CloseConn_`, and with it
`users_.erase(fd)`, when `read` returned `ret ≤ 0` with an `errno` other than
`EAGAIN`; `OnWrite_` reaches it on every path but two: nothing left to write on
a keep-alive connection, and bytes left after `write` failed with `EAGAIN`. -/
theorem worker_tasks_frame {past : Byte} (s : WebServer) (key : Int) (c : HttpConn)
    (hu : s.users_ key = some c) (hfd : c.fd_ = key) :
    (∀ fs db srcDir r, s.OnProcess past fs db srcDir key = some r →
      r.1.timer_ = s.timer_ ∧ (r.1.users_ key).isSome ∧
      ∀ x, x ≠ key → r.1.users_ x = s.users_ x) ∧
    (∀ isET stack outcomes fs db srcDir r c1 ret e,
      c.read isET stack 0 outcomes = some (c1, ret, e) →
      s.OnRead_ past isET stack outcomes fs db srcDir key = some r →
      r.1.timer_ = s.timer_ ∧ (∀ x, x ≠ key → r.1.users_ x = s.users_ x) ∧
      ((r.1.users_ key).isSome = false ↔ (ret ≤ 0 ∧ e ≠ EAGAIN))) ∧
    (∀ isET results s1 c1 ret e,
      c.write isET 0 results = some (c1, ret, e) →
      s.OnWrite_ isET results key = some s1 →
      s1.timer_ = s.timer_ ∧ (∀ x, x ≠ key → s1.users_ x = s.users_ x) ∧
      ((s1.users_ key).isSome = true ↔
        ((c1.ToWriteBytes = 0 ∧ c1.IsKeepAlive = true) ∨
          (c1.ToWriteBytes ≠ 0 ∧ ret < 0 ∧ e = EAGAIN)))) := by
  refine ⟨?_, ?_, ?_⟩
  · intro fs db srcDir r h
    exact WebServer.OnProcess_frame s fs db srcDir key r h
  · intro isET stack outcomes fs db srcDir r c1 ret e hread h
    have hfd1 : c1.fd_ = key := (HttpConn.read_fd isET stack outcomes c 0 _ hread).trans hfd
    obtain ⟨f1, f2, f3⟩ := WebServer.setClient_frame s key c1
    unfold WebServer.OnRead_ at h
    rw [hu] at h
    simp only [hread] at h
    by_cases hc : ret ≤ 0 ∧ e ≠ EAGAIN
    · rw [if_pos hc] at h
      obtain ⟨s2, h1, h2, h3, h4⟩ := WebServer.CloseConn_setClient s key c1 hfd1
      rw [h1] at h
      simp only [Option.map_some', Option.some.injEq] at h
      rw [← h]
      refine ⟨h2, h4, ?_⟩
      simp only [h3, Option.isSome_none, true_iff]
      exact hc
    · rw [if_neg hc] at h
      obtain ⟨g1, g2, g3⟩ := WebServer.OnProcess_frame _ fs db srcDir key r h
      refine ⟨g1.trans f1, fun x hx => (g3 x hx).trans (f3 x hx), ?_⟩
      rw [g2]
      simp only [Bool.true_eq_false, false_iff]
      exact hc
  · intro isET results s1 c1 ret e hwrite h
    have hfd1 : c1.fd_ = key := (HttpConn.write_fd isET results c 0 _ hwrite).trans hfd
    obtain ⟨f1, f2, f3⟩ := WebServer.setClient_frame s key c1
    obtain ⟨s2, h1, h2, h3, h4⟩ := WebServer.CloseConn_setClient s key c1 hfd1
    unfold WebServer.OnWrite_ at h
    rw [hu] at h
    simp only [hwrite, h1] at h
    by_cases hz : c1.ToWriteBytes = 0
    · rw [if_pos hz] at h
      by_cases hk : c1.IsKeepAlive = true
      · rw [if_pos hk] at h
        simp only [Option.some.injEq] at h
        rw [← h]
        refine ⟨f1, f3, ?_⟩
        show ((s.setClient key c1).users_ key).isSome = true ↔ _
        rw [f2]
        simp [hz, hk]
      · rw [if_neg hk] at h
        simp only [Option.some.injEq] at h
        rw [← h]
        refine ⟨h2, h4, ?_⟩
        rw [h3]
        simp [hz, hk]
    · rw [if_neg hz] at h
      by_cases hr : ret < 0
      · rw [if_pos hr] at h
        by_cases he : e = EAGAIN
        · rw [if_pos he] at h
          simp only [Option.some.injEq] at h
          rw [← h]
          refine ⟨f1, f3, ?_⟩
          show ((s.setClient key c1).users_ key).isSome = true ↔ _
          rw [f2]
          simp [hz, hr, he]
        · rw [if_neg he] at h
          simp only [Option.some.injEq] at h
          rw [← h]
          refine ⟨h2, h4, ?_⟩
          rw [h3]
          simp [hz, hr, he]
      · rw [if_neg hr] at h
        simp only [Option.some.injEq] at h
        rw [← h]
        refine ⟨h2, h4, ?_⟩
        rw [h3]
        simp [hz, hr]

/-- The path of `OnRead_` without `CloseConn_`, on the connection of the fd 5:
`readv` fails with `EAGAIN`, the task goes on to `OnProcess` and the entry
stays. -/
theorem OnRead_eagain_keeps_entry :
    ∃ c r, serverWithClient.users_ 5 = some c ∧ c.fd_ = 5 ∧
      serverWithClient.OnRead_ 0 false (List.replicate stackBuffSize 0) [.fail 11] sampleFs
        StrMap.empty (cstr "/www") 5 = some r ∧
      r.1.timer_ = serverWithClient.timer_ ∧ (r.1.users_ 5).isSome = true := by
  refine ⟨_, _, rfl, rfl, rfl, ?_, by decide⟩
  exact ((@worker_tasks_frame 0 serverWithClient 5 _ rfl rfl).2.1 false
    (List.replicate stackBuffSize 0) [.fail 11] sampleFs StrMap.empty (cstr "/www") _ _ _ _
    rfl rfl).1

/-- C30, the code at the failing input: LT mode, 83 header bytes and 12 file
bytes pending on the connection of the fd 5, and `writev` sends 40 bytes.
`write` returns 40 with 55 bytes still to write, and `OnWrite_` closes the
connection: it is erased from the table and the fd is deregistered, not re-armed
for writing.  In ET mode, where `write` goes on until `writev` fails with
`EAGAIN`, the fd is re-armed with `EPOLLOUT`. -/
theorem OnWrite_closes_with_bytes_pending :
    ((serverWithResponse.users_ 5).bind (fun c => c.write false 0 [(40, 0)])).map
      (fun r => (r.1.ToWriteBytes, r.2.1, r.2.2)) = some (55, 40, 0) ∧
    (serverWithResponse.OnWrite_ false [(40, 0)] 5).map
      (fun s => ((s.users_ 5).isSome, s.epoller_ 5)) = some (false, none) ∧
    (serverWithResponse.OnWrite_ true [(40, 0), (-1, 11)] 5).map
      (fun s => ((s.users_ 5).isSome, s.epoller_ 5)) = some (true, some EPOLLOUT) := by
  decide

/-! ## Part XVII: proofs about the pool, the queue and the log -/

namespace HttpRequest

/-- With the pool, `UserVerify` returns the flag and the table it returns
without it. -/
theorem UserVerify_pool_eq (p : SqlConnPool) (db : UserTable) (name pwd : List Byte)
    (isLogin : Bool) (r : Bool × UserTable × SqlConnPool × List SqlQuery)
    (h : UserVerify_pool p db name pwd isLogin = some r) :
    (r.1, r.2.1) = UserVerify db name pwd isLogin := by
  unfold UserVerify_pool at h
  unfold UserVerify
  by_cases he : name = [] ∨ pwd = []
  · rw [if_pos he] at h
    rw [if_pos he]
    simp only [Option.some.injEq] at h
    rw [← h]
  · rw [if_neg he] at h
    rw [if_neg he]
    cases hc : SqlConnRAII.ctor p with
    | none => rw [hc] at h; exact absurd h (by simp)
    | some x =>
      obtain ⟨raii, sql, p1⟩ := x
      rw [hc] at h
      simp only at h
      cases hd : raii.dtor p1 with
      | none => rw [hd] at h; exact absurd h (by simp)
      | some p2 =>
        rw [hd] at h
        simp only at h
        by_cases hs : sql = 0
        · rw [if_pos hs] at h; exact absurd h (by simp)
        · rw [if_neg hs] at h
          cases hsel : mysqlSelect db (selectOrder name) with
          | none =>
            simp only [hsel, Option.some.injEq] at h
            simp only [hsel]
            rw [← h]
          | some row =>
            cases hins : mysqlInsert db (insertOrder name pwd) <;> cases isLogin <;>
              cases row <;> simp [hsel, hins] at h <;> rw [← h] <;> simp [hsel, hins]

/-- Every query of `UserVerify` is issued on a handle that is back in the free
queue of the pool. -/
theorem UserVerify_pool_unleased (p : SqlConnPool) (db : UserTable) (name pwd : List Byte)
    (isLogin : Bool) (r : Bool × UserTable × SqlConnPool × List SqlQuery)
    (h : UserVerify_pool p db name pwd isLogin = some r) :
    ∀ q ∈ r.2.2.2, q.pool.leased q.sql = false ∧ q.pool.semId_ = p.semId_ := by
  unfold UserVerify_pool at h
  by_cases he : name = [] ∨ pwd = []
  · rw [if_pos he] at h
    simp only [Option.some.injEq] at h
    rw [← h]
    intro q hq
    exact absurd hq (by simp)
  · rw [if_neg he] at h
    cases hg : p.GetConn with
    | none =>
      simp only [SqlConnRAII.ctor, hg] at h
      exact absurd h (by simp)
    | some x =>
      obtain ⟨sql, p1⟩ := x
      simp only [SqlConnRAII.ctor, hg, SqlConnRAII.dtor] at h
      by_cases hs : sql = 0
      · simp only [hs, ne_eq, not_true_eq_false, if_false, if_true] at h
        exact absurd h (by simp)
      · simp only [ne_eq, hs, not_false_eq_true, if_true, SqlConnPool.FreeConn, if_false] at h
        have hsem : p1.semId_ + 1 = p.semId_ := by
          unfold SqlConnPool.GetConn at hg
          split at hg
          · exact absurd hg (by simp)
          · rename_i hz
            cases hq : p.connQue_ with
            | nil =>
              simp only [hq, Option.some.injEq, Prod.mk.injEq] at hg
              rw [← hg.2]
              show p.semId_ - 1 + 1 = p.semId_
              omega
            | cons a l =>
              simp only [hq, Option.some.injEq, Prod.mk.injEq] at hg
              rw [← hg.2]
              show p.semId_ - 1 + 1 = p.semId_
              omega
        have hq : ∀ q : SqlQuery, q = ⟨sql, ⟨p1.connQue_ ++ [sql], p1.semId_ + 1⟩⟩ →
            q.pool.leased q.sql = false ∧ q.pool.semId_ = p.semId_ := by
          intro q hq
          rw [hq]
          exact ⟨by simp [SqlConnPool.leased], hsem⟩
        cases hsel : mysqlSelect db (selectOrder name) with
        | none =>
          simp only [hsel, Option.some.injEq] at h
          rw [← h]
          intro q hm
          simp at hm
          exact hq q hm
        | some row =>
          cases hins : mysqlInsert db (insertOrder name pwd) <;> cases isLogin <;>
            cases row <;> simp [hsel, hins] at h <;> rw [← h] <;>
            intro q hm <;> simp at hm <;> exact hq q hm

end HttpRequest

/-- C22, the code at the failing input: `UserVerify` for the login of `alice` on
a pool with the one free handle 7 and the semaphore count 1.  The temporary
`SqlConnRAII` returns the handle at the end of its statement, so the `SELECT` is
issued on the handle 7 while it is in the free queue again and the count is
back at 1: the handle is not leased during the query. -/
theorem lease_released_before_query :
    (HttpRequest.UserVerify_pool ⟨[7], 1⟩
        (StrMap.assign StrMap.empty (cstr "alice") (cstr "pw")) (cstr "alice") (cstr "pw") true).map
      (fun r => (r.1, r.2.2.1, r.2.2.2, r.2.2.2.map (fun q => q.pool.leased q.sql)))
      = some (true, ⟨[7], 1⟩, [⟨7, ⟨[7], 1⟩⟩], [false]) := by
  decide

/-- C23, the code on every closed queue: after `Close` the untimed `pop` never
returns, however often its wait is woken, since its loop tests `deq_.empty()`
only; the timed `pop` returns false; and `push_back` stores the item, so the
queue holds it afterwards (on a queue of capacity 0 it waits). -/
theorem closed_queue_pop_waits_push_stored (q : BlockQueue Nat) (wakeups : Nat)
    (waits : List cv_status) (item : Nat) :
    q.Close.pop wakeups = Waiting.blocks ∧
    (q.Close.popTimed waits).1 = false ∧
    q.Close.push_back item wakeups =
      (if q.capacity_ = 0 then Waiting.blocks
       else Waiting.returns ⟨[item], true, q.capacity_⟩) := by
  refine ⟨?_, ?_, ?_⟩
  · induction wakeups with
    | zero => rfl
    | succ w ih => exact ih
  · cases waits with
    | nil => rfl
    | cons w ws =>
      cases w <;> rfl
  · induction wakeups with
    | zero =>
      by_cases h : q.capacity_ = 0
      · simp [BlockQueue.push_back, BlockQueue.Close, BlockQueue.clear, h]
      · simp [BlockQueue.push_back, BlockQueue.Close, BlockQueue.clear, h]
    | succ w ih =>
      by_cases h : q.capacity_ = 0
      · rw [if_pos h] at ih ⊢
        rw [BlockQueue.push_back]
        rw [if_pos (by simp [BlockQueue.Close, BlockQueue.clear, h])]
        exact ih
      · simp [BlockQueue.push_back, BlockQueue.Close, BlockQueue.clear, h]

/-- C24, the code at the failing input: the log file of the fifth of January
2024 is open with one line written, and `write` is called on the fifth of
February 2024.  Only `tm_mday` is compared, so the file stays
`./log/2024_01_05.log` and the line count stays 1, where the claim has the file
`./log/2024_02_05.log` and the count 0. -/
theorem same_day_of_month_no_rotation :
    (sampleLog.fp_, sampleLog.lineCount_, sampleLog.toDay_)
      = (some (cstr "./log/2024_01_05.log"), 1, 5) ∧
    ((sampleLog.rotate feb5).fp_, (sampleLog.rotate feb5).lineCount_)
      = (some (cstr "./log/2024_01_05.log"), 1) ∧
    (sampleLog.write 1 feb5 5 (cstr "next")).map (fun x => (x.1.fp_, x.1.lineCount_))
      = some (some (cstr "./log/2024_01_05.log"), 2) := by
  decide

theorem snprintf_length (v : List Byte) (pos size : Nat) (s : List Byte) :
    (snprintf v pos size s).1.length = v.length := by
  unfold snprintf
  split
  · rfl
  · exact stdCopy_length _ _ _

/-- C29, the code at the failing input: a message of 1000 bytes at level 1 on
the log buffer of 1024 bytes.  After the timestamp (27 bytes) and the level tag
(9 bytes) `vsnprintf` has room for 987 bytes and returns 1000, and
`HasWritten(1000)` moves the write cursor to 1036, beyond the 1024 bytes of the
vector; `write` then has no defined result. -/
theorem long_message_overruns_log_buffer :
    ((Log.new.init 1 (cstr "./log") (cstr ".log") 0 jan5).formatRecord 1 jan5 123
        (List.replicate 1000 65)).buff_.writeIndex_ = 1036 ∧
    ((Log.new.init 1 (cstr "./log") (cstr ".log") 0 jan5).formatRecord 1 jan5 123
        (List.replicate 1000 65)).buff_.buffer_.length = 1024 ∧
    (Log.new.init 1 (cstr "./log") (cstr ".log") 0 jan5).write 1 jan5 123
        (List.replicate 1000 65) = none := by
  have hw : ((Log.new.init 1 (cstr "./log") (cstr ".log") 0 jan5).formatRecord 1 jan5 123
      (List.replicate 1000 65)).buff_.writeIndex_ = 1036 := by decide
  have hl : ((Log.new.init 1 (cstr "./log") (cstr ".log") 0 jan5).formatRecord 1 jan5 123
      (List.replicate 1000 65)).buff_.buffer_.length = 1024 := by
    unfold Log.formatRecord
    simp only [Buffer.HasWritten]
    rw [snprintf_length]
    decide
  refine ⟨hw, hl, ?_⟩
  have hr : (Log.new.init 1 (cstr "./log") (cstr ".log") 0 jan5).rotate jan5
      = Log.new.init 1 (cstr "./log") (cstr ".log") 0 jan5 := rfl
  unfold Log.write
  simp only [hr]
  rw [if_pos (by rw [hw, hl]; decide)]
